import Mathlib

/-!
The GEMM kernel of nmatrix (`ext/nmatrix/blas/gemm.template.c`)

A shallow embedding of the templated routine `%%TYPE_ABBREV%%gemm` and a
verification of its contract.

* The element type `%%TYPE%%` is a type `α` carrying `0`, `1`, `+`, `*` and a
  decidable equality; no algebraic law is assumed by the definitions.
* The C `int` arguments (`TransA`, `TransB`, `M`, `N`, `K`, `lda`, `ldb`,
  `ldc`) are integers; loop counters start at `0` and count upwards, so they
  are natural numbers that are cast back to integers when an index is formed.
* A buffer is a list; reading or writing outside of it is undefined behaviour
  in C and is `none` here, so the routine returns an `Option`.
* Index arithmetic is done in unbounded integers: an index that is inside a
  buffer whose length fits in `int` is a sum of non-negative terms below that
  length, so the accesses that succeed here do not overflow in C either.
* The observable outcome of a call is the returned `int`, the diagnostic
  written to `stderr` (if any) and the final contents of `C`.  `A` and `B` are
  `const` and passed by value here, so they cannot change.
* The loop nests are given a second time with a storage type and an accumulator
  type (`computeW`), to follow where a partial sum is narrowed; with identity
  conversions they are the nests of `compute`.
-/

set_option linter.unusedSectionVars false

namespace NMatrix

/-! ## Constants and macros that live outside of the template -/

/-- Modelled from the spec: the enumerator `CblasNoTrans` of `enum CBLAS_TRANSPOSE`
is declared in a header that is not part of the template; the interface section
gives `NoTranspose = 111`. -/
def CblasNoTrans : Int := 111

/-- Modelled from the spec: the macro `NM_MAX` is defined in a header that is not
part of the template; the validator section reads `NM_MAX(1, x)` as `max(1, x)`. -/
def NM_MAX (a b : Int) : Int := if a > b then a else b

/-! ## Outcome of a call -/

/-- The eight diagnostics of the parameter test (lines 22-46), one per `fprintf`;
the last three carry the two integers that the message prints. -/
inductive GemmDiag where
  | transA
  | transB
  | negM
  | negN
  | negK
  | lda (num_rows_a lda : Int)
  | ldb (num_rows_b ldb : Int)
  | ldc (M ldc : Int)
  deriving DecidableEq, Repr

/-- What a caller can observe after a call: the returned `int`, the diagnostic written
to `stderr` (none on a silent call) and the output buffer. -/
structure GemmResult (α : Type) where
  status : Int
  diag : Option GemmDiag
  C : List α
  deriving DecidableEq, Repr

/-! ## Buffers and loops -/

/-- Read `buf[k]`: `none` when `k` is outside of the buffer. -/
def rd {α : Type} (buf : List α) (k : Int) : Option α :=
  if 0 ≤ k then buf[k.toNat]? else none

/-- Write `buf[k] = v`: `none` when `k` is outside of the buffer. -/
def wr {α : Type} (buf : List α) (k : Int) (v : α) : Option (List α) :=
  if 0 ≤ k ∧ k.toNat < buf.length then some (buf.set k.toNat v) else none

/-- The loop `for (x = 0; x < n; ++x) body`: runs `body 0`, `body 1`, ...,
`body (n-1)` in this order on the state, and stops at the first failure. -/
def forUpTo {σ : Type} : Nat → (Nat → σ → Option σ) → σ → Option σ
  | 0, _, s => some s
  | n + 1, body, s => (forUpTo n body s).bind (body n)

/-! ## The routine -/

section Routine

variable {α : Type} [Zero α] [One α] [Add α] [Mul α] [DecidableEq α]

/-- Lines 15-46: the derived row counts and the parameter test.  The result is the
diagnostic of the first test that fires, `none` when all of them pass. -/
def validate (TransA TransB M N K lda ldb ldc : Int) : Option GemmDiag :=
  let num_rows_a := if TransA = CblasNoTrans then M else K
  let num_rows_b := if TransB = CblasNoTrans then K else N
  if TransA < 111 ∨ TransA > 113 then some GemmDiag.transA
  else if TransB < 111 ∨ TransB > 113 then some GemmDiag.transB
  else if M < 0 then some GemmDiag.negM
  else if N < 0 then some GemmDiag.negN
  else if K < 0 then some GemmDiag.negK
  else if lda < NM_MAX 1 num_rows_a then some (GemmDiag.lda num_rows_a lda)
  else if ldb < NM_MAX 1 num_rows_b then some (GemmDiag.ldb num_rows_b ldb)
  else if ldc < NM_MAX 1 M then some (GemmDiag.ldc M ldc)
  else none

/-- Line 49: `!M || !N || (alpha == 0 || !K) && beta == 1`.  In C `&&` binds tighter
than `||`, which the brackets below spell out. -/
def quickReturn (M N K : Int) (alpha beta : α) : Bool :=
  (decide (M = 0) || decide (N = 0)) ||
    ((decide (alpha = 0) || decide (K = 0)) && decide (beta = 1))

/-- Lines 54-57, 73-75 and 117-119: `for (i = 0; i < M; ++i) C[i+j*ldc] = 0`. -/
def zeroCol (M : Int) (C : List α) (ldc : Int) (j : Nat) : Option (List α) :=
  forUpTo M.toNat (fun i c => wr c ((i : Int) + (j : Int) * ldc) 0) C

/-- Lines 60-62, 77-79 and 121-123: `for (i = 0; i < M; ++i) C[i+j*ldc] *= beta`. -/
def scaleCol (M : Int) (beta : α) (C : List α) (ldc : Int) (j : Nat) : Option (List α) :=
  forUpTo M.toNat (fun i c => do
    let x ← rd c ((i : Int) + (j : Int) * ldc)
    wr c ((i : Int) + (j : Int) * ldc) (x * beta)) C

/-- Lines 52-65, the branch for `alpha == 0`: `C` is zeroed or scaled by `beta`,
column after column. -/
def alphaZero (M N : Int) (beta : α) (C : List α) (ldc : Int) : Option (List α) :=
  if beta = 0 then
    forUpTo N.toNat (fun j c => zeroCol M c ldc j) C
  else
    forUpTo N.toNat (fun j c => scaleCol M beta c ldc j) C

/-- Lines 72-80 and 116-124: the scaling of column `j` by `beta` that opens each
iteration of the two nests with `TransA == CblasNoTrans`. -/
def betaCol (M : Int) (beta : α) (C : List α) (ldc : Int) (j : Nat) : Option (List α) :=
  if beta = 0 then zeroCol M C ldc j
  else if beta ≠ 1 then scaleCol M beta C ldc j
  else some C

/-- Lines 85-87 and 129-131:
`for (i = 0; i < M; ++i) C[i+j*ldc] += A[i+l*lda] * temp`. -/
def axpyCol (M : Int) (A : List α) (lda : Int) (temp : α) (C : List α) (ldc : Int)
    (j l : Nat) : Option (List α) :=
  forUpTo M.toNat (fun i c => do
    let x ← rd c ((i : Int) + (j : Int) * ldc)
    let a ← rd A ((i : Int) + (l : Int) * lda)
    wr c ((i : Int) + (j : Int) * ldc) (x + a * temp)) C

/-- Lines 71-90: `C = alpha*A*B + beta*C`. -/
def gemmNN (M N K : Int) (alpha : α) (A : List α) (lda : Int) (B : List α) (ldb : Int)
    (beta : α) (C : List α) (ldc : Int) : Option (List α) :=
  forUpTo N.toNat (fun j c => do
    let c ← betaCol M beta c ldc j
    forUpTo K.toNat (fun l c => do
      let b ← rd B ((l : Int) + (j : Int) * ldb)
      if b ≠ 0 then
        let temp := alpha * b
        axpyCol M A lda temp c ldc j l
      else some c) c) C

/-- Lines 115-135: `C = alpha*A*B**T + beta*C`. -/
def gemmNT (M N K : Int) (alpha : α) (A : List α) (lda : Int) (B : List α) (ldb : Int)
    (beta : α) (C : List α) (ldc : Int) : Option (List α) :=
  forUpTo N.toNat (fun j c => do
    let c ← betaCol M beta c ldc j
    forUpTo K.toNat (fun l c => do
      let b ← rd B ((j : Int) + (l : Int) * ldb)
      if b ≠ 0 then
        let temp := alpha * b
        axpyCol M A lda temp c ldc j l
      else some c) c) C

/-- Lines 97-100: `temp = 0; for (l = 0; l < K; ++l) temp += A[l+i*lda] * B[l+j*ldb]`. -/
def dotTN (K : Int) (A : List α) (lda : Int) (B : List α) (ldb : Int) (i j : Nat) :
    Option α :=
  forUpTo K.toNat (fun l temp => do
    let a ← rd A ((l : Int) + (i : Int) * lda)
    let b ← rd B ((l : Int) + (j : Int) * ldb)
    some (temp + a * b)) 0

/-- Lines 142-145: `temp = 0; for (l = 0; l < K; ++l) temp += A[l+i*lda] * B[j+l*ldb]`. -/
def dotTT (K : Int) (A : List α) (lda : Int) (B : List α) (ldb : Int) (i j : Nat) :
    Option α :=
  forUpTo K.toNat (fun l temp => do
    let a ← rd A ((l : Int) + (i : Int) * lda)
    let b ← rd B ((j : Int) + (l : Int) * ldb)
    some (temp + a * b)) 0

/-- Lines 102-106 and 147-151: the store that closes the dot-product nests,
`C[i+j*ldc] = alpha*temp` when `beta == 0` and
`C[i+j*ldc] = alpha*temp + beta*C[i+j*ldc]` otherwise. -/
def storeDot (alpha beta temp : α) (C : List α) (ldc : Int) (i j : Nat) :
    Option (List α) :=
  if beta = 0 then
    wr C ((i : Int) + (j : Int) * ldc) (alpha * temp)
  else do
    let x ← rd C ((i : Int) + (j : Int) * ldc)
    wr C ((i : Int) + (j : Int) * ldc) (alpha * temp + beta * x)

/-- Lines 95-108: `C = alpha*A**T*B + beta*C`. -/
def gemmTN (M N K : Int) (alpha : α) (A : List α) (lda : Int) (B : List α) (ldb : Int)
    (beta : α) (C : List α) (ldc : Int) : Option (List α) :=
  forUpTo N.toNat (fun j c =>
    forUpTo M.toNat (fun i c => do
      let temp ← dotTN K A lda B ldb i j
      storeDot alpha beta temp c ldc i j) c) C

/-- Lines 140-153: `C = alpha*A**T*B**T + beta*C`. -/
def gemmTT (M N K : Int) (alpha : α) (A : List α) (lda : Int) (B : List α) (ldb : Int)
    (beta : α) (C : List α) (ldc : Int) : Option (List α) :=
  forUpTo N.toNat (fun j c =>
    forUpTo M.toNat (fun i c => do
      let temp ← dotTT K A lda B ldb i j
      storeDot alpha beta temp c ldc i j) c) C

/-- Lines 68-155: the choice of the loop nest by the two flags. -/
def compute (TransA TransB M N K : Int) (alpha : α) (A : List α) (lda : Int)
    (B : List α) (ldb : Int) (beta : α) (C : List α) (ldc : Int) : Option (List α) :=
  if TransB = CblasNoTrans then
    if TransA = CblasNoTrans then gemmNN M N K alpha A lda B ldb beta C ldc
    else gemmTN M N K alpha A lda B ldb beta C ldc
  else if TransA = CblasNoTrans then gemmNT M N K alpha A lda B ldb beta C ldc
  else gemmTT M N K alpha A lda B ldb beta C ldc

/-- The routine `%%TYPE_ABBREV%%gemm` (lines 2-158).  Every `return` of the source is
`return 0`; a failed parameter test writes its diagnostic first. -/
def gemm (TransA TransB M N K : Int) (alpha : α) (A : List α) (lda : Int)
    (B : List α) (ldb : Int) (beta : α) (C : List α) (ldc : Int) :
    Option (GemmResult α) :=
  match validate TransA TransB M N K lda ldb ldc with
  | some d => some ⟨0, some d, C⟩
  | none =>
    if quickReturn M N K alpha beta then some ⟨0, none, C⟩
    else if alpha = 0 then
      (alphaZero M N beta C ldc).map (fun c => ⟨0, none, c⟩)
    else
      (compute TransA TransB M N K alpha A lda B ldb beta C ldc).map
        (fun c => ⟨0, none, c⟩)

end Routine

/-! ## Vocabulary of the statements -/

/-- The element `buf[k]` as a value, `0` when `k` is outside of the buffer. -/
def elemAt {α : Type} [Zero α] (buf : List α) (k : Int) : α := (rd buf k).getD 0

/-- Buffer `c2` is buffer `c1` with the `m` entries `i + off`, `i < m`, replaced by
`f i`; every other entry, and the length, is the one of `c1`. -/
def ColUpd {α : Type} (m : Nat) (off : Int) (f : Nat → α) (c1 c2 : List α) : Prop :=
  (∀ i : Nat, i < m → rd c2 ((i : Int) + off) = some (f i)) ∧
  (∀ k : Int, (∀ i : Nat, i < m → k ≠ (i : Int) + off) → rd c2 k = rd c1 k)

/-- Buffer `c2` is buffer `c1` with the entries `i + j*ld` of the `m × n` window
replaced by `g i j`; every other entry is the one of `c1`. -/
def WinUpd {α : Type} (m n : Nat) (ld : Int) (g : Nat → Nat → α) (c1 c2 : List α) : Prop :=
  (∀ i j : Nat, i < m → j < n → rd c2 ((i : Int) + (j : Int) * ld) = some (g i j)) ∧
  (∀ k : Int, (∀ i j : Nat, i < m → j < n → k ≠ (i : Int) + (j : Int) * ld) →
    rd c2 k = rd c1 k)

section Values

variable {α : Type} [Zero α] [One α] [Add α] [Mul α] [DecidableEq α]

/-- The value that the scaling of lines 72-80 leaves in an entry that held `x`. -/
def betaVal (beta x : α) : α :=
  if beta = 0 then 0 else if beta ≠ 1 then x * beta else x

/-- The value that `n` rounds of the `l` loop of lines 82-89 leave in an entry that held
`x0`, when `a l` is the element of `A` and `b l` the element of `B` of round `l`. -/
def axpyVal (alpha : α) (a b : Nat → α) (x0 : α) : Nat → α
  | 0 => x0
  | n + 1 =>
    if b n ≠ 0 then axpyVal alpha a b x0 n + a n * (alpha * b n) else axpyVal alpha a b x0 n

/-- The value of `temp` after `n` rounds of the `l` loop of lines 97-100. -/
def dotVal (a b : Nat → α) : Nat → α
  | 0 => 0
  | n + 1 => dotVal a b n + a n * b n

/-- The value that the store of lines 102-106 leaves in an entry that held `x`. -/
def storeVal (alpha beta temp x : α) : α :=
  if beta = 0 then alpha * temp else alpha * temp + beta * x

end Values

section Statements

variable {α : Type} [Zero α] [One α] [Add α] [Mul α] [DecidableEq α]

/-- The number of stored columns of `A`: `K` when `A` is not transposed, `M` otherwise. -/
def colsA (TransA M K : Int) : Int := if TransA = CblasNoTrans then K else M

/-- The number of stored columns of `B`: `N` when `B` is not transposed, `K` otherwise. -/
def colsB (TransB N K : Int) : Int := if TransB = CblasNoTrans then N else K

/-- Entry `(i, l)` of `op(A)`: `A[i + l*lda]` when `A` is not transposed and
`A[l + i*lda]` otherwise. -/
def opA (TransA : Int) (A : List α) (lda : Int) (i l : Nat) : α :=
  if TransA = CblasNoTrans then elemAt A ((i : Int) + (l : Int) * lda)
  else elemAt A ((l : Int) + (i : Int) * lda)

/-- Entry `(l, j)` of `op(B)`: `B[l + j*ldb]` when `B` is not transposed and
`B[j + l*ldb]` otherwise. -/
def opB (TransB : Int) (B : List α) (ldb : Int) (l j : Nat) : α :=
  if TransB = CblasNoTrans then elemAt B ((l : Int) + (j : Int) * ldb)
  else elemAt B ((j : Int) + (l : Int) * ldb)

/-- The value that the loop nest chosen by the flags leaves in entry `(i, j)` of the
window when the entry held `x`: the column-scaling recurrence when `A` is not
transposed, the stored dot product otherwise. -/
def computeVal (TransA TransB K : Int) (alpha : α) (A : List α) (lda : Int) (B : List α)
    (ldb : Int) (beta x : α) (i j : Nat) : α :=
  if TransA = CblasNoTrans then
    axpyVal alpha (fun l => opA TransA A lda i l) (fun l => opB TransB B ldb l j)
      (betaVal beta x) K.toNat
  else
    storeVal alpha beta
      (dotVal (fun l => opA TransA A lda i l) (fun l => opB TransB B ldb l j) K.toNat) x

/-- The value that a call which passes the parameter test leaves in entry `(i, j)` of
the window, path by path. -/
def gemmVal (TransA TransB M N K : Int) (alpha : α) (A : List α) (lda : Int) (B : List α)
    (ldb : Int) (beta : α) (C : List α) (ldc : Int) (i j : Nat) : α :=
  if quickReturn M N K alpha beta then elemAt C ((i : Int) + (j : Int) * ldc)
  else if alpha = 0 then
    (if beta = 0 then 0 else elemAt C ((i : Int) + (j : Int) * ldc) * beta)
  else computeVal TransA TransB K alpha A lda B ldb beta
    (elemAt C ((i : Int) + (j : Int) * ldc)) i j

end Statements

/-! ## The column-scaling nests without the zero test -/

section NoSkip

variable {α : Type} [Zero α] [One α] [Add α] [Mul α] [DecidableEq α]

/-- The loop nest of lines 71-90 with the test `B[l+j*ldb] != 0` of line 83 removed: the
inner `i` loop runs for every `l`.  This is the nest that the sparsity short-circuit is
compared with. -/
def gemmNN_noskip (M N K : Int) (alpha : α) (A : List α) (lda : Int) (B : List α)
    (ldb : Int) (beta : α) (C : List α) (ldc : Int) : Option (List α) :=
  forUpTo N.toNat (fun j c => do
    let c ← betaCol M beta c ldc j
    forUpTo K.toNat (fun l c => do
      let b ← rd B ((l : Int) + (j : Int) * ldb)
      let temp := alpha * b
      axpyCol M A lda temp c ldc j l) c) C

/-- The loop nest of lines 115-135 with the test `B[j+l*ldb] != 0` of line 127
removed. -/
def gemmNT_noskip (M N K : Int) (alpha : α) (A : List α) (lda : Int) (B : List α)
    (ldb : Int) (beta : α) (C : List α) (ldc : Int) : Option (List α) :=
  forUpTo N.toNat (fun j c => do
    let c ← betaCol M beta c ldc j
    forUpTo K.toNat (fun l c => do
      let b ← rd B ((j : Int) + (l : Int) * ldb)
      let temp := alpha * b
      axpyCol M A lda temp c ldc j l) c) C

/-- The value that `n` rounds of the `l` loop without the zero test leave in an entry
that held `x0`. -/
def axpyAllVal (alpha : α) (a b : Nat → α) (x0 : α) : Nat → α
  | 0 => x0
  | n + 1 => axpyAllVal alpha a b x0 n + a n * (alpha * b n)

end NoSkip

/-! ## The loop nests with a storage type and an accumulator type

The template declares `temp` with the type `%%TYPE_LONG%%` (line 11), while `alpha`,
`beta` and the three buffers have the type `%%TYPE%%`.  Here `S` is the storage type,
`L` the accumulator type, `widen : S → L` the conversion of a storage value and
`narrow : L → S` the conversion back that a store into `C` performs. -/

section TwoTypes

variable {S L : Type} [Zero S] [One S] [Add S] [Mul S] [DecidableEq S]
  [Zero L] [Add L] [Mul L]

/-- Modelled from the spec: the generator that expands the directives is not under
`src/`; an expression that involves `temp` is evaluated in the accumulator type, and
the assignment to the element of `C`, which has the storage type, narrows it.  Lines
85-87 and 129-131: `for (i = 0; i < M; ++i) C[i+j*ldc] += A[i+l*lda] * temp`. -/
def axpyColW (widen : S → L) (narrow : L → S) (M : Int) (A : List S) (lda : Int) (temp : L)
    (C : List S) (ldc : Int) (j l : Nat) : Option (List S) :=
  forUpTo M.toNat (fun i c => do
    let x ← rd c ((i : Int) + (j : Int) * ldc)
    let a ← rd A ((i : Int) + (l : Int) * lda)
    wr c ((i : Int) + (j : Int) * ldc) (narrow (widen x + widen a * temp))) C

/-- Modelled from the spec: the expansion of `%%TYPE_LONG temp = alpha * B[..]%%` is not
under `src/`; the product is taken in the accumulator type, of widened operands.  Lines
71-90 and 115-135 with the two types; `bi l j` is the index into `B`, `l + j*ldb` in the
first nest and `j + l*ldb` in the second. -/
def colNestW (widen : S → L) (narrow : L → S) (M N K : Int) (alpha : S) (A : List S)
    (lda : Int) (B : List S) (bi : Nat → Nat → Int) (beta : S) (C : List S) (ldc : Int) :
    Option (List S) :=
  forUpTo N.toNat (fun j c => do
    let c ← betaCol M beta c ldc j
    forUpTo K.toNat (fun l c => do
      let b ← rd B (bi l j)
      if b ≠ 0 then
        let temp : L := widen alpha * widen b
        axpyColW widen narrow M A lda temp c ldc j l
      else some c) c) C

/-- Modelled from the spec: the expansion of `%%TYPE_LONG temp += A[..] * B[..]%%` is not
under `src/`; the product is taken in the accumulator type, of widened operands.  Lines
97-100 and 142-145 with the two types: `temp` has the accumulator type. -/
def dotW (widen : S → L) (K : Int) (A : List S) (lda : Int) (B : List S)
    (bi : Nat → Nat → Int) (i j : Nat) : Option L :=
  forUpTo K.toNat (fun l temp => do
    let a ← rd A ((l : Int) + (i : Int) * lda)
    let b ← rd B (bi l j)
    some (temp + widen a * widen b)) 0

/-- Modelled from the spec: the expansion of `%%TYPE C[..] = alpha*temp + beta*C[..]%%` is
not under `src/`; the value is computed from `temp` in the accumulator type, of widened
operands, and narrowed by the store.  Lines 102-106 and 147-151 with the two types. -/
def storeDotW (widen : S → L) (narrow : L → S) (alpha beta : S) (temp : L) (C : List S)
    (ldc : Int) (i j : Nat) : Option (List S) :=
  if beta = 0 then
    wr C ((i : Int) + (j : Int) * ldc) (narrow (widen alpha * temp))
  else do
    let x ← rd C ((i : Int) + (j : Int) * ldc)
    wr C ((i : Int) + (j : Int) * ldc) (narrow (widen alpha * temp + widen beta * widen x))

/-- Lines 95-108 and 140-153 with the two types. -/
def dotNestW (widen : S → L) (narrow : L → S) (M N K : Int) (alpha : S) (A : List S)
    (lda : Int) (B : List S) (bi : Nat → Nat → Int) (beta : S) (C : List S) (ldc : Int) :
    Option (List S) :=
  forUpTo N.toNat (fun j c =>
    forUpTo M.toNat (fun i c => do
      let temp ← dotW widen K A lda B bi i j
      storeDotW widen narrow alpha beta temp c ldc i j) c) C

/-- Lines 68-155 with the two types: the choice of the loop nest by the two flags. -/
def computeW (widen : S → L) (narrow : L → S) (TransA TransB M N K : Int) (alpha : S)
    (A : List S) (lda : Int) (B : List S) (ldb : Int) (beta : S) (C : List S) (ldc : Int) :
    Option (List S) :=
  if TransB = CblasNoTrans then
    if TransA = CblasNoTrans then
      colNestW widen narrow M N K alpha A lda B
        (fun l j => (l : Int) + (j : Int) * ldb) beta C ldc
    else
      dotNestW widen narrow M N K alpha A lda B
        (fun l j => (l : Int) + (j : Int) * ldb) beta C ldc
  else if TransA = CblasNoTrans then
    colNestW widen narrow M N K alpha A lda B
      (fun l j => (j : Int) + (l : Int) * ldb) beta C ldc
  else
    dotNestW widen narrow M N K alpha A lda B
      (fun l j => (j : Int) + (l : Int) * ldb) beta C ldc

/-- The value that `n` rounds of the `l` loop of the column-scaling nests leave in an
entry that held `x0`: every round narrows the sum that it stores. -/
def axpyValW (widen : S → L) (narrow : L → S) (alpha : S) (a b : Nat → S) (x0 : S) :
    Nat → S
  | 0 => x0
  | n + 1 =>
    if b n ≠ 0 then
      narrow (widen (axpyValW widen narrow alpha a b x0 n)
        + widen (a n) * (widen alpha * widen (b n)))
    else axpyValW widen narrow alpha a b x0 n

/-- The sum that the extended-accumulator reading attributes to the column-scaling nests:
the products of `n` rounds are added in the accumulator type to the widened entry `y0`,
and nothing is narrowed on the way. -/
def axpySumW (widen : S → L) (alpha : S) (a b : Nat → S) (y0 : L) : Nat → L
  | 0 => y0
  | n + 1 =>
    if b n ≠ 0 then axpySumW widen alpha a b y0 n + widen (a n) * (widen alpha * widen (b n))
    else axpySumW widen alpha a b y0 n

/-- The value of `temp` after `n` rounds of the `l` loop of the dot-product nests, in the
accumulator type. -/
def dotValW (widen : S → L) (a b : Nat → S) : Nat → L
  | 0 => 0
  | n + 1 => dotValW widen a b n + widen (a n) * widen (b n)

/-- The value that the store of the dot-product nests leaves in an entry that held `x`. -/
def storeValW (widen : S → L) (narrow : L → S) (alpha beta : S) (temp : L) (x : S) : S :=
  if beta = 0 then narrow (widen alpha * temp)
  else narrow (widen alpha * temp + widen beta * widen x)

/-- The value that the loop nest chosen by the flags leaves in entry `(i, j)` of the
window when the entry held `x`, with the two types. -/
def computeValW (widen : S → L) (narrow : L → S) (TransA TransB K : Int) (alpha : S)
    (A : List S) (lda : Int) (B : List S) (ldb : Int) (beta x : S) (i j : Nat) : S :=
  if TransA = CblasNoTrans then
    axpyValW widen narrow alpha (fun l => opA TransA A lda i l)
      (fun l => opB TransB B ldb l j) (betaVal beta x) K.toNat
  else
    storeValW widen narrow alpha beta
      (dotValW widen (fun l => opA TransA A lda i l) (fun l => opB TransB B ldb l j) K.toNat)
      x

end TwoTypes

/-! ## Two concrete domains for the examples -/

/-- The number of binary digits of `n`, for `n` below `2 ^ fuel`. -/
def bitLen : Nat → Nat → Nat
  | 0, _ => 0
  | fuel + 1, n => if n = 0 then 0 else bitLen fuel (n / 2) + 1

/-- The conversion that a store of a `double` into a `float` performs, on the integer
values below `2 ^ 64` in magnitude (which a `double` holds exactly up to `2 ^ 53`): the
value is rounded to a significand of 24 binary digits, to the nearest, ties to the even
significand.  Integers up to `2 ^ 24` are kept, between `2 ^ 24` and `2 ^ 25` the result is
a multiple of `2`, and so on. -/
def roundF32 (x : Int) : Int :=
  let n := x.natAbs
  let e := bitLen 64 n - 24
  let q := n / 2 ^ e
  let r := n % 2 ^ e
  let m := if 2 * r > 2 ^ e ∨ (2 * r = 2 ^ e ∧ q % 2 = 1) then q + 1 else q
  if x < 0 then -((m * 2 ^ e : Nat) : Int) else ((m * 2 ^ e : Nat) : Int)

/-- The integers with one more value `nan` that every operation hands on, as a NaN is
handed on: a domain in which `0 * x` is not always `0`. -/
inductive NanInt where
  | nan
  | val (n : Int)
  deriving DecidableEq, Repr

/-- Zero of `NanInt`. -/
instance : Zero NanInt := ⟨NanInt.val 0⟩

/-- One of `NanInt`. -/
instance : One NanInt := ⟨NanInt.val 1⟩

/-- Sum in `NanInt`: `nan` as soon as an operand is `nan`. -/
instance : Add NanInt :=
  ⟨fun x y => match x, y with
    | NanInt.val a, NanInt.val b => NanInt.val (a + b)
    | _, _ => NanInt.nan⟩

/-- Product in `NanInt`: `nan` as soon as an operand is `nan`, also for `0 * nan`. -/
instance : Mul NanInt :=
  ⟨fun x y => match x, y with
    | NanInt.val a, NanInt.val b => NanInt.val (a * b)
    | _, _ => NanInt.nan⟩

/-! ## Buffer and loop lemmas -/

section Basics

variable {α : Type}

theorem rd_eq_some_iff (buf : List α) (k : Int) (x : α) :
    rd buf k = some x ↔ 0 ≤ k ∧ buf[k.toNat]? = some x := by
  unfold rd
  split <;> simp [*]

theorem rd_isSome_of_lt (buf : List α) (k : Int) (h0 : 0 ≤ k) (h1 : k < buf.length) :
    ∃ x, rd buf k = some x := by
  have h : k.toNat < buf.length := by omega
  exact ⟨buf[k.toNat], by simp [rd, h0, List.getElem?_eq_getElem h]⟩

theorem rd_lt_length {buf : List α} {k : Int} {x : α} (h : rd buf k = some x) :
    0 ≤ k ∧ k.toNat < buf.length := by
  rw [rd_eq_some_iff] at h
  obtain ⟨h0, h1⟩ := h
  refine ⟨h0, ?_⟩
  by_contra hlt
  rw [List.getElem?_eq_none (by omega)] at h1
  cases h1

theorem wr_of_rd {buf : List α} {k : Int} {x : α} (v : α) (h : rd buf k = some x) :
    ∃ c, wr buf k v = some c ∧ rd c k = some v ∧ ∀ k2, k2 ≠ k → rd c k2 = rd buf k2 := by
  obtain ⟨h0, h1⟩ := rd_lt_length h
  refine ⟨buf.set k.toNat v, by simp [wr, h0, h1], ?_, ?_⟩
  · simp [rd, h0, h1]
  · intro k2 hne
    unfold rd
    split
    · rw [List.getElem?_set_ne]
      omega
    · rfl

theorem forUpTo_inv {σ : Type} (P : Nat → σ → Prop) (body : Nat → σ → Option σ) (n : Nat)
    (s0 : σ) (h0 : P 0 s0)
    (hstep : ∀ k s, k < n → P k s → ∃ s2, body k s = some s2 ∧ P (k + 1) s2) :
    ∃ s2, forUpTo n body s0 = some s2 ∧ P n s2 := by
  induction n with
  | zero => exact ⟨s0, rfl, h0⟩
  | succ n ih =>
    obtain ⟨s1, h1, hP⟩ := ih (fun k s hk => hstep k s (by omega))
    obtain ⟨s2, h2, hP2⟩ := hstep n s1 (by omega) hP
    exact ⟨s2, by simp [forUpTo, h1, h2], hP2⟩

theorem elemAt_of_rd {α : Type} [Zero α] {buf : List α} {k : Int} {x : α}
    (h : rd buf k = some x) : elemAt buf k = x := by
  simp [elemAt, h]

theorem rd_eq_elemAt {α : Type} [Zero α] {buf : List α} {k : Int}
    (h : ∃ x, rd buf k = some x) : rd buf k = some (elemAt buf k) := by
  obtain ⟨x, hx⟩ := h
  rw [hx, elemAt_of_rd hx]

theorem idx_ne {m : Nat} {ld : Int} (hld : (m : Int) ≤ ld) {i i2 j j2 : Nat}
    (hi : i < m) (hj : j < j2) :
    (i : Int) + (j : Int) * ld ≠ (i2 : Int) + (j2 : Int) * ld := by
  have h1 : ((j : Int) + 1) * ld ≤ (j2 : Int) * ld :=
    mul_le_mul_of_nonneg_right (by omega) (by omega)
  intro h
  have h2 : ((j : Int) + 1) * ld = (j : Int) * ld + ld := by ring
  omega

theorem idx_inj {m : Nat} {ld : Int} (hld : (m : Int) ≤ ld) {i i2 j j2 : Nat}
    (hi : i < m) (hi2 : i2 < m)
    (h : (i : Int) + (j : Int) * ld = (i2 : Int) + (j2 : Int) * ld) : i = i2 ∧ j = j2 := by
  rcases Nat.lt_trichotomy j j2 with hlt | heq | hgt
  · exact absurd h (idx_ne hld hi hlt)
  · subst heq
    exact ⟨by omega, rfl⟩
  · exact absurd h.symm (idx_ne hld hi2 hgt)

theorem win_in_bounds (C : List α) {M N ldc : Int} (hM : M ≤ ldc)
    (hC : ldc * N ≤ (C.length : Int)) {i j : Nat} (hi : (i : Int) < M) (hj : (j : Int) < N) :
    ∃ x, rd C ((i : Int) + (j : Int) * ldc) = some x := by
  have h0 : 0 ≤ (j : Int) * ldc := mul_nonneg (by omega) (by omega)
  have h1 : ((j : Int) + 1) * ldc ≤ N * ldc :=
    mul_le_mul_of_nonneg_right (by omega) (by omega)
  have h2 : ((j : Int) + 1) * ldc = (j : Int) * ldc + ldc := by ring
  have h3 : N * ldc = ldc * N := by ring
  exact rd_isSome_of_lt C _ (by omega) (by omega)

theorem colUpd_refl_of (m : Nat) (off : Int) (c : List α) (f : Nat → α)
    (h : ∀ i : Nat, i < m → rd c ((i : Int) + off) = some (f i)) : ColUpd m off f c c :=
  ⟨h, fun _ _ => rfl⟩

theorem colUpd_congr {m : Nat} {off : Int} {f g : Nat → α} {c1 c2 : List α}
    (h : ColUpd m off f c1 c2) (hfg : ∀ i, i < m → f i = g i) : ColUpd m off g c1 c2 :=
  ⟨fun i hi => by rw [h.1 i hi, hfg i hi], h.2⟩

theorem colUpd_trans {m : Nat} {off : Int} {f g : Nat → α} {c1 c2 c3 : List α}
    (h12 : ColUpd m off f c1 c2) (h23 : ColUpd m off g c2 c3) : ColUpd m off g c1 c3 :=
  ⟨h23.1, fun k hk => by rw [h23.2 k hk, h12.2 k hk]⟩

theorem forUpTo_col (m : Nat) (off : Int) (body : Nat → List α → Option (List α))
    (f : Nat → α) (c0 : List α)
    (hin : ∀ i : Nat, i < m → ∃ x, rd c0 ((i : Int) + off) = some x)
    (hbody : ∀ (i : Nat) (c : List α), i < m →
      rd c ((i : Int) + off) = rd c0 ((i : Int) + off) →
      body i c = wr c ((i : Int) + off) (f i)) :
    ∃ c2, forUpTo m body c0 = some c2 ∧ ColUpd m off f c0 c2 := by
  have key := forUpTo_inv (fun k c => ColUpd k off f c0 c) body m c0
    ⟨fun i hi => absurd hi (Nat.not_lt_zero i), fun _ _ => rfl⟩
    (fun k c hk hP => by
      have hsame : rd c ((k : Int) + off) = rd c0 ((k : Int) + off) :=
        hP.2 _ (fun i hi => by omega)
      obtain ⟨x, hx⟩ := hin k hk
      obtain ⟨c2, hw, hr, hfr⟩ := wr_of_rd (f k) (hsame.trans hx)
      refine ⟨c2, by rw [hbody k c hk hsame, hw], ?_, ?_⟩
      · intro i hi
        by_cases hik : i = k
        · rw [hik, hr]
        · rw [hfr _ (by omega)]
          exact hP.1 i (by omega)
      · intro k2 hk2
        rw [hfr k2 (hk2 k (by omega))]
        exact hP.2 k2 (fun i hi => hk2 i (by omega)))
  exact key

theorem forUpTo_win (m n : Nat) (ld : Int) (hld : (m : Int) ≤ ld)
    (body : Nat → List α → Option (List α)) (g : Nat → Nat → α) (c0 : List α)
    (hbody : ∀ (j : Nat) (c : List α), j < n →
      (∀ i : Nat, i < m → rd c ((i : Int) + (j : Int) * ld) = rd c0 ((i : Int) + (j : Int) * ld)) →
      ∃ c2, body j c = some c2 ∧ ColUpd m ((j : Int) * ld) (fun i => g i j) c c2) :
    ∃ c2, forUpTo n body c0 = some c2 ∧ WinUpd m n ld g c0 c2 := by
  have key := forUpTo_inv (fun k c => WinUpd m k ld g c0 c) body n c0
    ⟨fun i j _ hj => absurd hj (Nat.not_lt_zero j), fun _ _ => rfl⟩
    (fun k c hk hP => by
      have hsame : ∀ i : Nat, i < m →
          rd c ((i : Int) + (k : Int) * ld) = rd c0 ((i : Int) + (k : Int) * ld) :=
        fun i hi => hP.2 _ (fun i2 j2 hi2 hj2 => (idx_ne hld hi2 hj2).symm)
      obtain ⟨c2, hb, hcol⟩ := hbody k c hk hsame
      refine ⟨c2, hb, ?_, ?_⟩
      · intro i j hi hj
        by_cases hjk : j = k
        · rw [hjk]
          exact hcol.1 i hi
        · rw [hcol.2 _ (fun i2 hi2 => idx_ne hld hi (by omega))]
          exact hP.1 i j hi (by omega)
      · intro k2 hk2
        rw [hcol.2 k2 (fun i hi => hk2 i k hi (by omega))]
        exact hP.2 k2 (fun i j hi hj => hk2 i j hi (by omega)))
  exact key

end Basics

/-! ## The loops, one by one -/

section Loops

variable {α : Type} [Zero α] [One α] [Add α] [Mul α] [DecidableEq α]

theorem zeroCol_spec (M : Int) (C : List α) (ldc : Int) (j : Nat)
    (hin : ∀ i : Nat, i < M.toNat → ∃ x, rd C ((i : Int) + (j : Int) * ldc) = some x) :
    ∃ c2, zeroCol M C ldc j = some c2 ∧
      ColUpd M.toNat ((j : Int) * ldc) (fun _ => (0 : α)) C c2 :=
  forUpTo_col _ _ _ _ _ hin (fun _ _ _ _ => rfl)

theorem scaleCol_spec (M : Int) (beta : α) (C : List α) (ldc : Int) (j : Nat)
    (hin : ∀ i : Nat, i < M.toNat → ∃ x, rd C ((i : Int) + (j : Int) * ldc) = some x) :
    ∃ c2, scaleCol M beta C ldc j = some c2 ∧
      ColUpd M.toNat ((j : Int) * ldc)
        (fun i => elemAt C ((i : Int) + (j : Int) * ldc) * beta) C c2 :=
  forUpTo_col _ _ _ _ _ hin (fun i c hi hsame => by
    obtain ⟨x, hx⟩ := hin i hi
    simp [hsame, hx, elemAt_of_rd hx])

theorem betaCol_spec (M : Int) (beta : α) (C : List α) (ldc : Int) (j : Nat)
    (hin : ∀ i : Nat, i < M.toNat → ∃ x, rd C ((i : Int) + (j : Int) * ldc) = some x) :
    ∃ c2, betaCol M beta C ldc j = some c2 ∧
      ColUpd M.toNat ((j : Int) * ldc)
        (fun i => betaVal beta (elemAt C ((i : Int) + (j : Int) * ldc))) C c2 := by
  unfold betaCol
  by_cases h0 : beta = 0
  · obtain ⟨c2, h, hc⟩ := zeroCol_spec M C ldc j hin
    exact ⟨c2, by simp [h0, h], colUpd_congr hc (fun i _ => by simp [betaVal, h0])⟩
  · by_cases h1 : beta = 1
    · refine ⟨C, by rw [if_neg h0, if_neg (not_not.mpr h1)],
        colUpd_refl_of _ _ _ _ (fun i hi => ?_)⟩
      simp only [betaVal]
      rw [if_neg h0, if_neg (not_not.mpr h1)]
      exact rd_eq_elemAt (hin i hi)
    · obtain ⟨c2, h, hc⟩ := scaleCol_spec M beta C ldc j hin
      exact ⟨c2, by simp [h0, h1, h], colUpd_congr hc (fun i _ => by simp [betaVal, h0, h1])⟩

theorem axpyCol_spec (M : Int) (A : List α) (lda : Int) (temp : α) (C : List α) (ldc : Int)
    (j l : Nat)
    (hin : ∀ i : Nat, i < M.toNat → ∃ x, rd C ((i : Int) + (j : Int) * ldc) = some x)
    (hA : ∀ i : Nat, i < M.toNat → ∃ a, rd A ((i : Int) + (l : Int) * lda) = some a) :
    ∃ c2, axpyCol M A lda temp C ldc j l = some c2 ∧
      ColUpd M.toNat ((j : Int) * ldc)
        (fun i => elemAt C ((i : Int) + (j : Int) * ldc) +
          elemAt A ((i : Int) + (l : Int) * lda) * temp) C c2 :=
  forUpTo_col _ _ _ _ _ hin (fun i c hi hsame => by
    obtain ⟨x, hx⟩ := hin i hi
    obtain ⟨a, ha⟩ := hA i hi
    simp [hsame, hx, ha, elemAt_of_rd hx, elemAt_of_rd ha])

theorem colNest_spec (M K : Int) (alpha beta : α) (A : List α) (lda : Int) (B : List α)
    (bi : Nat → Int) (C : List α) (ldc : Int) (j : Nat)
    (hin : ∀ i : Nat, i < M.toNat → ∃ x, rd C ((i : Int) + (j : Int) * ldc) = some x)
    (hA : ∀ i l : Nat, i < M.toNat → l < K.toNat →
      ∃ a, rd A ((i : Int) + (l : Int) * lda) = some a)
    (hB : ∀ l : Nat, l < K.toNat → ∃ b, rd B (bi l) = some b) :
    ∃ c2, (do
        let c ← betaCol M beta C ldc j
        forUpTo K.toNat (fun l c => do
          let b ← rd B (bi l)
          if b ≠ 0 then
            let temp := alpha * b
            axpyCol M A lda temp c ldc j l
          else some c) c) = some c2 ∧
      ColUpd M.toNat ((j : Int) * ldc)
        (fun i => axpyVal alpha (fun l => elemAt A ((i : Int) + (l : Int) * lda))
          (fun l => elemAt B (bi l)) (betaVal beta (elemAt C ((i : Int) + (j : Int) * ldc)))
          K.toNat) C c2 := by
  obtain ⟨c1, h1, hc1⟩ := betaCol_spec M beta C ldc j hin
  obtain ⟨c2, h2, hc2⟩ := forUpTo_inv
    (fun n c => ColUpd M.toNat ((j : Int) * ldc)
        (fun i => axpyVal alpha (fun l => elemAt A ((i : Int) + (l : Int) * lda))
          (fun l => elemAt B (bi l)) (betaVal beta (elemAt C ((i : Int) + (j : Int) * ldc)))
          n) C c)
    (fun l c => do
          let b ← rd B (bi l)
          if b ≠ 0 then
            let temp := alpha * b
            axpyCol M A lda temp c ldc j l
          else some c) K.toNat c1 hc1
    (fun l c hl hP => by
      obtain ⟨b, hb⟩ := hB l hl
      by_cases hb0 : b = 0
      · refine ⟨c, by simp [hb, hb0], colUpd_congr hP (fun i _ => ?_)⟩
        simp [axpyVal, elemAt_of_rd hb, hb0]
      · obtain ⟨c2, h2, hc2⟩ := axpyCol_spec M A lda (alpha * b) c ldc j l
          (fun i hi => ⟨_, hP.1 i hi⟩) (fun i hi => hA i l hi hl)
        refine ⟨c2, by simp [hb, hb0, h2], colUpd_congr (colUpd_trans hP hc2) (fun i hi => ?_)⟩
        simp [axpyVal, elemAt_of_rd hb, hb0, elemAt_of_rd (hP.1 i hi)])
  refine ⟨c2, ?_, hc2⟩
  rw [h1]
  exact h2

theorem forUpTo_dot (n : Nat) (A B : List α) (ai bi : Nat → Int)
    (hA : ∀ l : Nat, l < n → ∃ a, rd A (ai l) = some a)
    (hB : ∀ l : Nat, l < n → ∃ b, rd B (bi l) = some b) :
    forUpTo n (fun l temp => do
      let a ← rd A (ai l)
      let b ← rd B (bi l)
      some (temp + a * b)) (0 : α)
      = some (dotVal (fun l => elemAt A (ai l)) (fun l => elemAt B (bi l)) n) := by
  induction n with
  | zero => rfl
  | succ n ih =>
    obtain ⟨a, ha⟩ := hA n (by omega)
    obtain ⟨b, hb⟩ := hB n (by omega)
    show (forUpTo n _ 0).bind _ = _
    rw [ih (fun l hl => hA l (by omega)) (fun l hl => hB l (by omega))]
    simp [dotVal, ha, hb, elemAt_of_rd ha, elemAt_of_rd hb]

theorem dotNest_spec (M : Int) (alpha beta : α) (dot : Nat → Option α) (d : Nat → α)
    (C : List α) (ldc : Int) (j : Nat)
    (hin : ∀ i : Nat, i < M.toNat → ∃ x, rd C ((i : Int) + (j : Int) * ldc) = some x)
    (hdot : ∀ i : Nat, i < M.toNat → dot i = some (d i)) :
    ∃ c2, forUpTo M.toNat (fun i c => do
        let temp ← dot i
        storeDot alpha beta temp c ldc i j) C = some c2 ∧
      ColUpd M.toNat ((j : Int) * ldc)
        (fun i => storeVal alpha beta (d i) (elemAt C ((i : Int) + (j : Int) * ldc))) C c2 :=
  forUpTo_col _ _ _ _ _ hin (fun i c hi hsame => by
    obtain ⟨x, hx⟩ := hin i hi
    by_cases h0 : beta = 0
    · simp [hdot i hi, storeDot, storeVal, h0]
    · simp [hdot i hi, storeDot, storeVal, h0, hsame, hx, elemAt_of_rd hx])

end Loops

/-! ## The parameter test -/

theorem NM_MAX_eq_max (a b : Int) : NM_MAX a b = max a b := by
  unfold NM_MAX
  split <;> omega

theorem validate_eq_none_iff (TransA TransB M N K lda ldb ldc : Int) :
    validate TransA TransB M N K lda ldb ldc = none ↔
      (111 ≤ TransA ∧ TransA ≤ 113) ∧ (111 ≤ TransB ∧ TransB ≤ 113) ∧
      0 ≤ M ∧ 0 ≤ N ∧ 0 ≤ K ∧
      max 1 (if TransA = CblasNoTrans then M else K) ≤ lda ∧
      max 1 (if TransB = CblasNoTrans then K else N) ≤ ldb ∧
      max 1 M ≤ ldc := by
  simp only [validate, NM_MAX_eq_max]
  generalize max 1 (if TransA = CblasNoTrans then M else K) = ma
  generalize max 1 (if TransB = CblasNoTrans then K else N) = mb
  generalize max 1 M = mc
  split_ifs <;> simp only [reduceCtorEq, false_iff, true_iff] <;> omega

theorem validate_first (TransA TransB M N K lda ldb ldc : Int) :
    match validate TransA TransB M N K lda ldb ldc with
    | none =>
      (111 ≤ TransA ∧ TransA ≤ 113) ∧ (111 ≤ TransB ∧ TransB ≤ 113) ∧
      0 ≤ M ∧ 0 ≤ N ∧ 0 ≤ K ∧
      max 1 (if TransA = CblasNoTrans then M else K) ≤ lda ∧
      max 1 (if TransB = CblasNoTrans then K else N) ≤ ldb ∧
      max 1 M ≤ ldc
    | some GemmDiag.transA => TransA < 111 ∨ TransA > 113
    | some GemmDiag.transB => (111 ≤ TransA ∧ TransA ≤ 113) ∧ (TransB < 111 ∨ TransB > 113)
    | some GemmDiag.negM =>
      (111 ≤ TransA ∧ TransA ≤ 113) ∧ (111 ≤ TransB ∧ TransB ≤ 113) ∧ M < 0
    | some GemmDiag.negN =>
      (111 ≤ TransA ∧ TransA ≤ 113) ∧ (111 ≤ TransB ∧ TransB ≤ 113) ∧ 0 ≤ M ∧ N < 0
    | some GemmDiag.negK =>
      (111 ≤ TransA ∧ TransA ≤ 113) ∧ (111 ≤ TransB ∧ TransB ≤ 113) ∧ 0 ≤ M ∧ 0 ≤ N ∧
      K < 0
    | some (GemmDiag.lda a b) =>
      a = (if TransA = CblasNoTrans then M else K) ∧ b = lda ∧
      (111 ≤ TransA ∧ TransA ≤ 113) ∧ (111 ≤ TransB ∧ TransB ≤ 113) ∧ 0 ≤ M ∧ 0 ≤ N ∧
      0 ≤ K ∧ lda < max 1 (if TransA = CblasNoTrans then M else K)
    | some (GemmDiag.ldb a b) =>
      a = (if TransB = CblasNoTrans then K else N) ∧ b = ldb ∧
      (111 ≤ TransA ∧ TransA ≤ 113) ∧ (111 ≤ TransB ∧ TransB ≤ 113) ∧ 0 ≤ M ∧ 0 ≤ N ∧
      0 ≤ K ∧ max 1 (if TransA = CblasNoTrans then M else K) ≤ lda ∧
      ldb < max 1 (if TransB = CblasNoTrans then K else N)
    | some (GemmDiag.ldc a b) =>
      a = M ∧ b = ldc ∧
      (111 ≤ TransA ∧ TransA ≤ 113) ∧ (111 ≤ TransB ∧ TransB ≤ 113) ∧ 0 ≤ M ∧ 0 ≤ N ∧
      0 ≤ K ∧ max 1 (if TransA = CblasNoTrans then M else K) ≤ lda ∧
      max 1 (if TransB = CblasNoTrans then K else N) ≤ ldb ∧ ldc < max 1 M := by
  simp only [validate, NM_MAX_eq_max]
  generalize (if TransA = CblasNoTrans then M else K) = ra
  generalize (if TransB = CblasNoTrans then K else N) = rb
  generalize max 1 ra = ma
  generalize max 1 rb = mb
  generalize max 1 M = mc
  split_ifs <;> simp only [true_and] <;> omega

theorem quickReturn_iff {β : Type} [Zero β] [One β] [DecidableEq β] (M N K : Int)
    (alpha beta : β) :
    quickReturn M N K alpha beta = true ↔
      (M = 0 ∨ N = 0 ∨ ((alpha = 0 ∨ K = 0) ∧ beta = 1)) := by
  simp [quickReturn, or_assoc]

/-! ## The loop nests -/

section Nests

variable {α : Type} [Zero α] [One α] [Add α] [Mul α] [DecidableEq α]

theorem elemAt_congr {b1 b2 : List α} {k : Int} (h : rd b1 k = rd b2 k) :
    elemAt b1 k = elemAt b2 k := by
  simp [elemAt, h]

theorem alphaZero_spec (M N : Int) (beta : α) (C : List α) (ldc : Int)
    (hM : (M.toNat : Int) ≤ ldc)
    (hC : ∀ i j : Nat, i < M.toNat → j < N.toNat →
      ∃ x, rd C ((i : Int) + (j : Int) * ldc) = some x) :
    ∃ c2, alphaZero M N beta C ldc = some c2 ∧
      WinUpd M.toNat N.toNat ldc
        (fun i j => if beta = 0 then 0 else elemAt C ((i : Int) + (j : Int) * ldc) * beta)
        C c2 := by
  unfold alphaZero
  by_cases h0 : beta = 0
  · simp only [h0, if_true]
    exact forUpTo_win _ _ _ hM _ _ _ (fun j c hj hsame =>
      zeroCol_spec M c ldc j (fun i hi => by rw [hsame i hi]; exact hC i j hi hj))
  · simp only [h0, if_false]
    exact forUpTo_win _ _ _ hM _ _ _ (fun j c hj hsame => by
      obtain ⟨c2, h, hc⟩ := scaleCol_spec M beta c ldc j
        (fun i hi => by rw [hsame i hi]; exact hC i j hi hj)
      exact ⟨c2, h, colUpd_congr hc (fun i hi => by rw [elemAt_congr (hsame i hi)])⟩)

theorem gemmNN_spec (M N K : Int) (alpha : α) (A : List α) (lda : Int) (B : List α)
    (ldb : Int) (beta : α) (C : List α) (ldc : Int)
    (hM : (M.toNat : Int) ≤ ldc)
    (hC : ∀ i j : Nat, i < M.toNat → j < N.toNat →
      ∃ x, rd C ((i : Int) + (j : Int) * ldc) = some x)
    (hA : ∀ i l : Nat, i < M.toNat → l < K.toNat →
      ∃ a, rd A ((i : Int) + (l : Int) * lda) = some a)
    (hB : ∀ l j : Nat, l < K.toNat → j < N.toNat →
      ∃ b, rd B ((l : Int) + (j : Int) * ldb) = some b) :
    ∃ c2, gemmNN M N K alpha A lda B ldb beta C ldc = some c2 ∧
      WinUpd M.toNat N.toNat ldc
        (fun i j => axpyVal alpha (fun l => elemAt A ((i : Int) + (l : Int) * lda))
          (fun l => elemAt B ((l : Int) + (j : Int) * ldb))
          (betaVal beta (elemAt C ((i : Int) + (j : Int) * ldc))) K.toNat) C c2 :=
  forUpTo_win _ _ _ hM _ _ _ (fun j c hj hsame => by
    obtain ⟨c2, h, hc⟩ := colNest_spec M K alpha beta A lda B
      (fun l => (l : Int) + (j : Int) * ldb) c ldc j
      (fun i hi => by rw [hsame i hi]; exact hC i j hi hj) hA (fun l hl => hB l j hl hj)
    exact ⟨c2, h, colUpd_congr hc (fun i hi => by rw [elemAt_congr (hsame i hi)])⟩)

theorem gemmNT_spec (M N K : Int) (alpha : α) (A : List α) (lda : Int) (B : List α)
    (ldb : Int) (beta : α) (C : List α) (ldc : Int)
    (hM : (M.toNat : Int) ≤ ldc)
    (hC : ∀ i j : Nat, i < M.toNat → j < N.toNat →
      ∃ x, rd C ((i : Int) + (j : Int) * ldc) = some x)
    (hA : ∀ i l : Nat, i < M.toNat → l < K.toNat →
      ∃ a, rd A ((i : Int) + (l : Int) * lda) = some a)
    (hB : ∀ l j : Nat, l < K.toNat → j < N.toNat →
      ∃ b, rd B ((j : Int) + (l : Int) * ldb) = some b) :
    ∃ c2, gemmNT M N K alpha A lda B ldb beta C ldc = some c2 ∧
      WinUpd M.toNat N.toNat ldc
        (fun i j => axpyVal alpha (fun l => elemAt A ((i : Int) + (l : Int) * lda))
          (fun l => elemAt B ((j : Int) + (l : Int) * ldb))
          (betaVal beta (elemAt C ((i : Int) + (j : Int) * ldc))) K.toNat) C c2 :=
  forUpTo_win _ _ _ hM _ _ _ (fun j c hj hsame => by
    obtain ⟨c2, h, hc⟩ := colNest_spec M K alpha beta A lda B
      (fun l => (j : Int) + (l : Int) * ldb) c ldc j
      (fun i hi => by rw [hsame i hi]; exact hC i j hi hj) hA (fun l hl => hB l j hl hj)
    exact ⟨c2, h, colUpd_congr hc (fun i hi => by rw [elemAt_congr (hsame i hi)])⟩)

theorem gemmTN_spec (M N K : Int) (alpha : α) (A : List α) (lda : Int) (B : List α)
    (ldb : Int) (beta : α) (C : List α) (ldc : Int)
    (hM : (M.toNat : Int) ≤ ldc)
    (hC : ∀ i j : Nat, i < M.toNat → j < N.toNat →
      ∃ x, rd C ((i : Int) + (j : Int) * ldc) = some x)
    (hA : ∀ i l : Nat, i < M.toNat → l < K.toNat →
      ∃ a, rd A ((l : Int) + (i : Int) * lda) = some a)
    (hB : ∀ l j : Nat, l < K.toNat → j < N.toNat →
      ∃ b, rd B ((l : Int) + (j : Int) * ldb) = some b) :
    ∃ c2, gemmTN M N K alpha A lda B ldb beta C ldc = some c2 ∧
      WinUpd M.toNat N.toNat ldc
        (fun i j => storeVal alpha beta
          (dotVal (fun l => elemAt A ((l : Int) + (i : Int) * lda))
            (fun l => elemAt B ((l : Int) + (j : Int) * ldb)) K.toNat)
          (elemAt C ((i : Int) + (j : Int) * ldc))) C c2 :=
  forUpTo_win _ _ _ hM _ _ _ (fun j c hj hsame => by
    obtain ⟨c2, h, hc⟩ := dotNest_spec M alpha beta
      (fun i => dotTN K A lda B ldb i j) _ c ldc j
      (fun i hi => by rw [hsame i hi]; exact hC i j hi hj)
      (fun i hi => forUpTo_dot K.toNat A B (fun l => (l : Int) + (i : Int) * lda)
        (fun l => (l : Int) + (j : Int) * ldb) (fun l hl => hA i l hi hl)
        (fun l hl => hB l j hl hj))
    exact ⟨c2, h, colUpd_congr hc (fun i hi => by rw [elemAt_congr (hsame i hi)])⟩)

theorem gemmTT_spec (M N K : Int) (alpha : α) (A : List α) (lda : Int) (B : List α)
    (ldb : Int) (beta : α) (C : List α) (ldc : Int)
    (hM : (M.toNat : Int) ≤ ldc)
    (hC : ∀ i j : Nat, i < M.toNat → j < N.toNat →
      ∃ x, rd C ((i : Int) + (j : Int) * ldc) = some x)
    (hA : ∀ i l : Nat, i < M.toNat → l < K.toNat →
      ∃ a, rd A ((l : Int) + (i : Int) * lda) = some a)
    (hB : ∀ l j : Nat, l < K.toNat → j < N.toNat →
      ∃ b, rd B ((j : Int) + (l : Int) * ldb) = some b) :
    ∃ c2, gemmTT M N K alpha A lda B ldb beta C ldc = some c2 ∧
      WinUpd M.toNat N.toNat ldc
        (fun i j => storeVal alpha beta
          (dotVal (fun l => elemAt A ((l : Int) + (i : Int) * lda))
            (fun l => elemAt B ((j : Int) + (l : Int) * ldb)) K.toNat)
          (elemAt C ((i : Int) + (j : Int) * ldc))) C c2 :=
  forUpTo_win _ _ _ hM _ _ _ (fun j c hj hsame => by
    obtain ⟨c2, h, hc⟩ := dotNest_spec M alpha beta
      (fun i => dotTT K A lda B ldb i j) _ c ldc j
      (fun i hi => by rw [hsame i hi]; exact hC i j hi hj)
      (fun i hi => forUpTo_dot K.toNat A B (fun l => (l : Int) + (i : Int) * lda)
        (fun l => (j : Int) + (l : Int) * ldb) (fun l hl => hA i l hi hl)
        (fun l hl => hB l j hl hj))
    exact ⟨c2, h, colUpd_congr hc (fun i hi => by rw [elemAt_congr (hsame i hi)])⟩)

end Nests

/-! ## The routine as a whole -/

section Whole

variable {α : Type} [Zero α] [One α] [Add α] [Mul α] [DecidableEq α]

theorem winUpd_congr {m n : Nat} {ld : Int} {g g2 : Nat → Nat → α} {c1 c2 : List α}
    (h : WinUpd m n ld g c1 c2) (hg : ∀ i j, i < m → j < n → g i j = g2 i j) :
    WinUpd m n ld g2 c1 c2 :=
  ⟨fun i j hi hj => by rw [h.1 i j hi hj, hg i j hi hj], h.2⟩

theorem compute_spec (TransA TransB M N K : Int) (alpha : α) (A : List α) (lda : Int)
    (B : List α) (ldb : Int) (beta : α) (C : List α) (ldc : Int)
    (hv : validate TransA TransB M N K lda ldb ldc = none)
    (hC : ldc * N ≤ (C.length : Int))
    (hA : lda * colsA TransA M K ≤ (A.length : Int))
    (hB : ldb * colsB TransB N K ≤ (B.length : Int)) :
    ∃ c2, compute TransA TransB M N K alpha A lda B ldb beta C ldc = some c2 ∧
      WinUpd M.toNat N.toNat ldc
        (fun i j => computeVal TransA TransB K alpha A lda B ldb beta
          (elemAt C ((i : Int) + (j : Int) * ldc)) i j) C c2 := by
  obtain ⟨-, -, hM0, hN0, hK0, hlda, hldb, hldc⟩ := (validate_eq_none_iff _ _ _ _ _ _ _ _).1 hv
  have hM : (M.toNat : Int) ≤ ldc := by omega
  have hCp : ∀ i j : Nat, i < M.toNat → j < N.toNat →
      ∃ x, rd C ((i : Int) + (j : Int) * ldc) = some x :=
    fun i j hi hj => win_in_bounds C (show M ≤ ldc by omega) hC
      (show (i : Int) < M by omega) (show (j : Int) < N by omega)
  unfold compute
  by_cases hTA : TransA = CblasNoTrans <;> by_cases hTB : TransB = CblasNoTrans
  · rw [if_pos hTA] at hlda
    rw [if_pos hTB] at hldb
    rw [colsA, if_pos hTA] at hA
    rw [colsB, if_pos hTB] at hB
    obtain ⟨c2, h, hw⟩ := gemmNN_spec M N K alpha A lda B ldb beta C ldc hM hCp
      (fun i l hi hl => win_in_bounds A (show M ≤ lda by omega) hA
        (show (i : Int) < M by omega) (show (l : Int) < K by omega))
      (fun l j hl hj => win_in_bounds B (show K ≤ ldb by omega) hB
        (show (l : Int) < K by omega) (show (j : Int) < N by omega))
    exact ⟨c2, by rw [if_pos hTB, if_pos hTA, h],
      winUpd_congr hw (fun i j _ _ => by simp only [computeVal, opA, opB, if_pos hTA, if_pos hTB])⟩
  · rw [if_pos hTA] at hlda
    rw [if_neg hTB] at hldb
    rw [colsA, if_pos hTA] at hA
    rw [colsB, if_neg hTB] at hB
    obtain ⟨c2, h, hw⟩ := gemmNT_spec M N K alpha A lda B ldb beta C ldc hM hCp
      (fun i l hi hl => win_in_bounds A (show M ≤ lda by omega) hA
        (show (i : Int) < M by omega) (show (l : Int) < K by omega))
      (fun l j hl hj => win_in_bounds B (show N ≤ ldb by omega) hB
        (show (j : Int) < N by omega) (show (l : Int) < K by omega))
    exact ⟨c2, by rw [if_neg hTB, if_pos hTA, h],
      winUpd_congr hw (fun i j _ _ => by simp only [computeVal, opA, opB, if_pos hTA, if_neg hTB])⟩
  · rw [if_neg hTA] at hlda
    rw [if_pos hTB] at hldb
    rw [colsA, if_neg hTA] at hA
    rw [colsB, if_pos hTB] at hB
    obtain ⟨c2, h, hw⟩ := gemmTN_spec M N K alpha A lda B ldb beta C ldc hM hCp
      (fun i l hi hl => win_in_bounds A (show K ≤ lda by omega) hA
        (show (l : Int) < K by omega) (show (i : Int) < M by omega))
      (fun l j hl hj => win_in_bounds B (show K ≤ ldb by omega) hB
        (show (l : Int) < K by omega) (show (j : Int) < N by omega))
    exact ⟨c2, by rw [if_pos hTB, if_neg hTA, h],
      winUpd_congr hw (fun i j _ _ => by simp only [computeVal, opA, opB, if_neg hTA, if_pos hTB])⟩
  · rw [if_neg hTA] at hlda
    rw [if_neg hTB] at hldb
    rw [colsA, if_neg hTA] at hA
    rw [colsB, if_neg hTB] at hB
    obtain ⟨c2, h, hw⟩ := gemmTT_spec M N K alpha A lda B ldb beta C ldc hM hCp
      (fun i l hi hl => win_in_bounds A (show K ≤ lda by omega) hA
        (show (l : Int) < K by omega) (show (i : Int) < M by omega))
      (fun l j hl hj => win_in_bounds B (show N ≤ ldb by omega) hB
        (show (j : Int) < N by omega) (show (l : Int) < K by omega))
    exact ⟨c2, by rw [if_neg hTB, if_neg hTA, h],
      winUpd_congr hw (fun i j _ _ => by simp only [computeVal, opA, opB, if_neg hTA, if_neg hTB])⟩

theorem gemm_of_invalid (TransA TransB M N K : Int) (alpha : α) (A : List α) (lda : Int)
    (B : List α) (ldb : Int) (beta : α) (C : List α) (ldc : Int) (d : GemmDiag)
    (hv : validate TransA TransB M N K lda ldb ldc = some d) :
    gemm TransA TransB M N K alpha A lda B ldb beta C ldc = some ⟨0, some d, C⟩ := by
  simp only [gemm, hv]

theorem gemm_of_quick (TransA TransB M N K : Int) (alpha : α) (A : List α) (lda : Int)
    (B : List α) (ldb : Int) (beta : α) (C : List α) (ldc : Int)
    (hv : validate TransA TransB M N K lda ldb ldc = none)
    (hq : quickReturn M N K alpha beta = true) :
    gemm TransA TransB M N K alpha A lda B ldb beta C ldc = some ⟨0, none, C⟩ := by
  simp only [gemm, hv, hq, if_true]

theorem gemm_of_alpha_zero (TransA TransB M N K : Int) (alpha : α) (A : List α) (lda : Int)
    (B : List α) (ldb : Int) (beta : α) (C : List α) (ldc : Int)
    (hv : validate TransA TransB M N K lda ldb ldc = none)
    (hq : quickReturn M N K alpha beta = false) (ha : alpha = 0) :
    gemm TransA TransB M N K alpha A lda B ldb beta C ldc
      = (alphaZero M N beta C ldc).map (fun c => ⟨0, none, c⟩) := by
  subst ha
  simp only [gemm, hv, hq, if_true, Bool.false_eq_true, if_false]

theorem gemm_of_compute (TransA TransB M N K : Int) (alpha : α) (A : List α) (lda : Int)
    (B : List α) (ldb : Int) (beta : α) (C : List α) (ldc : Int)
    (hv : validate TransA TransB M N K lda ldb ldc = none)
    (hq : quickReturn M N K alpha beta = false) (ha : alpha ≠ 0) :
    gemm TransA TransB M N K alpha A lda B ldb beta C ldc
      = (compute TransA TransB M N K alpha A lda B ldb beta C ldc).map
          (fun c => ⟨0, none, c⟩) := by
  simp only [gemm, hv, hq, if_neg ha, Bool.false_eq_true, if_false]

theorem gemm_spec (TransA TransB M N K : Int) (alpha : α) (A : List α) (lda : Int)
    (B : List α) (ldb : Int) (beta : α) (C : List α) (ldc : Int)
    (hv : validate TransA TransB M N K lda ldb ldc = none)
    (hC : ldc * N ≤ (C.length : Int))
    (hA : quickReturn M N K alpha beta = false → alpha ≠ 0 →
      lda * colsA TransA M K ≤ (A.length : Int))
    (hB : quickReturn M N K alpha beta = false → alpha ≠ 0 →
      ldb * colsB TransB N K ≤ (B.length : Int)) :
    ∃ c2, gemm TransA TransB M N K alpha A lda B ldb beta C ldc = some ⟨0, none, c2⟩ ∧
      WinUpd M.toNat N.toNat ldc
        (gemmVal TransA TransB M N K alpha A lda B ldb beta C ldc) C c2 := by
  obtain ⟨-, -, hM0, hN0, hK0, hlda, hldb, hldc⟩ := (validate_eq_none_iff _ _ _ _ _ _ _ _).1 hv
  have hM : (M.toNat : Int) ≤ ldc := by omega
  have hCp : ∀ i j : Nat, i < M.toNat → j < N.toNat →
      ∃ x, rd C ((i : Int) + (j : Int) * ldc) = some x :=
    fun i j hi hj => win_in_bounds C (show M ≤ ldc by omega) hC
      (show (i : Int) < M by omega) (show (j : Int) < N by omega)
  cases hq : quickReturn M N K alpha beta
  · by_cases ha : alpha = 0
    · obtain ⟨c2, h, hw⟩ := alphaZero_spec M N beta C ldc hM hCp
      refine ⟨c2, ?_, winUpd_congr hw (fun i j _ _ => ?_)⟩
      · rw [gemm_of_alpha_zero _ _ _ _ _ _ _ _ _ _ _ _ _ hv hq ha, h]
        rfl
      · subst ha
        simp only [gemmVal, hq, if_true, if_false, Bool.false_eq_true]
    · obtain ⟨c2, h, hw⟩ := compute_spec TransA TransB M N K alpha A lda B ldb beta C ldc
        hv hC (hA hq ha) (hB hq ha)
      refine ⟨c2, ?_, winUpd_congr hw (fun i j _ _ => ?_)⟩
      · rw [gemm_of_compute _ _ _ _ _ _ _ _ _ _ _ _ _ hv hq ha, h]
        rfl
      · simp only [gemmVal, hq, if_neg ha, if_false, Bool.false_eq_true]
  · refine ⟨C, gemm_of_quick _ _ _ _ _ _ _ _ _ _ _ _ _ hv hq, fun i j hi hj => ?_,
      fun _ _ => rfl⟩
    simp only [gemmVal, hq, if_true]
    exact rd_eq_elemAt (hCp i j hi hj)

end Whole

/-! ## The values over a commutative ring -/

section Ring

variable {α : Type} [CommRing α] [DecidableEq α]

theorem betaVal_eq (beta x : α) : betaVal beta x = beta * x := by
  unfold betaVal
  split_ifs with h0 h1
  · rw [h0, zero_mul]
  · rw [mul_comm]
  · rw [not_not.mp h1, one_mul]

theorem axpyVal_eq (alpha : α) (a b : Nat → α) (x0 : α) (n : Nat) :
    axpyVal alpha a b x0 n = x0 + alpha * ∑ l ∈ Finset.range n, a l * b l := by
  induction n with
  | zero => simp [axpyVal]
  | succ n ih =>
    rw [axpyVal, Finset.sum_range_succ, ih]
    split_ifs with hb
    · ring
    · rw [not_not.mp hb]
      ring

theorem dotVal_eq (a b : Nat → α) (n : Nat) :
    dotVal a b n = ∑ l ∈ Finset.range n, a l * b l := by
  induction n with
  | zero => simp [dotVal]
  | succ n ih => rw [dotVal, Finset.sum_range_succ, ih]

theorem storeVal_eq (alpha beta temp x : α) :
    storeVal alpha beta temp x = alpha * temp + beta * x := by
  unfold storeVal
  split_ifs with h0
  · rw [h0, zero_mul, add_zero]
  · rfl

theorem computeVal_eq (TransA TransB K : Int) (alpha : α) (A : List α) (lda : Int)
    (B : List α) (ldb : Int) (beta x : α) (i j : Nat) :
    computeVal TransA TransB K alpha A lda B ldb beta x i j
      = alpha * (∑ l ∈ Finset.range K.toNat, opA TransA A lda i l * opB TransB B ldb l j)
        + beta * x := by
  unfold computeVal
  split_ifs
  · rw [axpyVal_eq, betaVal_eq]
    ring
  · rw [storeVal_eq, dotVal_eq]

theorem gemmVal_eq (TransA TransB M N K : Int) (alpha : α) (A : List α) (lda : Int)
    (B : List α) (ldb : Int) (beta : α) (C : List α) (ldc : Int) (i j : Nat)
    (hM : M ≠ 0) (hN : N ≠ 0) :
    gemmVal TransA TransB M N K alpha A lda B ldb beta C ldc i j
      = alpha * (∑ l ∈ Finset.range K.toNat, opA TransA A lda i l * opB TransB B ldb l j)
        + beta * elemAt C ((i : Int) + (j : Int) * ldc) := by
  unfold gemmVal
  split_ifs with hq ha hb
  · rcases (quickReturn_iff M N K alpha beta).1 hq with h | h | ⟨h | h, h1⟩
    · exact absurd h hM
    · exact absurd h hN
    · rw [h, h1, zero_mul, zero_add, one_mul]
    · rw [h, h1]
      simp
  · rw [ha, hb, zero_mul, zero_mul, add_zero]
  · rw [ha, zero_mul, zero_add, mul_comm]
  · exact computeVal_eq _ _ _ _ _ _ _ _ _ _ _ _

end Ring

/-! ## Shape of the outcome -/

section Shape

variable {α : Type} [Zero α] [One α] [Add α] [Mul α] [DecidableEq α]

theorem gemm_some_shape (TransA TransB M N K : Int) (alpha : α) (A : List α) (lda : Int)
    (B : List α) (ldb : Int) (beta : α) (C : List α) (ldc : Int) (r : GemmResult α)
    (h : gemm TransA TransB M N K alpha A lda B ldb beta C ldc = some r) :
    r.status = 0 ∧ r.diag = validate TransA TransB M N K lda ldb ldc := by
  cases hv : validate TransA TransB M N K lda ldb ldc with
  | some d =>
    rw [gemm_of_invalid _ _ _ _ _ _ _ _ _ _ _ _ _ d hv] at h
    cases h
    exact ⟨rfl, rfl⟩
  | none =>
    cases hq : quickReturn M N K alpha beta
    · by_cases ha : alpha = 0
      · rw [gemm_of_alpha_zero _ _ _ _ _ _ _ _ _ _ _ _ _ hv hq ha] at h
        obtain ⟨c, -, hc⟩ := Option.map_eq_some'.1 h
        rw [← hc]
        exact ⟨rfl, rfl⟩
      · rw [gemm_of_compute _ _ _ _ _ _ _ _ _ _ _ _ _ hv hq ha] at h
        obtain ⟨c, -, hc⟩ := Option.map_eq_some'.1 h
        rw [← hc]
        exact ⟨rfl, rfl⟩
    · rw [gemm_of_quick _ _ _ _ _ _ _ _ _ _ _ _ _ hv hq] at h
      cases h
      exact ⟨rfl, rfl⟩

theorem gemm_alpha_zero_indep (TransA TransB M N K : Int) (alpha : α) (lda ldb : Int)
    (beta : α) (C : List α) (ldc : Int) (A B A2 B2 : List α)
    (hv : validate TransA TransB M N K lda ldb ldc = none) (ha : alpha = 0) :
    gemm TransA TransB M N K alpha A2 lda B2 ldb beta C ldc
      = gemm TransA TransB M N K alpha A lda B ldb beta C ldc := by
  cases hq : quickReturn M N K alpha beta
  · rw [gemm_of_alpha_zero _ _ _ _ _ _ _ _ _ _ _ _ _ hv hq ha,
      gemm_of_alpha_zero _ _ _ _ _ _ _ _ _ _ _ _ _ hv hq ha]
  · rw [gemm_of_quick _ _ _ _ _ _ _ _ _ _ _ _ _ hv hq,
      gemm_of_quick _ _ _ _ _ _ _ _ _ _ _ _ _ hv hq]

theorem rd_eq_none_iff (buf : List α) (k : Int) :
    rd buf k = none ↔ k < 0 ∨ (buf.length : Int) ≤ k := by
  unfold rd
  split
  · rw [List.getElem?_eq_none_iff]
    omega
  · simp only [true_iff]
    omega

theorem winUpd_length_eq {m n : Nat} {ld : Int} {g : Nat → Nat → α} {c1 c2 : List α}
    (h : WinUpd m n ld g c1 c2)
    (hin : ∀ i j : Nat, i < m → j < n → ∃ x, rd c1 ((i : Int) + (j : Int) * ld) = some x) :
    c2.length = c1.length := by
  have key : ∀ k : Int, rd c2 k = none ↔ rd c1 k = none := by
    intro k
    by_cases hk : ∃ i j : Nat, i < m ∧ j < n ∧ k = (i : Int) + (j : Int) * ld
    · obtain ⟨i, j, hi, hj, rfl⟩ := hk
      obtain ⟨x, hx⟩ := hin i j hi hj
      rw [h.1 i j hi hj, hx]
      simp
    · rw [h.2 k (fun i j hi hj hkk => hk ⟨i, j, hi, hj, hkk⟩)]
  have h1 := key (c1.length : Int)
  have h2 := key (c2.length : Int)
  rw [rd_eq_none_iff, rd_eq_none_iff] at h1 h2
  omega

end Shape


/-! ## The contract -/

/-- C1: over a commutative ring, for a call that passes the parameter test on buffers
that hold `lda * colsA`, `ldb * colsB` and `ldc * N` elements, whatever the two flags are,
`gemm` returns, and every entry `C[i + j*ldc]` of the `M × N` window is
`alpha * (Σ_{l < K} opA(A)[i,l] * opB(B)[l,j]) + beta * C_old[i + j*ldc]`. -/
theorem gemm_triple_sum {α : Type} [CommRing α] [DecidableEq α]
    (TransA TransB M N K : Int) (alpha : α) (A : List α) (lda : Int) (B : List α)
    (ldb : Int) (beta : α) (C : List α) (ldc : Int)
    (hv : validate TransA TransB M N K lda ldb ldc = none)
    (hA : lda * colsA TransA M K ≤ (A.length : Int))
    (hB : ldb * colsB TransB N K ≤ (B.length : Int))
    (hC : ldc * N ≤ (C.length : Int)) :
    ∃ r, gemm TransA TransB M N K alpha A lda B ldb beta C ldc = some r ∧
      r.status = 0 ∧ r.diag = none ∧
      ∀ i j : Nat, (i : Int) < M → (j : Int) < N →
        rd r.C ((i : Int) + (j : Int) * ldc)
          = some (alpha * (∑ l ∈ Finset.range K.toNat,
              opA TransA A lda i l * opB TransB B ldb l j)
            + beta * elemAt C ((i : Int) + (j : Int) * ldc)) := by
  obtain ⟨c2, h, hw⟩ := gemm_spec TransA TransB M N K alpha A lda B ldb beta C ldc hv hC
    (fun _ _ => hA) (fun _ _ => hB)
  refine ⟨_, h, rfl, rfl, fun i j hi hj => ?_⟩
  rw [hw.1 i j (by omega) (by omega),
    gemmVal_eq _ _ _ _ _ _ _ _ _ _ _ _ _ _ _ (by omega) (by omega)]

theorem gemm_triple_sum_witness :
    validate 112 111 2 1 2 3 2 3 = none ∧
    ∃ r, gemm 112 111 2 1 2 (2 : Int) [1, 2, 0, 3, 4, 0] 3 [5, 6] 2 3 [7, 8, 9] 3 = some r ∧
      r.status = 0 ∧ r.diag = none ∧
      ∀ i j : Nat, (i : Int) < 2 → (j : Int) < 1 →
        rd r.C ((i : Int) + (j : Int) * 3)
          = some (2 * (∑ l ∈ Finset.range (2 : Int).toNat,
              opA 112 [1, 2, 0, 3, 4, 0] 3 i l * opB 111 [5, 6] 2 l j)
            + 3 * elemAt [7, 8, 9] ((i : Int) + (j : Int) * 3)) :=
  ⟨by decide,
    gemm_triple_sum 112 111 2 1 2 2 [1, 2, 0, 3, 4, 0] 3 [5, 6] 2 3 [7, 8, 9] 3
      (by decide) (by decide) (by decide) (by decide)⟩

/-- C2: the call with `M = N = K = 2`, no transposition, `A = [1,3,2,4]`,
`B = [5,7,6,8]`, `alpha = 1`, `beta = 0`, `lda = ldb = ldc = 2` returns silently and leaves
`C = [19,43,22,50]`, whatever the four elements of `C` were. -/
theorem gemm_two_by_two (c0 c1 c2 c3 : Int) :
    gemm 111 111 2 2 2 (1 : Int) [1, 3, 2, 4] 2 [5, 7, 6, 8] 2 0 [c0, c1, c2, c3] 2
      = some ⟨0, none, [19, 43, 22, 50]⟩ := by
  rfl

/-- C3: the parameter test fails exactly when a flag is outside of `111..113`, a
dimension is negative or a leading dimension is below `max(1, rows)`, and a call is
reported as rejected exactly when the parameter test fails. -/
theorem gemm_rejected_iff {α : Type} [Zero α] [One α] [Add α] [Mul α] [DecidableEq α]
    (TransA TransB M N K : Int) (alpha : α) (A : List α) (lda : Int) (B : List α)
    (ldb : Int) (beta : α) (C : List α) (ldc : Int) :
    (validate TransA TransB M N K lda ldb ldc ≠ none ↔
      (TransA < 111 ∨ TransA > 113 ∨ TransB < 111 ∨ TransB > 113 ∨ M < 0 ∨ N < 0 ∨ K < 0 ∨
        lda < max 1 (if TransA = CblasNoTrans then M else K) ∨
        ldb < max 1 (if TransB = CblasNoTrans then K else N) ∨
        ldc < max 1 M)) ∧
    ((∃ r d, gemm TransA TransB M N K alpha A lda B ldb beta C ldc = some r ∧
        r.diag = some d) ↔
      validate TransA TransB M N K lda ldb ldc ≠ none) := by
  constructor
  · rw [Ne, validate_eq_none_iff]
    constructor
    · intro h
      by_contra hc
      exact h (by refine ⟨⟨?_, ?_⟩, ⟨?_, ?_⟩, ?_, ?_, ?_, ?_, ?_, ?_⟩ <;> omega)
    · rintro h ⟨⟨h1, h2⟩, ⟨h3, h4⟩, h5, h6, h7, h8, h9, h10⟩
      omega
  · constructor
    · rintro ⟨r, d, h, hd⟩ hv
      rw [(gemm_some_shape _ _ _ _ _ _ _ _ _ _ _ _ _ r h).2, hv] at hd
      cases hd
    · intro hv
      obtain ⟨d, hd⟩ := Option.ne_none_iff_exists'.1 hv
      exact ⟨_, d, gemm_of_invalid _ _ _ _ _ _ _ _ _ _ _ _ _ d hd, rfl⟩

/-- C4: a call that fails the parameter test returns with the diagnostic of the failed
test and the buffer `C` it was given; `A` and `B` are read-only arguments. -/
theorem gemm_invalid_untouched {α : Type} [Zero α] [One α] [Add α] [Mul α] [DecidableEq α]
    (TransA TransB M N K : Int) (alpha : α) (A : List α) (lda : Int) (B : List α)
    (ldb : Int) (beta : α) (C : List α) (ldc : Int)
    (hv : validate TransA TransB M N K lda ldb ldc ≠ none) :
    ∃ d, validate TransA TransB M N K lda ldb ldc = some d ∧
      gemm TransA TransB M N K alpha A lda B ldb beta C ldc = some ⟨0, some d, C⟩ := by
  obtain ⟨d, hd⟩ := Option.ne_none_iff_exists'.1 hv
  exact ⟨d, hd, gemm_of_invalid _ _ _ _ _ _ _ _ _ _ _ _ _ d hd⟩

theorem gemm_invalid_untouched_witness :
    validate 111 111 (-1) 2 2 1 2 1 ≠ none ∧
    ∃ d, validate 111 111 (-1) 2 2 1 2 1 = some d ∧
      gemm 111 111 (-1) 2 2 (3 : Int) [1, 2] 1 [3, 4, 5, 6] 2 4 [7, 8] 1
        = some ⟨0, some d, [7, 8]⟩ :=
  ⟨by decide,
    gemm_invalid_untouched 111 111 (-1) 2 2 3 [1, 2] 1 [3, 4, 5, 6] 2 4 [7, 8] 1 (by decide)⟩

/-- C5 (as stated, refuted): a call rejected for `M`, a call rejected for `N` and a
successful call all return the same status `0`. -/
theorem gemm_status_not_distinguishing :
    gemm 111 111 (-1) 1 1 (1 : Int) [1] 1 [1] 1 0 [5] 1 = some ⟨0, some GemmDiag.negM, [5]⟩ ∧
    gemm 111 111 1 (-1) 1 (1 : Int) [1] 1 [1] 1 0 [5] 1 = some ⟨0, some GemmDiag.negN, [5]⟩ ∧
    gemm 111 111 1 1 1 (1 : Int) [1] 1 [1] 1 0 [5] 1 = some ⟨0, none, [1]⟩ ∧
    (gemm 111 111 (-1) 1 1 (1 : Int) [1] 1 [1] 1 0 [5] 1).map GemmResult.status
      = (gemm 111 111 1 1 1 (1 : Int) [1] 1 [1] 1 0 [5] 1).map GemmResult.status ∧
    (gemm 111 111 (-1) 1 1 (1 : Int) [1] 1 [1] 1 0 [5] 1).map GemmResult.status
      = (gemm 111 111 1 (-1) 1 (1 : Int) [1] 1 [1] 1 0 [5] 1).map GemmResult.status := by
  decide

/-- C5 (amended): every call that returns has status `0`, and its diagnostic is the one
of the parameter test: none exactly when all constraints hold, and otherwise the
diagnostic of the first violated constraint in the order `TransA`, `TransB`, `M`, `N`,
`K`, `lda`, `ldb`, `ldc`. -/
theorem gemm_status_zero_diag_first {α : Type} [Zero α] [One α] [Add α] [Mul α]
    [DecidableEq α]
    (TransA TransB M N K : Int) (alpha : α) (A : List α) (lda : Int) (B : List α)
    (ldb : Int) (beta : α) (C : List α) (ldc : Int) (r : GemmResult α)
    (h : gemm TransA TransB M N K alpha A lda B ldb beta C ldc = some r) :
    r.status = 0 ∧
    (r.diag = none ↔
      (111 ≤ TransA ∧ TransA ≤ 113) ∧ (111 ≤ TransB ∧ TransB ≤ 113) ∧
      0 ≤ M ∧ 0 ≤ N ∧ 0 ≤ K ∧
      max 1 (if TransA = CblasNoTrans then M else K) ≤ lda ∧
      max 1 (if TransB = CblasNoTrans then K else N) ≤ ldb ∧
      max 1 M ≤ ldc) ∧
    (r.diag = some GemmDiag.transA ↔ (TransA < 111 ∨ TransA > 113)) ∧
    (r.diag = some GemmDiag.transB ↔
      (111 ≤ TransA ∧ TransA ≤ 113) ∧ (TransB < 111 ∨ TransB > 113)) ∧
    (r.diag = some GemmDiag.negM ↔
      (111 ≤ TransA ∧ TransA ≤ 113) ∧ (111 ≤ TransB ∧ TransB ≤ 113) ∧ M < 0) ∧
    (r.diag = some GemmDiag.negN ↔
      (111 ≤ TransA ∧ TransA ≤ 113) ∧ (111 ≤ TransB ∧ TransB ≤ 113) ∧ 0 ≤ M ∧ N < 0) ∧
    (r.diag = some GemmDiag.negK ↔
      (111 ≤ TransA ∧ TransA ≤ 113) ∧ (111 ≤ TransB ∧ TransB ≤ 113) ∧ 0 ≤ M ∧ 0 ≤ N ∧
      K < 0) ∧
    ((∃ a b, r.diag = some (GemmDiag.lda a b)) ↔
      (111 ≤ TransA ∧ TransA ≤ 113) ∧ (111 ≤ TransB ∧ TransB ≤ 113) ∧ 0 ≤ M ∧ 0 ≤ N ∧
      0 ≤ K ∧ lda < max 1 (if TransA = CblasNoTrans then M else K)) ∧
    ((∃ a b, r.diag = some (GemmDiag.ldb a b)) ↔
      (111 ≤ TransA ∧ TransA ≤ 113) ∧ (111 ≤ TransB ∧ TransB ≤ 113) ∧ 0 ≤ M ∧ 0 ≤ N ∧
      0 ≤ K ∧ max 1 (if TransA = CblasNoTrans then M else K) ≤ lda ∧
      ldb < max 1 (if TransB = CblasNoTrans then K else N)) ∧
    ((∃ a b, r.diag = some (GemmDiag.ldc a b)) ↔
      (111 ≤ TransA ∧ TransA ≤ 113) ∧ (111 ≤ TransB ∧ TransB ≤ 113) ∧ 0 ≤ M ∧ 0 ≤ N ∧
      0 ≤ K ∧ max 1 (if TransA = CblasNoTrans then M else K) ≤ lda ∧
      max 1 (if TransB = CblasNoTrans then K else N) ≤ ldb ∧ ldc < max 1 M) := by
  obtain ⟨hs, hd⟩ := gemm_some_shape _ _ _ _ _ _ _ _ _ _ _ _ _ r h
  refine ⟨hs, ?_⟩
  rw [hd]
  have hf := validate_first TransA TransB M N K lda ldb ldc
  generalize validate TransA TransB M N K lda ldb ldc = v at hf
  generalize (if TransA = CblasNoTrans then M else K) = ra at hf ⊢
  generalize (if TransB = CblasNoTrans then K else N) = rb at hf ⊢
  generalize max 1 ra = ma at hf ⊢
  generalize max 1 rb = mb at hf ⊢
  generalize max 1 M = mc at hf ⊢
  rcases v with _ | d
  · simp only [reduceCtorEq, exists_false, false_iff, true_iff] at hf ⊢
    omega
  · cases d <;>
      simp only [reduceCtorEq, Option.some.injEq, false_iff, true_iff, exists_false,
        GemmDiag.lda.injEq, GemmDiag.ldb.injEq, GemmDiag.ldc.injEq, exists_and_left,
        exists_eq', and_true, exists_eq] at hf ⊢ <;>
      omega

theorem gemm_status_zero_diag_first_witness :
    gemm 111 112 2 1 2 (1 : Int) [1, 2] 1 [3, 4] 2 0 [5, 6] 2
      = some ⟨0, some (GemmDiag.lda 2 1), [5, 6]⟩ ∧
    (∃ a b, (⟨0, some (GemmDiag.lda 2 1), [5, 6]⟩ : GemmResult Int).diag
        = some (GemmDiag.lda a b)) ∧
    (111 ≤ (111 : Int) ∧ (111 : Int) ≤ 113) ∧ (111 ≤ (112 : Int) ∧ (112 : Int) ≤ 113) ∧
      0 ≤ (2 : Int) ∧ 0 ≤ (1 : Int) ∧ 0 ≤ (2 : Int) ∧
      (1 : Int) < max 1 (if (111 : Int) = CblasNoTrans then (2 : Int) else 2) :=
  have h := gemm_status_zero_diag_first 111 112 2 1 2 (1 : Int) [1, 2] 1 [3, 4] 2 0 [5, 6] 2
    ⟨0, some (GemmDiag.lda 2 1), [5, 6]⟩ (by decide)
  ⟨by decide, ⟨2, 1, rfl⟩, h.2.2.2.2.2.2.2.1.1 ⟨2, 1, rfl⟩⟩

/-- C6: the quick-return expression of line 49, read with the precedence of C, holds
exactly when `M == 0` or `N == 0` or (`alpha == 0` or `K == 0`) and `beta == 1`; a call that
passes the parameter test under this condition returns silently with `C` as it was. -/
theorem gemm_quick_return {α : Type} [Zero α] [One α] [Add α] [Mul α] [DecidableEq α]
    (TransA TransB M N K : Int) (alpha : α) (A : List α) (lda : Int) (B : List α)
    (ldb : Int) (beta : α) (C : List α) (ldc : Int)
    (hv : validate TransA TransB M N K lda ldb ldc = none) :
    (quickReturn M N K alpha beta = true ↔
      (M = 0 ∨ N = 0 ∨ ((alpha = 0 ∨ K = 0) ∧ beta = 1))) ∧
    ((M = 0 ∨ N = 0 ∨ ((alpha = 0 ∨ K = 0) ∧ beta = 1)) →
      gemm TransA TransB M N K alpha A lda B ldb beta C ldc = some ⟨0, none, C⟩) :=
  ⟨quickReturn_iff M N K alpha beta, fun h =>
    gemm_of_quick _ _ _ _ _ _ _ _ _ _ _ _ _ hv ((quickReturn_iff M N K alpha beta).2 h)⟩

theorem gemm_quick_return_witness :
    validate 111 112 2 1 0 2 1 2 = none ∧
    ((quickReturn 2 1 0 (3 : Int) 1 = true ↔
      ((2 : Int) = 0 ∨ (1 : Int) = 0 ∨ (((3 : Int) = 0 ∨ (0 : Int) = 0) ∧ (1 : Int) = 1))) ∧
    (((2 : Int) = 0 ∨ (1 : Int) = 0 ∨ (((3 : Int) = 0 ∨ (0 : Int) = 0) ∧ (1 : Int) = 1)) →
      gemm 111 112 2 1 0 (3 : Int) [] 2 [] 1 1 [7, 8] 2 = some ⟨0, none, [7, 8]⟩)) :=
  ⟨by decide, gemm_quick_return 111 112 2 1 0 (3 : Int) [] 2 [] 1 1 [7, 8] 2 (by decide)⟩

/-- C7: a call that passes the parameter test with `alpha == 0` and `beta == 1` returns
silently with the whole buffer `C` as it was, and the outcome is the same for any other
buffers `A2`, `B2` in place of `A`, `B`, of any length and contents. -/
theorem gemm_alpha_zero_beta_one {α : Type} [Zero α] [One α] [Add α] [Mul α] [DecidableEq α]
    (TransA TransB M N K : Int) (alpha : α) (A : List α) (lda : Int) (B : List α)
    (ldb : Int) (beta : α) (C : List α) (ldc : Int) (A2 B2 : List α)
    (hv : validate TransA TransB M N K lda ldb ldc = none)
    (ha : alpha = 0) (hb : beta = 1) :
    gemm TransA TransB M N K alpha A lda B ldb beta C ldc = some ⟨0, none, C⟩ ∧
    gemm TransA TransB M N K alpha A2 lda B2 ldb beta C ldc
      = gemm TransA TransB M N K alpha A lda B ldb beta C ldc := by
  have hq : quickReturn M N K alpha beta = true :=
    (quickReturn_iff M N K alpha beta).2 (Or.inr (Or.inr ⟨Or.inl ha, hb⟩))
  rw [gemm_of_quick _ _ _ _ _ _ _ _ _ _ _ _ _ hv hq, gemm_of_quick _ _ _ _ _ _ _ _ _ _ _ _ _ hv hq]
  exact ⟨rfl, rfl⟩

theorem gemm_alpha_zero_beta_one_witness :
    validate 112 113 2 2 3 3 2 2 = none ∧ (0 : Int) = 0 ∧ (1 : Int) = 1 ∧
    gemm 112 113 2 2 3 (0 : Int) [1, 2, 3, 4, 5, 6] 3 [1, 2, 3, 4, 5, 6] 2 1 [7, 8, 9, 10] 2
      = some ⟨0, none, [7, 8, 9, 10]⟩ ∧
    gemm 112 113 2 2 3 (0 : Int) [] 3 [42] 2 1 [7, 8, 9, 10] 2
      = gemm 112 113 2 2 3 (0 : Int) [1, 2, 3, 4, 5, 6] 3 [1, 2, 3, 4, 5, 6] 2 1
          [7, 8, 9, 10] 2 :=
  ⟨by decide, rfl, rfl,
    gemm_alpha_zero_beta_one 112 113 2 2 3 (0 : Int) [1, 2, 3, 4, 5, 6] 3 [1, 2, 3, 4, 5, 6] 2 1
      [7, 8, 9, 10] 2 [] [42] (by decide) rfl rfl⟩

/-- C8: in a domain where `0` differs from `1` and no law of arithmetic is assumed, a
call that passes the parameter test with `alpha == 0` and `beta == 0` returns silently
and every entry of the `M × N` window of `C` is the zero of the domain, whatever `C`
held; since no law makes `x * 0` equal to `0`, the zero is the assigned one. -/
theorem gemm_alpha_zero_beta_zero {α : Type} [Zero α] [One α] [Add α] [Mul α]
    [DecidableEq α]
    (TransA TransB M N K : Int) (alpha : α) (A : List α) (lda : Int) (B : List α)
    (ldb : Int) (beta : α) (C : List α) (ldc : Int)
    (hv : validate TransA TransB M N K lda ldb ldc = none)
    (ha : alpha = 0) (hb : beta = 0) (h01 : (0 : α) ≠ 1)
    (hC : ldc * N ≤ (C.length : Int)) :
    ∃ r, gemm TransA TransB M N K alpha A lda B ldb beta C ldc = some r ∧
      r.status = 0 ∧ r.diag = none ∧
      ∀ i j : Nat, (i : Int) < M → (j : Int) < N →
        rd r.C ((i : Int) + (j : Int) * ldc) = some 0 := by
  obtain ⟨c2, h, hw⟩ := gemm_spec TransA TransB M N K alpha A lda B ldb beta C ldc hv hC
    (fun _ hne => absurd ha hne) (fun _ hne => absurd ha hne)
  refine ⟨_, h, rfl, rfl, fun i j hi hj => ?_⟩
  rw [hw.1 i j (by omega) (by omega)]
  have hq : ¬ quickReturn M N K alpha beta = true := by
    rw [quickReturn_iff]
    rintro (h | h | ⟨-, h⟩)
    · omega
    · omega
    · exact h01 (hb.symm.trans h)
  simp only [gemmVal, if_neg hq, if_pos ha, if_pos hb]

theorem gemm_alpha_zero_beta_zero_witness :
    validate 112 111 2 2 3 3 3 3 = none ∧ (0 : Int) = 0 ∧ (0 : Int) = 0 ∧ (0 : Int) ≠ 1 ∧
    (3 : Int) * 2 ≤ (([7, 8, 9, 10, 11, 12] : List Int).length : Int) ∧
    ∃ r, gemm 112 111 2 2 3 (0 : Int) [] 3 [] 3 0 [7, 8, 9, 10, 11, 12] 3 = some r ∧
      r.status = 0 ∧ r.diag = none ∧
      ∀ i j : Nat, (i : Int) < 2 → (j : Int) < 2 →
        rd r.C ((i : Int) + (j : Int) * 3) = some 0 :=
  ⟨by decide, rfl, rfl, by decide, by decide,
    gemm_alpha_zero_beta_zero 112 111 2 2 3 (0 : Int) [] 3 [] 3 0 [7, 8, 9, 10, 11, 12] 3
      (by decide) rfl rfl (by decide) (by decide)⟩

/-- C9: over a commutative ring, a call that passes the parameter test with
`alpha == 0` returns silently, every entry of the `M × N` window of `C` is
`beta * C_old[i + j*ldc]` (the assigned zero when `beta == 0`), and the outcome is the very
same for any other buffers `A2`, `B2` in place of `A`, `B`, of any length and contents:
only `C` has to hold `ldc * N` elements. -/
theorem gemm_alpha_zero_rescale {α : Type} [CommRing α] [DecidableEq α]
    (TransA TransB M N K : Int) (alpha : α) (A : List α) (lda : Int) (B : List α)
    (ldb : Int) (beta : α) (C : List α) (ldc : Int) (A2 B2 : List α)
    (hv : validate TransA TransB M N K lda ldb ldc = none)
    (ha : alpha = 0)
    (hC : ldc * N ≤ (C.length : Int)) :
    ∃ r, gemm TransA TransB M N K alpha A lda B ldb beta C ldc = some r ∧
      gemm TransA TransB M N K alpha A2 lda B2 ldb beta C ldc = some r ∧
      r.status = 0 ∧ r.diag = none ∧
      ∀ i j : Nat, (i : Int) < M → (j : Int) < N →
        rd r.C ((i : Int) + (j : Int) * ldc)
            = some (beta * elemAt C ((i : Int) + (j : Int) * ldc)) ∧
        (beta = 0 → rd r.C ((i : Int) + (j : Int) * ldc) = some 0) := by
  obtain ⟨c2, h, hw⟩ := gemm_spec TransA TransB M N K alpha A lda B ldb beta C ldc hv hC
    (fun _ hne => absurd ha hne) (fun _ hne => absurd ha hne)
  refine ⟨_, h, ?_, rfl, rfl, fun i j hi hj => ?_⟩
  · rw [gemm_alpha_zero_indep TransA TransB M N K alpha lda ldb beta C ldc A B A2 B2 hv ha, h]
  · have hval : rd c2 ((i : Int) + (j : Int) * ldc)
        = some (beta * elemAt C ((i : Int) + (j : Int) * ldc)) := by
      rw [hw.1 i j (by omega) (by omega),
        gemmVal_eq _ _ _ _ _ _ _ _ _ _ _ _ _ _ _ (by omega) (by omega), ha, zero_mul, zero_add]
    refine ⟨hval, fun hb => ?_⟩
    rw [hval, hb, zero_mul]

theorem gemm_alpha_zero_rescale_witness :
    validate 111 112 2 2 3 2 2 3 = none ∧ (0 : Int) = 0 ∧
    (3 : Int) * 2 ≤ (([7, 8, 9, 10, 11, 12] : List Int).length : Int) ∧
    ∃ r, gemm 111 112 2 2 3 (0 : Int) [1, 2, 3, 4, 5, 6] 2 [1, 2, 3, 4, 5, 6] 2 5
          [7, 8, 9, 10, 11, 12] 3 = some r ∧
      gemm 111 112 2 2 3 (0 : Int) [] 2 [42] 2 5 [7, 8, 9, 10, 11, 12] 3 = some r ∧
      r.status = 0 ∧ r.diag = none ∧
      ∀ i j : Nat, (i : Int) < 2 → (j : Int) < 2 →
        rd r.C ((i : Int) + (j : Int) * 3)
            = some (5 * elemAt [7, 8, 9, 10, 11, 12] ((i : Int) + (j : Int) * 3)) ∧
        ((5 : Int) = 0 → rd r.C ((i : Int) + (j : Int) * 3) = some 0) :=
  ⟨by decide, rfl, by decide,
    gemm_alpha_zero_rescale 111 112 2 2 3 (0 : Int) [1, 2, 3, 4, 5, 6] 2 [1, 2, 3, 4, 5, 6] 2 5
      [7, 8, 9, 10, 11, 12] 3 [] [42] (by decide) rfl (by decide)⟩

/-- C10: on every path (failed parameter test, quick return, rescale for `alpha == 0`,
each of the four loop nests) `gemm` returns a buffer of the length of `C` in which every
entry whose index is not `i + j*ldc` with `0 <= i < M`, `0 <= j < N` is the one of `C`;
in particular the rows `M..ldc-1` of every column are untouched.  The buffers have to
be large enough only on the paths that access them. -/
theorem gemm_frame {α : Type} [Zero α] [One α] [Add α] [Mul α] [DecidableEq α]
    (TransA TransB M N K : Int) (alpha : α) (A : List α) (lda : Int) (B : List α)
    (ldb : Int) (beta : α) (C : List α) (ldc : Int)
    (hC : validate TransA TransB M N K lda ldb ldc = none → ldc * N ≤ (C.length : Int))
    (hA : validate TransA TransB M N K lda ldb ldc = none →
      quickReturn M N K alpha beta = false → alpha ≠ 0 →
      lda * colsA TransA M K ≤ (A.length : Int))
    (hB : validate TransA TransB M N K lda ldb ldc = none →
      quickReturn M N K alpha beta = false → alpha ≠ 0 →
      ldb * colsB TransB N K ≤ (B.length : Int)) :
    ∃ r, gemm TransA TransB M N K alpha A lda B ldb beta C ldc = some r ∧
      r.C.length = C.length ∧
      (∀ k : Int,
        (∀ i j : Nat, (i : Int) < M → (j : Int) < N → k ≠ (i : Int) + (j : Int) * ldc) →
        rd r.C k = rd C k) ∧
      (∀ i j : Nat, M ≤ (i : Int) → (i : Int) < ldc →
        rd r.C ((i : Int) + (j : Int) * ldc) = rd C ((i : Int) + (j : Int) * ldc)) := by
  cases hv : validate TransA TransB M N K lda ldb ldc with
  | some d =>
    exact ⟨_, gemm_of_invalid _ _ _ _ _ _ _ _ _ _ _ _ _ d hv, rfl, fun _ _ => rfl,
      fun _ _ _ _ => rfl⟩
  | none =>
    obtain ⟨c2, h, hw⟩ := gemm_spec TransA TransB M N K alpha A lda B ldb beta C ldc hv
      (hC hv) (hA hv) (hB hv)
    obtain ⟨-, -, hM0, hN0, hK0, -, -, hldc⟩ := (validate_eq_none_iff _ _ _ _ _ _ _ _).1 hv
    refine ⟨_, h, ?_, ?_, ?_⟩
    · exact winUpd_length_eq hw (fun i j hi hj => win_in_bounds C (show M ≤ ldc by omega) (hC hv)
        (show (i : Int) < M by omega) (show (j : Int) < N by omega))
    · exact fun k hk => hw.2 k (fun i j hi hj => hk i j (by omega) (by omega))
    · intro i j hi hi2
      refine hw.2 _ (fun i2 j2 hi2 hj2 heq => ?_)
      have hld : ((ldc.toNat : Nat) : Int) ≤ ldc := by omega
      have := (idx_inj hld (show i < ldc.toNat by omega) (show i2 < ldc.toNat by omega) heq).1
      omega

theorem gemm_frame_witness :
    validate 111 112 2 2 1 2 2 3 = none ∧
    (validate 111 112 2 2 1 2 2 3 = none →
      (3 : Int) * 2 ≤ (([10, 20, 99, 30, 40, 98] : List Int).length : Int)) ∧
    (validate 111 112 2 2 1 2 2 3 = none → quickReturn 2 2 1 (1 : Int) 1 = false →
      (1 : Int) ≠ 0 → (2 : Int) * colsA 111 2 1 ≤ (([1, 2] : List Int).length : Int)) ∧
    (validate 111 112 2 2 1 2 2 3 = none → quickReturn 2 2 1 (1 : Int) 1 = false →
      (1 : Int) ≠ 0 → (2 : Int) * colsB 112 2 1 ≤ (([3, 4] : List Int).length : Int)) ∧
    ∃ r, gemm 111 112 2 2 1 (1 : Int) [1, 2] 2 [3, 4] 2 1 [10, 20, 99, 30, 40, 98] 3
          = some r ∧
      r.C.length = ([10, 20, 99, 30, 40, 98] : List Int).length ∧
      (∀ k : Int,
        (∀ i j : Nat, (i : Int) < 2 → (j : Int) < 2 → k ≠ (i : Int) + (j : Int) * 3) →
        rd r.C k = rd [10, 20, 99, 30, 40, 98] k) ∧
      (∀ i j : Nat, (2 : Int) ≤ (i : Int) → (i : Int) < 3 →
        rd r.C ((i : Int) + (j : Int) * 3)
          = rd [10, 20, 99, 30, 40, 98] ((i : Int) + (j : Int) * 3)) :=
  ⟨by decide, fun _ => by decide, fun _ _ _ => by decide, fun _ _ _ => by decide,
    gemm_frame 111 112 2 2 1 (1 : Int) [1, 2] 2 [3, 4] 2 1 [10, 20, 99, 30, 40, 98] 3
      (fun _ => by decide) (fun _ _ _ => by decide) (fun _ _ _ => by decide)⟩

/-! ## Flags, priorities and index safety -/

section Flags

variable {α : Type} [Zero α] [One α] [Add α] [Mul α] [DecidableEq α]

theorem gemm_flag_congr (tA tA2 tB tB2 M N K : Int) (alpha : α) (A : List α) (lda : Int)
    (B : List α) (ldb : Int) (beta : α) (C : List α) (ldc : Int)
    (hA : tA = CblasNoTrans ↔ tA2 = CblasNoTrans)
    (hB : tB = CblasNoTrans ↔ tB2 = CblasNoTrans)
    (hv : validate tA tB M N K lda ldb ldc = validate tA2 tB2 M N K lda ldb ldc) :
    gemm tA tB M N K alpha A lda B ldb beta C ldc
      = gemm tA2 tB2 M N K alpha A lda B ldb beta C ldc := by
  have hc : compute tA tB M N K alpha A lda B ldb beta C ldc
      = compute tA2 tB2 M N K alpha A lda B ldb beta C ldc := by
    unfold compute
    by_cases h1 : tA = CblasNoTrans <;> by_cases h2 : tB = CblasNoTrans
    · rw [if_pos h2, if_pos h1, if_pos (hB.1 h2), if_pos (hA.1 h1)]
    · rw [if_neg h2, if_pos h1, if_neg (fun h => h2 (hB.2 h)), if_pos (hA.1 h1)]
    · rw [if_pos h2, if_neg h1, if_pos (hB.1 h2), if_neg (fun h => h1 (hA.2 h))]
    · rw [if_neg h2, if_neg h1, if_neg (fun h => h2 (hB.2 h)), if_neg (fun h => h1 (hA.2 h))]
  unfold gemm
  rw [hv, hc]

theorem validate_conj_a (TransB M N K lda ldb ldc : Int) :
    validate 113 TransB M N K lda ldb ldc = validate 112 TransB M N K lda ldb ldc := by
  simp [validate, CblasNoTrans]

theorem validate_conj_b (TransA M N K lda ldb ldc : Int) :
    validate TransA 113 M N K lda ldb ldc = validate TransA 112 M N K lda ldb ldc := by
  simp [validate, CblasNoTrans]

end Flags

/-- C12: the four outcomes are tried in the order parameter test, quick return,
rescale for `alpha == 0`, loop nest.  A call that fails the parameter test is rejected
whatever the later conditions are; a call that passes it under the quick-return
condition returns `C` as it is, whatever the buffers are; only then does `alpha == 0`
select the rescale, and only otherwise is a loop nest run. -/
theorem gemm_priority {α : Type} [Zero α] [One α] [Add α] [Mul α] [DecidableEq α]
    (TransA TransB M N K : Int) (alpha : α) (A : List α) (lda : Int) (B : List α)
    (ldb : Int) (beta : α) (C : List α) (ldc : Int) :
    (∀ d, validate TransA TransB M N K lda ldb ldc = some d →
      gemm TransA TransB M N K alpha A lda B ldb beta C ldc = some ⟨0, some d, C⟩) ∧
    (validate TransA TransB M N K lda ldb ldc = none →
      quickReturn M N K alpha beta = true →
      gemm TransA TransB M N K alpha A lda B ldb beta C ldc = some ⟨0, none, C⟩) ∧
    (validate TransA TransB M N K lda ldb ldc = none →
      quickReturn M N K alpha beta = false → alpha = 0 →
      gemm TransA TransB M N K alpha A lda B ldb beta C ldc
        = (alphaZero M N beta C ldc).map (fun c => ⟨0, none, c⟩)) ∧
    (validate TransA TransB M N K lda ldb ldc = none →
      quickReturn M N K alpha beta = false → alpha ≠ 0 →
      gemm TransA TransB M N K alpha A lda B ldb beta C ldc
        = (compute TransA TransB M N K alpha A lda B ldb beta C ldc).map
            (fun c => ⟨0, none, c⟩)) :=
  ⟨fun d hd => gemm_of_invalid _ _ _ _ _ _ _ _ _ _ _ _ _ d hd,
    fun hv hq => gemm_of_quick _ _ _ _ _ _ _ _ _ _ _ _ _ hv hq,
    fun hv hq ha => gemm_of_alpha_zero _ _ _ _ _ _ _ _ _ _ _ _ _ hv hq ha,
    fun hv hq ha => gemm_of_compute _ _ _ _ _ _ _ _ _ _ _ _ _ hv hq ha⟩

theorem gemm_priority_witness :
    (quickReturn 0 0 0 (2 : Int) 3 = true ∧
      gemm 111 111 0 0 0 (2 : Int) [] 1 [] 1 3 [] 0 = some ⟨0, some (GemmDiag.ldc 0 0), []⟩) ∧
    (quickReturn 1 1 (-1) (0 : Int) 1 = true ∧
      gemm 111 111 1 1 (-1) (0 : Int) [4] 1 [5] 1 1 [6] 1
        = some ⟨0, some GemmDiag.negK, [6]⟩) ∧
    (validate 111 111 1 1 1 1 1 1 = none ∧ quickReturn 1 1 1 (0 : Int) 1 = true ∧
      gemm 111 111 1 1 1 (0 : Int) [] 1 [] 1 1 [] 1 = some ⟨0, none, []⟩) :=
  ⟨⟨by decide,
      (gemm_priority 111 111 0 0 0 (2 : Int) [] 1 [] 1 3 [] 0).1 _ (by decide)⟩,
    ⟨by decide,
      (gemm_priority 111 111 1 1 (-1) (0 : Int) [4] 1 [5] 1 1 [6] 1).1 _ (by decide)⟩,
    ⟨by decide, by decide,
      (gemm_priority 111 111 1 1 1 (0 : Int) [] 1 [] 1 1 [] 1).2.1 (by decide) (by decide)⟩⟩

/-- C14: replacing `TransA = 112` by `113`, or `TransB = 112` by `113`, changes neither the
outcome of the parameter test nor the outcome of the call, for all inputs and in every
element domain. -/
theorem gemm_conj_as_trans {α : Type} [Zero α] [One α] [Add α] [Mul α] [DecidableEq α]
    (TransA TransB M N K : Int) (alpha : α) (A : List α) (lda : Int) (B : List α)
    (ldb : Int) (beta : α) (C : List α) (ldc : Int) :
    validate 113 TransB M N K lda ldb ldc = validate 112 TransB M N K lda ldb ldc ∧
    validate TransA 113 M N K lda ldb ldc = validate TransA 112 M N K lda ldb ldc ∧
    gemm 113 TransB M N K alpha A lda B ldb beta C ldc
      = gemm 112 TransB M N K alpha A lda B ldb beta C ldc ∧
    gemm TransA 113 M N K alpha A lda B ldb beta C ldc
      = gemm TransA 112 M N K alpha A lda B ldb beta C ldc :=
  ⟨validate_conj_a _ _ _ _ _ _ _, validate_conj_b _ _ _ _ _ _ _,
    gemm_flag_congr _ _ _ _ _ _ _ _ _ _ _ _ _ _ _ (by simp [CblasNoTrans]) Iff.rfl
      (validate_conj_a _ _ _ _ _ _ _),
    gemm_flag_congr _ _ _ _ _ _ _ _ _ _ _ _ _ _ _ Iff.rfl (by simp [CblasNoTrans])
      (validate_conj_b _ _ _ _ _ _ _)⟩

/-- C20: for a call that passes the parameter test on buffers with
`length(A) >= lda * colsA`, `length(B) >= ldb * colsB` and `length(C) >= ldc * N`, no access
of the routine leaves its buffer: the call returns (a failed access would make it `none`),
and each index `i + l*lda` or `l + i*lda` into `A`, `l + j*ldb` or `j + l*ldb` into `B` and
`i + j*ldc` into `C`, for `i < M`, `j < N`, `l < K`, lies inside its buffer. -/
theorem gemm_index_safe {α : Type} [Zero α] [One α] [Add α] [Mul α] [DecidableEq α]
    (TransA TransB M N K : Int) (alpha : α) (A : List α) (lda : Int) (B : List α)
    (ldb : Int) (beta : α) (C : List α) (ldc : Int)
    (hv : validate TransA TransB M N K lda ldb ldc = none)
    (hA : lda * colsA TransA M K ≤ (A.length : Int))
    (hB : ldb * colsB TransB N K ≤ (B.length : Int))
    (hC : ldc * N ≤ (C.length : Int)) :
    (∃ r, gemm TransA TransB M N K alpha A lda B ldb beta C ldc = some r) ∧
    (∀ i l : Nat, (i : Int) < M → (l : Int) < K →
      ∃ x, rd A (if TransA = CblasNoTrans then (i : Int) + (l : Int) * lda
        else (l : Int) + (i : Int) * lda) = some x) ∧
    (∀ l j : Nat, (l : Int) < K → (j : Int) < N →
      ∃ x, rd B (if TransB = CblasNoTrans then (l : Int) + (j : Int) * ldb
        else (j : Int) + (l : Int) * ldb) = some x) ∧
    (∀ i j : Nat, (i : Int) < M → (j : Int) < N →
      ∃ x, rd C ((i : Int) + (j : Int) * ldc) = some x) := by
  obtain ⟨c2, h, -⟩ := gemm_spec TransA TransB M N K alpha A lda B ldb beta C ldc hv hC
    (fun _ _ => hA) (fun _ _ => hB)
  obtain ⟨-, -, hM0, hN0, hK0, hlda, hldb, hldc⟩ := (validate_eq_none_iff _ _ _ _ _ _ _ _).1 hv
  refine ⟨⟨_, h⟩, fun i l hi hl => ?_, fun l j hl hj => ?_, fun i j hi hj => ?_⟩
  · unfold colsA at hA
    split_ifs at hA hlda ⊢
    · exact win_in_bounds A (show M ≤ lda by omega) hA hi hl
    · exact win_in_bounds A (show K ≤ lda by omega) hA hl hi
  · unfold colsB at hB
    split_ifs at hB hldb ⊢
    · exact win_in_bounds B (show K ≤ ldb by omega) hB hl hj
    · exact win_in_bounds B (show N ≤ ldb by omega) hB hj hl
  · exact win_in_bounds C (show M ≤ ldc by omega) hC hi hj

theorem gemm_index_safe_witness :
    validate 112 112 2 1 2 3 2 3 = none ∧
    (3 : Int) * colsA 112 2 2 ≤ (([1, 2, 0, 3, 4, 0] : List Int).length : Int) ∧
    (2 : Int) * colsB 112 1 2 ≤ (([5, 0, 6, 0] : List Int).length : Int) ∧
    (3 : Int) * 1 ≤ (([7, 8, 9] : List Int).length : Int) ∧
    ((∃ r, gemm 112 112 2 1 2 (2 : Int) [1, 2, 0, 3, 4, 0] 3 [5, 0, 6, 0] 2 3 [7, 8, 9] 3
        = some r) ∧
    (∀ i l : Nat, (i : Int) < 2 → (l : Int) < 2 →
      ∃ x, rd ([1, 2, 0, 3, 4, 0] : List Int)
        (if (112 : Int) = CblasNoTrans then (i : Int) + (l : Int) * 3
          else (l : Int) + (i : Int) * 3) = some x) ∧
    (∀ l j : Nat, (l : Int) < 2 → (j : Int) < 1 →
      ∃ x, rd ([5, 0, 6, 0] : List Int)
        (if (112 : Int) = CblasNoTrans then (l : Int) + (j : Int) * 2
          else (j : Int) + (l : Int) * 2) = some x) ∧
    (∀ i j : Nat, (i : Int) < 2 → (j : Int) < 1 →
      ∃ x, rd ([7, 8, 9] : List Int) ((i : Int) + (j : Int) * 3) = some x)) :=
  ⟨by decide, by decide, by decide, by decide,
    gemm_index_safe 112 112 2 1 2 (2 : Int) [1, 2, 0, 3, 4, 0] 3 [5, 0, 6, 0] 2 3 [7, 8, 9] 3
      (by decide) (by decide) (by decide) (by decide)⟩

/-! ## What the window depends on -/

section Dependence

variable {α : Type} [Zero α] [One α] [Add α] [Mul α] [DecidableEq α]

theorem axpyVal_congr (alpha : α) (a b a2 b2 : Nat → α) (x0 : α) (n : Nat)
    (ha : ∀ l, l < n → a l = a2 l) (hb : ∀ l, l < n → b l = b2 l) :
    axpyVal alpha a b x0 n = axpyVal alpha a2 b2 x0 n := by
  induction n with
  | zero => rfl
  | succ n ih =>
    simp only [axpyVal]
    rw [ih (fun l hl => ha l (by omega)) (fun l hl => hb l (by omega)),
      ha n (by omega), hb n (by omega)]

theorem dotVal_congr (a b a2 b2 : Nat → α) (n : Nat)
    (ha : ∀ l, l < n → a l = a2 l) (hb : ∀ l, l < n → b l = b2 l) :
    dotVal a b n = dotVal a2 b2 n := by
  induction n with
  | zero => rfl
  | succ n ih =>
    simp only [dotVal]
    rw [ih (fun l hl => ha l (by omega)) (fun l hl => hb l (by omega)),
      ha n (by omega), hb n (by omega)]

theorem dotVal_eq_foldl (a b : Nat → α) (n : Nat) :
    dotVal a b n = (List.range n).foldl (fun t l => t + a l * b l) 0 := by
  induction n with
  | zero => rfl
  | succ n ih => rw [dotVal, List.range_succ, List.foldl_append, ← ih]; rfl

theorem computeVal_congr (TransA TransB K : Int) (alpha : α) (A : List α) (lda : Int)
    (B : List α) (ldb : Int) (A2 : List α) (lda2 : Int) (B2 : List α) (ldb2 : Int)
    (beta x : α) (i j : Nat)
    (hA : ∀ l : Nat, l < K.toNat → opA TransA A lda i l = opA TransA A2 lda2 i l)
    (hB : ∀ l : Nat, l < K.toNat → opB TransB B ldb l j = opB TransB B2 ldb2 l j) :
    computeVal TransA TransB K alpha A lda B ldb beta x i j
      = computeVal TransA TransB K alpha A2 lda2 B2 ldb2 beta x i j := by
  unfold computeVal
  rw [axpyVal_congr alpha _ _ _ _ _ _ hA hB, dotVal_congr _ _ _ _ _ hA hB]

theorem gemmVal_congr (TransA TransB M N K : Int) (alpha : α) (A : List α) (lda : Int)
    (B : List α) (ldb : Int) (A2 : List α) (lda2 : Int) (B2 : List α) (ldb2 : Int)
    (beta : α) (C : List α) (ldc : Int) (C2 : List α) (ldc2 : Int) (i j : Nat)
    (hA : ∀ l : Nat, l < K.toNat → opA TransA A lda i l = opA TransA A2 lda2 i l)
    (hB : ∀ l : Nat, l < K.toNat → opB TransB B ldb l j = opB TransB B2 ldb2 l j)
    (hC : elemAt C ((i : Int) + (j : Int) * ldc) = elemAt C2 ((i : Int) + (j : Int) * ldc2)) :
    gemmVal TransA TransB M N K alpha A lda B ldb beta C ldc i j
      = gemmVal TransA TransB M N K alpha A2 lda2 B2 ldb2 beta C2 ldc2 i j := by
  unfold gemmVal
  rw [hC, computeVal_congr TransA TransB K alpha A lda B ldb A2 lda2 B2 ldb2 beta _ i j hA hB]

theorem computeVal_beta_zero (TransA TransB K : Int) (alpha : α) (A : List α) (lda : Int)
    (B : List α) (ldb : Int) (x y : α) (i j : Nat) :
    computeVal TransA TransB K alpha A lda B ldb 0 x i j
      = computeVal TransA TransB K alpha A lda B ldb 0 y i j := by
  simp [computeVal, betaVal, storeVal]

end Dependence

/-- C11: two calls that pass the parameter test with the same flags, dimensions and
scalars, on buffers with any two sets of leading dimensions (packed or padded) that hold
the same logical matrices `op(A)`, `op(B)` and the same `M × N` window of `C`, both return
and leave the same `M × N` window in `C`; the padding of either call is arbitrary.  No
law of arithmetic is assumed. -/
theorem gemm_stride_independent {α : Type} [Zero α] [One α] [Add α] [Mul α] [DecidableEq α]
    (TransA TransB M N K : Int) (alpha beta : α)
    (A : List α) (lda : Int) (B : List α) (ldb : Int) (C : List α) (ldc : Int)
    (A2 : List α) (lda2 : Int) (B2 : List α) (ldb2 : Int) (C2 : List α) (ldc2 : Int)
    (hv : validate TransA TransB M N K lda ldb ldc = none)
    (hv2 : validate TransA TransB M N K lda2 ldb2 ldc2 = none)
    (hA : lda * colsA TransA M K ≤ (A.length : Int))
    (hB : ldb * colsB TransB N K ≤ (B.length : Int))
    (hC : ldc * N ≤ (C.length : Int))
    (hA2 : lda2 * colsA TransA M K ≤ (A2.length : Int))
    (hB2 : ldb2 * colsB TransB N K ≤ (B2.length : Int))
    (hC2 : ldc2 * N ≤ (C2.length : Int))
    (hAeq : ∀ i l : Nat, (i : Int) < M → (l : Int) < K →
      opA TransA A lda i l = opA TransA A2 lda2 i l)
    (hBeq : ∀ l j : Nat, (l : Int) < K → (j : Int) < N →
      opB TransB B ldb l j = opB TransB B2 ldb2 l j)
    (hCeq : ∀ i j : Nat, (i : Int) < M → (j : Int) < N →
      elemAt C ((i : Int) + (j : Int) * ldc) = elemAt C2 ((i : Int) + (j : Int) * ldc2)) :
    ∃ r r2, gemm TransA TransB M N K alpha A lda B ldb beta C ldc = some r ∧
      gemm TransA TransB M N K alpha A2 lda2 B2 ldb2 beta C2 ldc2 = some r2 ∧
      ∀ i j : Nat, (i : Int) < M → (j : Int) < N →
        rd r.C ((i : Int) + (j : Int) * ldc) = rd r2.C ((i : Int) + (j : Int) * ldc2) := by
  obtain ⟨c, h, hw⟩ := gemm_spec TransA TransB M N K alpha A lda B ldb beta C ldc hv hC
    (fun _ _ => hA) (fun _ _ => hB)
  obtain ⟨c2, h2, hw2⟩ := gemm_spec TransA TransB M N K alpha A2 lda2 B2 ldb2 beta C2 ldc2
    hv2 hC2 (fun _ _ => hA2) (fun _ _ => hB2)
  refine ⟨_, _, h, h2, fun i j hi hj => ?_⟩
  rw [hw.1 i j (by omega) (by omega), hw2.1 i j (by omega) (by omega),
    gemmVal_congr TransA TransB M N K alpha A lda B ldb A2 lda2 B2 ldb2 beta C ldc C2 ldc2 i j
      (fun l hl => hAeq i l hi (by omega)) (fun l hl => hBeq l j (by omega) hj) (hCeq i j hi hj)]

theorem gemm_stride_independent_witness :
    ∃ r r2, gemm 111 112 2 1 1 (2 : Int) [1, 2] 2 [3] 1 5 [4, 6] 2 = some r ∧
      gemm 111 112 2 1 1 (2 : Int) [1, 2, 77] 3 [3, 55] 2 5 [4, 6, 66] 3 = some r2 ∧
      ∀ i j : Nat, (i : Int) < 2 → (j : Int) < 1 →
        rd r.C ((i : Int) + (j : Int) * 2) = rd r2.C ((i : Int) + (j : Int) * 3) :=
  gemm_stride_independent 111 112 2 1 1 (2 : Int) 5 [1, 2] 2 [3] 1 [4, 6] 2
    [1, 2, 77] 3 [3, 55] 2 [4, 6, 66] 3
    (by decide) (by decide) (by decide) (by decide) (by decide) (by decide) (by decide)
    (by decide)
    (fun i l hi hl => by
      have hl0 : l = 0 := by omega
      have hi01 : i = 0 ∨ i = 1 := by omega
      subst hl0
      rcases hi01 with rfl | rfl <;> rfl)
    (fun l j hl hj => by
      have hl0 : l = 0 := by omega
      have hj0 : j = 0 := by omega
      subst hl0 hj0
      rfl)
    (fun i j hi hj => by
      have hj0 : j = 0 := by omega
      have hi01 : i = 0 ∨ i = 1 := by omega
      subst hj0
      rcases hi01 with rfl | rfl <;> rfl)

theorem gemm_beta_zero_ring {α : Type} [CommRing α] [DecidableEq α]
    (TransA TransB M N K : Int) (alpha : α) (A : List α) (lda : Int) (B : List α)
    (ldb : Int) (beta : α) (C : List α) (ldc : Int) (C2 : List α)
    (hv : validate TransA TransB M N K lda ldb ldc = none)
    (hb : beta = 0)
    (hA : lda * colsA TransA M K ≤ (A.length : Int))
    (hB : ldb * colsB TransB N K ≤ (B.length : Int))
    (hC : ldc * N ≤ (C.length : Int))
    (hC2 : ldc * N ≤ (C2.length : Int)) :
    ∃ r r2, gemm TransA TransB M N K alpha A lda B ldb beta C ldc = some r ∧
      gemm TransA TransB M N K alpha A lda B ldb beta C2 ldc = some r2 ∧
      ∀ i j : Nat, (i : Int) < M → (j : Int) < N →
        rd r.C ((i : Int) + (j : Int) * ldc)
          = some (alpha * ∑ l ∈ Finset.range K.toNat,
              opA TransA A lda i l * opB TransB B ldb l j) ∧
        rd r2.C ((i : Int) + (j : Int) * ldc) = rd r.C ((i : Int) + (j : Int) * ldc) := by
  obtain ⟨c, h, hw⟩ := gemm_spec TransA TransB M N K alpha A lda B ldb beta C ldc hv hC
    (fun _ _ => hA) (fun _ _ => hB)
  obtain ⟨c2, h2, hw2⟩ := gemm_spec TransA TransB M N K alpha A lda B ldb beta C2 ldc hv hC2
    (fun _ _ => hA) (fun _ _ => hB)
  refine ⟨_, _, h, h2, fun i j hi hj => ?_⟩
  have key : ∀ (D c3 : List α),
      WinUpd M.toNat N.toNat ldc (gemmVal TransA TransB M N K alpha A lda B ldb beta D ldc)
        D c3 →
      rd c3 ((i : Int) + (j : Int) * ldc)
        = some (alpha * ∑ l ∈ Finset.range K.toNat,
            opA TransA A lda i l * opB TransB B ldb l j) := by
    intro D c3 hD
    rw [hD.1 i j (by omega) (by omega),
      gemmVal_eq _ _ _ _ _ _ _ _ _ _ _ _ _ _ _ (by omega) (by omega), hb, zero_mul, add_zero]
  exact ⟨key C c hw, (key C2 c2 hw2).trans (key C c hw).symm⟩

/-- C16: in the dot-product nests (`TransA != CblasNoTrans`), on the full-compute path,
every entry of the window is `alpha * temp` when `beta == 0` and
`alpha * temp + beta * C_old[i + j*ldc]` otherwise, where `temp` is the left fold
`temp_0 = 0`, `temp_{l+1} = temp_l + A[l + i*lda] * opB(B)[l,j]` over `l = 0, 1, ..., K-1`
in this order.  No law of arithmetic is assumed, so the order is the one of the code. -/
theorem gemm_dot_order {α : Type} [Zero α] [One α] [Add α] [Mul α] [DecidableEq α]
    (TransA TransB M N K : Int) (alpha : α) (A : List α) (lda : Int) (B : List α)
    (ldb : Int) (beta : α) (C : List α) (ldc : Int)
    (hv : validate TransA TransB M N K lda ldb ldc = none)
    (hTA : TransA ≠ CblasNoTrans) (ha : alpha ≠ 0) (hKb : K ≠ 0 ∨ beta ≠ 1)
    (hA : lda * colsA TransA M K ≤ (A.length : Int))
    (hB : ldb * colsB TransB N K ≤ (B.length : Int))
    (hC : ldc * N ≤ (C.length : Int)) :
    ∃ r, gemm TransA TransB M N K alpha A lda B ldb beta C ldc = some r ∧
      ∀ i j : Nat, (i : Int) < M → (j : Int) < N →
        rd r.C ((i : Int) + (j : Int) * ldc)
          = some (
            if beta = 0 then
              alpha * (List.range K.toNat).foldl
                (fun (temp : α) (l : Nat) => temp + elemAt A ((l : Int) + (i : Int) * lda)
                  * opB TransB B ldb l j) 0
            else
              alpha * (List.range K.toNat).foldl
                (fun (temp : α) (l : Nat) => temp + elemAt A ((l : Int) + (i : Int) * lda)
                  * opB TransB B ldb l j) 0
              + beta * elemAt C ((i : Int) + (j : Int) * ldc)) := by
  obtain ⟨c, h, hw⟩ := gemm_spec TransA TransB M N K alpha A lda B ldb beta C ldc hv hC
    (fun _ _ => hA) (fun _ _ => hB)
  refine ⟨_, h, fun i j hi hj => ?_⟩
  have hq : ¬ quickReturn M N K alpha beta = true := by
    rw [quickReturn_iff]
    rintro (h0 | h0 | ⟨h0 | h0, h1⟩)
    · omega
    · omega
    · exact ha h0
    · rcases hKb with h2 | h2
      · exact h2 h0
      · exact h2 h1
  rw [hw.1 i j (by omega) (by omega)]
  simp only [gemmVal, if_neg hq, if_neg ha, computeVal, if_neg hTA, storeVal, dotVal_eq_foldl,
    opA]

theorem gemm_dot_order_witness :
    ∃ r, gemm 112 111 1 1 2 (3 : Int) [1, 2] 2 [4, 5] 2 1 [100] 1 = some r ∧
      ∀ i j : Nat, (i : Int) < 1 → (j : Int) < 1 →
        rd r.C ((i : Int) + (j : Int) * 1)
          = some (
            if (1 : Int) = 0 then
              3 * (List.range (2 : Int).toNat).foldl
                (fun (temp : Int) (l : Nat) => temp + elemAt [1, 2] ((l : Int) + (i : Int) * 2)
                  * opB 111 [4, 5] 2 l j) 0
            else
              3 * (List.range (2 : Int).toNat).foldl
                (fun (temp : Int) (l : Nat) => temp + elemAt [1, 2] ((l : Int) + (i : Int) * 2)
                  * opB 111 [4, 5] 2 l j) 0
              + 1 * elemAt [100] ((i : Int) + (j : Int) * 1)) :=
  gemm_dot_order 112 111 1 1 2 (3 : Int) [1, 2] 2 [4, 5] 2 1 [100] 1
    (by decide) (by decide) (by decide) (Or.inl (by decide)) (by decide) (by decide)
    (by decide)

/-! ## Pointwise bounds, uniqueness and the nests without the zero test -/

section Pointwise

variable {α : Type} [Zero α] [One α] [Add α] [Mul α] [DecidableEq α]

theorem rd_ext {c2 c3 : List α} (h : ∀ k : Int, rd c2 k = rd c3 k) : c2 = c3 := by
  apply List.ext_getElem?
  intro n
  have hn := h (n : Int)
  simpa [rd] using hn

theorem winUpd_unique {m n : Nat} {ld : Int} {g : Nat → Nat → α} {c1 c2 c3 : List α}
    (h2 : WinUpd m n ld g c1 c2) (h3 : WinUpd m n ld g c1 c3) : c2 = c3 := by
  apply rd_ext
  intro k
  by_cases hk : ∃ i j : Nat, i < m ∧ j < n ∧ k = (i : Int) + (j : Int) * ld
  · obtain ⟨i, j, hi, hj, rfl⟩ := hk
    rw [h2.1 i j hi hj, h3.1 i j hi hj]
  · rw [h2.2 k (fun i j hi hj hkk => hk ⟨i, j, hi, hj, hkk⟩),
      h3.2 k (fun i j hi hj hkk => hk ⟨i, j, hi, hj, hkk⟩)]

theorem compute_spec_pt (TransA TransB M N K : Int) (alpha : α) (A : List α) (lda : Int)
    (B : List α) (ldb : Int) (beta : α) (C : List α) (ldc : Int)
    (hM : (M.toNat : Int) ≤ ldc)
    (hC : ∀ i j : Nat, i < M.toNat → j < N.toNat →
      ∃ x, rd C ((i : Int) + (j : Int) * ldc) = some x)
    (hA : ∀ i l : Nat, i < M.toNat → l < K.toNat →
      ∃ a, rd A (if TransA = CblasNoTrans then (i : Int) + (l : Int) * lda
        else (l : Int) + (i : Int) * lda) = some a)
    (hB : ∀ l j : Nat, l < K.toNat → j < N.toNat →
      ∃ b, rd B (if TransB = CblasNoTrans then (l : Int) + (j : Int) * ldb
        else (j : Int) + (l : Int) * ldb) = some b) :
    ∃ c2, compute TransA TransB M N K alpha A lda B ldb beta C ldc = some c2 ∧
      WinUpd M.toNat N.toNat ldc
        (fun i j => computeVal TransA TransB K alpha A lda B ldb beta
          (elemAt C ((i : Int) + (j : Int) * ldc)) i j) C c2 := by
  unfold compute
  by_cases hTA : TransA = CblasNoTrans <;> by_cases hTB : TransB = CblasNoTrans
  · simp only [if_pos hTA] at hA
    simp only [if_pos hTB] at hB
    obtain ⟨c2, h, hw⟩ := gemmNN_spec M N K alpha A lda B ldb beta C ldc hM hC hA hB
    exact ⟨c2, by rw [if_pos hTB, if_pos hTA, h],
      winUpd_congr hw (fun i j _ _ => by
        simp only [computeVal, opA, opB, if_pos hTA, if_pos hTB])⟩
  · simp only [if_pos hTA] at hA
    simp only [if_neg hTB] at hB
    obtain ⟨c2, h, hw⟩ := gemmNT_spec M N K alpha A lda B ldb beta C ldc hM hC hA hB
    exact ⟨c2, by rw [if_neg hTB, if_pos hTA, h],
      winUpd_congr hw (fun i j _ _ => by
        simp only [computeVal, opA, opB, if_pos hTA, if_neg hTB])⟩
  · simp only [if_neg hTA] at hA
    simp only [if_pos hTB] at hB
    obtain ⟨c2, h, hw⟩ := gemmTN_spec M N K alpha A lda B ldb beta C ldc hM hC hA hB
    exact ⟨c2, by rw [if_pos hTB, if_neg hTA, h],
      winUpd_congr hw (fun i j _ _ => by
        simp only [computeVal, opA, opB, if_neg hTA, if_pos hTB])⟩
  · simp only [if_neg hTA] at hA
    simp only [if_neg hTB] at hB
    obtain ⟨c2, h, hw⟩ := gemmTT_spec M N K alpha A lda B ldb beta C ldc hM hC hA hB
    exact ⟨c2, by rw [if_neg hTB, if_neg hTA, h],
      winUpd_congr hw (fun i j _ _ => by
        simp only [computeVal, opA, opB, if_neg hTA, if_neg hTB])⟩

theorem colNestAll_spec (M K : Int) (alpha beta : α) (A : List α) (lda : Int) (B : List α)
    (bi : Nat → Int) (C : List α) (ldc : Int) (j : Nat)
    (hin : ∀ i : Nat, i < M.toNat → ∃ x, rd C ((i : Int) + (j : Int) * ldc) = some x)
    (hA : ∀ i l : Nat, i < M.toNat → l < K.toNat →
      ∃ a, rd A ((i : Int) + (l : Int) * lda) = some a)
    (hB : ∀ l : Nat, l < K.toNat → ∃ b, rd B (bi l) = some b) :
    ∃ c2, (do
        let c ← betaCol M beta C ldc j
        forUpTo K.toNat (fun l c => do
          let b ← rd B (bi l)
          let temp := alpha * b
          axpyCol M A lda temp c ldc j l) c) = some c2 ∧
      ColUpd M.toNat ((j : Int) * ldc)
        (fun i => axpyAllVal alpha (fun l => elemAt A ((i : Int) + (l : Int) * lda))
          (fun l => elemAt B (bi l)) (betaVal beta (elemAt C ((i : Int) + (j : Int) * ldc)))
          K.toNat) C c2 := by
  obtain ⟨c1, h1, hc1⟩ := betaCol_spec M beta C ldc j hin
  obtain ⟨c2, h2, hc2⟩ := forUpTo_inv
    (fun n c => ColUpd M.toNat ((j : Int) * ldc)
        (fun i => axpyAllVal alpha (fun l => elemAt A ((i : Int) + (l : Int) * lda))
          (fun l => elemAt B (bi l)) (betaVal beta (elemAt C ((i : Int) + (j : Int) * ldc)))
          n) C c)
    (fun l c => do
          let b ← rd B (bi l)
          let temp := alpha * b
          axpyCol M A lda temp c ldc j l) K.toNat c1 hc1
    (fun l c hl hP => by
      obtain ⟨b, hb⟩ := hB l hl
      obtain ⟨c2, h2, hc2⟩ := axpyCol_spec M A lda (alpha * b) c ldc j l
        (fun i hi => ⟨_, hP.1 i hi⟩) (fun i hi => hA i l hi hl)
      refine ⟨c2, by simp [hb, h2], colUpd_congr (colUpd_trans hP hc2) (fun i hi => ?_)⟩
      simp [axpyAllVal, elemAt_of_rd hb, elemAt_of_rd (hP.1 i hi)])
  refine ⟨c2, ?_, hc2⟩
  rw [h1]
  exact h2

theorem gemmNN_noskip_spec (M N K : Int) (alpha : α) (A : List α) (lda : Int) (B : List α)
    (ldb : Int) (beta : α) (C : List α) (ldc : Int)
    (hM : (M.toNat : Int) ≤ ldc)
    (hC : ∀ i j : Nat, i < M.toNat → j < N.toNat →
      ∃ x, rd C ((i : Int) + (j : Int) * ldc) = some x)
    (hA : ∀ i l : Nat, i < M.toNat → l < K.toNat →
      ∃ a, rd A ((i : Int) + (l : Int) * lda) = some a)
    (hB : ∀ l j : Nat, l < K.toNat → j < N.toNat →
      ∃ b, rd B ((l : Int) + (j : Int) * ldb) = some b) :
    ∃ c2, gemmNN_noskip M N K alpha A lda B ldb beta C ldc = some c2 ∧
      WinUpd M.toNat N.toNat ldc
        (fun i j => axpyAllVal alpha (fun l => elemAt A ((i : Int) + (l : Int) * lda))
          (fun l => elemAt B ((l : Int) + (j : Int) * ldb))
          (betaVal beta (elemAt C ((i : Int) + (j : Int) * ldc))) K.toNat) C c2 :=
  forUpTo_win _ _ _ hM _ _ _ (fun j c hj hsame => by
    obtain ⟨c2, h, hc⟩ := colNestAll_spec M K alpha beta A lda B
      (fun l => (l : Int) + (j : Int) * ldb) c ldc j
      (fun i hi => by rw [hsame i hi]; exact hC i j hi hj) hA (fun l hl => hB l j hl hj)
    exact ⟨c2, h, colUpd_congr hc (fun i hi => by rw [elemAt_congr (hsame i hi)])⟩)

theorem gemmNT_noskip_spec (M N K : Int) (alpha : α) (A : List α) (lda : Int) (B : List α)
    (ldb : Int) (beta : α) (C : List α) (ldc : Int)
    (hM : (M.toNat : Int) ≤ ldc)
    (hC : ∀ i j : Nat, i < M.toNat → j < N.toNat →
      ∃ x, rd C ((i : Int) + (j : Int) * ldc) = some x)
    (hA : ∀ i l : Nat, i < M.toNat → l < K.toNat →
      ∃ a, rd A ((i : Int) + (l : Int) * lda) = some a)
    (hB : ∀ l j : Nat, l < K.toNat → j < N.toNat →
      ∃ b, rd B ((j : Int) + (l : Int) * ldb) = some b) :
    ∃ c2, gemmNT_noskip M N K alpha A lda B ldb beta C ldc = some c2 ∧
      WinUpd M.toNat N.toNat ldc
        (fun i j => axpyAllVal alpha (fun l => elemAt A ((i : Int) + (l : Int) * lda))
          (fun l => elemAt B ((j : Int) + (l : Int) * ldb))
          (betaVal beta (elemAt C ((i : Int) + (j : Int) * ldc))) K.toNat) C c2 :=
  forUpTo_win _ _ _ hM _ _ _ (fun j c hj hsame => by
    obtain ⟨c2, h, hc⟩ := colNestAll_spec M K alpha beta A lda B
      (fun l => (j : Int) + (l : Int) * ldb) c ldc j
      (fun i hi => by rw [hsame i hi]; exact hC i j hi hj) hA (fun l hl => hB l j hl hj)
    exact ⟨c2, h, colUpd_congr hc (fun i hi => by rw [elemAt_congr (hsame i hi)])⟩)

end Pointwise

theorem axpyAllVal_eq {α : Type} [CommRing α] [DecidableEq α] (alpha : α) (a b : Nat → α)
    (x0 : α) (n : Nat) :
    axpyAllVal alpha a b x0 n = x0 + alpha * ∑ l ∈ Finset.range n, a l * b l := by
  induction n with
  | zero => simp [axpyAllVal]
  | succ n ih =>
    rw [axpyAllVal, Finset.sum_range_succ, ih]
    ring

/-- C18: over a commutative ring, a call with `K == 0`, `alpha != 0` and `beta != 1`
that passes the parameter test returns, with every entry of the `M × N` window of `C`
equal to `beta * C_old[i + j*ldc]` (hence `0` when `beta == 0`), whichever loop nest the
flags select; the outcome is the very same for any other buffers `A2`, `B2` in place of
`A`, `B`, of any length and contents, so neither is read. -/
theorem gemm_K_zero {α : Type} [CommRing α] [DecidableEq α]
    (TransA TransB M N K : Int) (alpha : α) (A : List α) (lda : Int) (B : List α)
    (ldb : Int) (beta : α) (C : List α) (ldc : Int) (A2 B2 : List α)
    (hv : validate TransA TransB M N K lda ldb ldc = none)
    (hK : K = 0) (ha : alpha ≠ 0) (hb : beta ≠ 1)
    (hC : ldc * N ≤ (C.length : Int)) :
    ∃ r, gemm TransA TransB M N K alpha A lda B ldb beta C ldc = some r ∧
      gemm TransA TransB M N K alpha A2 lda B2 ldb beta C ldc = some r ∧
      ∀ i j : Nat, (i : Int) < M → (j : Int) < N →
        rd r.C ((i : Int) + (j : Int) * ldc)
            = some (beta * elemAt C ((i : Int) + (j : Int) * ldc)) ∧
        (beta = 0 → rd r.C ((i : Int) + (j : Int) * ldc) = some 0) := by
  obtain ⟨-, -, hM0, hN0, hK0, -, -, hldc⟩ := (validate_eq_none_iff _ _ _ _ _ _ _ _).1 hv
  have hKn : K.toNat = 0 := by omega
  cases hq : quickReturn M N K alpha beta
  · have hM : (M.toNat : Int) ≤ ldc := by omega
    have hCp : ∀ i j : Nat, i < M.toNat → j < N.toNat →
        ∃ x, rd C ((i : Int) + (j : Int) * ldc) = some x :=
      fun i j hi hj => win_in_bounds C (show M ≤ ldc by omega) hC
        (show (i : Int) < M by omega) (show (j : Int) < N by omega)
    obtain ⟨c2, h2, hw2⟩ := compute_spec_pt TransA TransB M N K alpha A lda B ldb beta C ldc
      hM hCp (fun i l _ hl => absurd hl (by omega)) (fun l j hl _ => absurd hl (by omega))
    obtain ⟨c3, h3, hw3⟩ := compute_spec_pt TransA TransB M N K alpha A2 lda B2 ldb beta C ldc
      hM hCp (fun i l _ hl => absurd hl (by omega)) (fun l j hl _ => absurd hl (by omega))
    have hw3b := winUpd_congr hw3 (fun i j _ _ =>
      computeVal_congr TransA TransB K alpha A2 lda B2 ldb A lda B ldb beta
        (elemAt C ((i : Int) + (j : Int) * ldc)) i j
        (fun l hl => absurd hl (by omega)) (fun l hl => absurd hl (by omega)))
    have h23 : c3 = c2 := winUpd_unique hw3b hw2
    refine ⟨⟨0, none, c2⟩, ?_, ?_, fun i j hi hj => ?_⟩
    · rw [gemm_of_compute _ _ _ _ _ _ _ _ _ _ _ _ _ hv hq ha, h2]
      rfl
    · rw [gemm_of_compute _ _ _ _ _ _ _ _ _ _ _ _ _ hv hq ha, h3, h23]
      rfl
    · have hval : rd c2 ((i : Int) + (j : Int) * ldc)
          = some (beta * elemAt C ((i : Int) + (j : Int) * ldc)) := by
        rw [hw2.1 i j (by omega) (by omega)]
        show some (computeVal TransA TransB K alpha A lda B ldb beta
          (elemAt C ((i : Int) + (j : Int) * ldc)) i j) = _
        rw [computeVal_eq, hKn]
        simp
      exact ⟨hval, fun h0 => by rw [hval, h0, zero_mul]⟩
  · refine ⟨⟨0, none, C⟩, gemm_of_quick _ _ _ _ _ _ _ _ _ _ _ _ _ hv hq,
      gemm_of_quick _ _ _ _ _ _ _ _ _ _ _ _ _ hv hq, fun i j hi hj => ?_⟩
    rcases (quickReturn_iff M N K alpha beta).1 hq with h | h | ⟨-, h⟩
    · omega
    · omega
    · exact absurd h hb

theorem gemm_K_zero_witness :
    ∃ r, gemm 112 111 2 1 0 (3 : Int) [1, 2] 1 [4, 5] 1 5 [10, 20, 30] 3 = some r ∧
      gemm 112 111 2 1 0 (3 : Int) [] 1 [9] 1 5 [10, 20, 30] 3 = some r ∧
      ∀ i j : Nat, (i : Int) < 2 → (j : Int) < 1 →
        rd r.C ((i : Int) + (j : Int) * 3)
            = some (5 * elemAt [10, 20, 30] ((i : Int) + (j : Int) * 3)) ∧
        ((5 : Int) = 0 → rd r.C ((i : Int) + (j : Int) * 3) = some 0) :=
  gemm_K_zero 112 111 2 1 0 (3 : Int) [1, 2] 1 [4, 5] 1 5 [10, 20, 30] 3 [] [9]
    (by decide) rfl (by decide) (by decide) (by decide)

/-- C19: over a commutative ring, for a call with `TransA == CblasNoTrans` that passes the
parameter test on buffers that are large enough, the column-scaling nest selected by
`TransB`, which skips the inner loop when the element of `B` is zero, and the same nest
without that test both return, with the same buffer `C`. -/
theorem gemm_skip_preserving {α : Type} [CommRing α] [DecidableEq α]
    (TransB M N K : Int) (alpha : α) (A : List α) (lda : Int) (B : List α)
    (ldb : Int) (beta : α) (C : List α) (ldc : Int)
    (hv : validate CblasNoTrans TransB M N K lda ldb ldc = none)
    (hA : lda * K ≤ (A.length : Int))
    (hB : ldb * colsB TransB N K ≤ (B.length : Int))
    (hC : ldc * N ≤ (C.length : Int)) :
    (TransB = CblasNoTrans →
      ∃ c2, gemmNN M N K alpha A lda B ldb beta C ldc = some c2 ∧
        gemmNN_noskip M N K alpha A lda B ldb beta C ldc = some c2) ∧
    (TransB ≠ CblasNoTrans →
      ∃ c2, gemmNT M N K alpha A lda B ldb beta C ldc = some c2 ∧
        gemmNT_noskip M N K alpha A lda B ldb beta C ldc = some c2) := by
  obtain ⟨-, -, hM0, hN0, hK0, hlda, hldb, hldc⟩ := (validate_eq_none_iff _ _ _ _ _ _ _ _).1 hv
  rw [if_pos rfl] at hlda
  have hM : (M.toNat : Int) ≤ ldc := by omega
  have hCp : ∀ i j : Nat, i < M.toNat → j < N.toNat →
      ∃ x, rd C ((i : Int) + (j : Int) * ldc) = some x :=
    fun i j hi hj => win_in_bounds C (show M ≤ ldc by omega) hC
      (show (i : Int) < M by omega) (show (j : Int) < N by omega)
  have hAp : ∀ i l : Nat, i < M.toNat → l < K.toNat →
      ∃ a, rd A ((i : Int) + (l : Int) * lda) = some a :=
    fun i l hi hl => win_in_bounds A (show M ≤ lda by omega) hA
      (show (i : Int) < M by omega) (show (l : Int) < K by omega)
  constructor
  · intro hTB
    rw [if_pos hTB] at hldb
    rw [colsB, if_pos hTB] at hB
    have hBp : ∀ l j : Nat, l < K.toNat → j < N.toNat →
        ∃ b, rd B ((l : Int) + (j : Int) * ldb) = some b :=
      fun l j hl hj => win_in_bounds B (show K ≤ ldb by omega) hB
        (show (l : Int) < K by omega) (show (j : Int) < N by omega)
    obtain ⟨c2, h2, hw2⟩ := gemmNN_spec M N K alpha A lda B ldb beta C ldc hM hCp hAp hBp
    obtain ⟨c3, h3, hw3⟩ := gemmNN_noskip_spec M N K alpha A lda B ldb beta C ldc hM hCp hAp hBp
    have hw3b := winUpd_congr hw3 (fun i j _ _ => by
      rw [axpyAllVal_eq, ← axpyVal_eq])
    exact ⟨c2, h2, by rw [h3, winUpd_unique hw3b hw2]⟩
  · intro hTB
    rw [if_neg hTB] at hldb
    rw [colsB, if_neg hTB] at hB
    have hBp : ∀ l j : Nat, l < K.toNat → j < N.toNat →
        ∃ b, rd B ((j : Int) + (l : Int) * ldb) = some b :=
      fun l j hl hj => win_in_bounds B (show N ≤ ldb by omega) hB
        (show (j : Int) < N by omega) (show (l : Int) < K by omega)
    obtain ⟨c2, h2, hw2⟩ := gemmNT_spec M N K alpha A lda B ldb beta C ldc hM hCp hAp hBp
    obtain ⟨c3, h3, hw3⟩ := gemmNT_noskip_spec M N K alpha A lda B ldb beta C ldc hM hCp hAp hBp
    have hw3b := winUpd_congr hw3 (fun i j _ _ => by
      rw [axpyAllVal_eq, ← axpyVal_eq])
    exact ⟨c2, h2, by rw [h3, winUpd_unique hw3b hw2]⟩

theorem gemm_skip_preserving_witness :
    (((112 : Int) = CblasNoTrans →
      ∃ c2, gemmNN 2 1 2 (3 : Int) [1, 2, 3, 4] 2 [0, 0, 5, 0] 2 2 [7, 8] 2 = some c2 ∧
        gemmNN_noskip 2 1 2 (3 : Int) [1, 2, 3, 4] 2 [0, 0, 5, 0] 2 2 [7, 8] 2 = some c2) ∧
    ((112 : Int) ≠ CblasNoTrans →
      ∃ c2, gemmNT 2 1 2 (3 : Int) [1, 2, 3, 4] 2 [0, 0, 5, 0] 2 2 [7, 8] 2 = some c2 ∧
        gemmNT_noskip 2 1 2 (3 : Int) [1, 2, 3, 4] 2 [0, 0, 5, 0] 2 2 [7, 8] 2 = some c2)) ∧
    gemmNT 2 1 2 (3 : Int) [1, 2, 3, 4] 2 [0, 0, 5, 0] 2 2 [7, 8] 2 = some [59, 76] :=
  ⟨gemm_skip_preserving 112 2 1 2 (3 : Int) [1, 2, 3, 4] 2 [0, 0, 5, 0] 2 2 [7, 8] 2
      (by decide) (by decide) (by decide) (by decide),
    by decide⟩

/-- C13 (as stated, refuted): over the Gaussian integers, with `M = N = K = 1`,
`alpha = 1`, `beta = 0`, `A = [i]`, `B = [1]` and `TransA = 113` the routine stores `i`, not
`conj(i) * 1 = -i`, and the outcome is the one of `TransA = 112`; likewise for `A = [1]`,
`B = [i]` and `TransB = 113`. -/
theorem gemm_conj_not_applied :
    gemm 113 111 1 1 1 (1 : GaussianInt) [⟨0, 1⟩] 1 [1] 1 0 [0] 1
      = some ⟨0, none, [⟨0, 1⟩]⟩ ∧
    gemm 113 111 1 1 1 (1 : GaussianInt) [⟨0, 1⟩] 1 [1] 1 0 [0] 1
      = gemm 112 111 1 1 1 (1 : GaussianInt) [⟨0, 1⟩] 1 [1] 1 0 [0] 1 ∧
    gemm 111 113 1 1 1 (1 : GaussianInt) [1] 1 [⟨0, 1⟩] 1 0 [0] 1
      = some ⟨0, none, [⟨0, 1⟩]⟩ ∧
    gemm 111 113 1 1 1 (1 : GaussianInt) [1] 1 [⟨0, 1⟩] 1 0 [0] 1
      = gemm 111 112 1 1 1 (1 : GaussianInt) [1] 1 [⟨0, 1⟩] 1 0 [0] 1 ∧
    (1 : GaussianInt) * (star (⟨0, 1⟩ : GaussianInt) * 1) + 0 * 0 = ⟨0, -1⟩ ∧
    (⟨0, 1⟩ : GaussianInt) ≠ ⟨0, -1⟩ := by
  decide

/-- C13 (amended): over a commutative ring, complex domains included, a call that passes
the parameter test with `TransA = 113` leaves in every entry of the window
`alpha * Σ_l A[l + i*lda] * opB(B)[l,j] + beta * C_old[i + j*ldc]`, with the element of `A`
as it is stored, and one with `TransB = 113` leaves
`alpha * Σ_l opA(A)[i,l] * B[j + l*ldb] + beta * C_old[i + j*ldc]`; no element is
conjugated, and the outcome is the one of the same call with `112` for `113`. -/
theorem gemm_conj_raw {α : Type} [CommRing α] [DecidableEq α]
    (TransA TransB M N K : Int) (alpha : α) (A : List α) (lda : Int) (B : List α)
    (ldb : Int) (beta : α) (C : List α) (ldc : Int)
    (hv : validate TransA TransB M N K lda ldb ldc = none)
    (hA : lda * colsA TransA M K ≤ (A.length : Int))
    (hB : ldb * colsB TransB N K ≤ (B.length : Int))
    (hC : ldc * N ≤ (C.length : Int)) :
    ∃ r, gemm TransA TransB M N K alpha A lda B ldb beta C ldc = some r ∧
      (∀ i j : Nat, (i : Int) < M → (j : Int) < N →
        (TransA = 113 →
          rd r.C ((i : Int) + (j : Int) * ldc)
            = some (alpha * (∑ l ∈ Finset.range K.toNat,
                elemAt A ((l : Int) + (i : Int) * lda) * opB TransB B ldb l j)
              + beta * elemAt C ((i : Int) + (j : Int) * ldc))) ∧
        (TransB = 113 →
          rd r.C ((i : Int) + (j : Int) * ldc)
            = some (alpha * (∑ l ∈ Finset.range K.toNat,
                opA TransA A lda i l * elemAt B ((j : Int) + (l : Int) * ldb))
              + beta * elemAt C ((i : Int) + (j : Int) * ldc)))) ∧
      (TransA = 113 → gemm 112 TransB M N K alpha A lda B ldb beta C ldc = some r) ∧
      (TransB = 113 → gemm TransA 112 M N K alpha A lda B ldb beta C ldc = some r) := by
  obtain ⟨c2, h, hw⟩ := gemm_spec TransA TransB M N K alpha A lda B ldb beta C ldc hv hC
    (fun _ _ => hA) (fun _ _ => hB)
  refine ⟨_, h, fun i j hi hj => ?_, fun hTA => ?_, fun hTB => ?_⟩
  · have hval := hw.1 i j (by omega) (by omega)
    rw [gemmVal_eq _ _ _ _ _ _ _ _ _ _ _ _ _ _ _ (by omega) (by omega)] at hval
    refine ⟨fun hTA => ?_, fun hTB => ?_⟩
    · rw [hval]
      subst hTA
      simp [opA, CblasNoTrans]
    · rw [hval]
      subst hTB
      simp [opB, CblasNoTrans]
  · subst hTA
    rw [← h]
    exact (gemm_flag_congr _ _ _ _ _ _ _ _ _ _ _ _ _ _ _ (by simp [CblasNoTrans]) Iff.rfl
      (validate_conj_a _ _ _ _ _ _ _)).symm
  · subst hTB
    rw [← h]
    exact (gemm_flag_congr _ _ _ _ _ _ _ _ _ _ _ _ _ _ _ Iff.rfl (by simp [CblasNoTrans])
      (validate_conj_b _ _ _ _ _ _ _)).symm

theorem gemm_conj_raw_witness :
    ∃ r, gemm 113 111 1 1 1 (1 : GaussianInt) [⟨0, 1⟩] 1 [1] 1 0 [0] 1 = some r ∧
      (∀ i j : Nat, (i : Int) < 1 → (j : Int) < 1 →
        ((113 : Int) = 113 →
          rd r.C ((i : Int) + (j : Int) * 1)
            = some (1 * (∑ l ∈ Finset.range (1 : Int).toNat,
                elemAt [(⟨0, 1⟩ : GaussianInt)] ((l : Int) + (i : Int) * 1)
                  * opB 111 [(1 : GaussianInt)] 1 l j)
              + 0 * elemAt [(0 : GaussianInt)] ((i : Int) + (j : Int) * 1))) ∧
        ((111 : Int) = 113 →
          rd r.C ((i : Int) + (j : Int) * 1)
            = some (1 * (∑ l ∈ Finset.range (1 : Int).toNat,
                opA 113 [(⟨0, 1⟩ : GaussianInt)] 1 i l
                  * elemAt [(1 : GaussianInt)] ((j : Int) + (l : Int) * 1))
              + 0 * elemAt [(0 : GaussianInt)] ((i : Int) + (j : Int) * 1)))) ∧
      ((113 : Int) = 113 →
        gemm 112 111 1 1 1 (1 : GaussianInt) [⟨0, 1⟩] 1 [1] 1 0 [0] 1 = some r) ∧
      ((111 : Int) = 113 →
        gemm 113 112 1 1 1 (1 : GaussianInt) [⟨0, 1⟩] 1 [1] 1 0 [0] 1 = some r) :=
  gemm_conj_raw 113 111 1 1 1 (1 : GaussianInt) [⟨0, 1⟩] 1 [1] 1 0 [0] 1
    (by decide) (by decide) (by decide) (by decide)

/-! ## The loop nests with two types -/

section TwoTypeLemmas

variable {S L : Type} [Zero S] [One S] [Add S] [Mul S] [DecidableEq S]
  [Zero L] [Add L] [Mul L]

theorem axpyColW_spec (widen : S → L) (narrow : L → S) (M : Int) (A : List S) (lda : Int)
    (temp : L) (C : List S) (ldc : Int) (j l : Nat)
    (hin : ∀ i : Nat, i < M.toNat → ∃ x, rd C ((i : Int) + (j : Int) * ldc) = some x)
    (hA : ∀ i : Nat, i < M.toNat → ∃ a, rd A ((i : Int) + (l : Int) * lda) = some a) :
    ∃ c2, axpyColW widen narrow M A lda temp C ldc j l = some c2 ∧
      ColUpd M.toNat ((j : Int) * ldc)
        (fun i => narrow (widen (elemAt C ((i : Int) + (j : Int) * ldc)) +
          widen (elemAt A ((i : Int) + (l : Int) * lda)) * temp)) C c2 :=
  forUpTo_col _ _ _ _ _ hin (fun i c hi hsame => by
    obtain ⟨x, hx⟩ := hin i hi
    obtain ⟨a, ha⟩ := hA i hi
    simp [hsame, hx, ha, elemAt_of_rd hx, elemAt_of_rd ha])

theorem colBodyW_spec (widen : S → L) (narrow : L → S) (M K : Int) (alpha beta : S)
    (A : List S) (lda : Int) (B : List S) (bi : Nat → Int) (C : List S) (ldc : Int) (j : Nat)
    (hin : ∀ i : Nat, i < M.toNat → ∃ x, rd C ((i : Int) + (j : Int) * ldc) = some x)
    (hA : ∀ i l : Nat, i < M.toNat → l < K.toNat →
      ∃ a, rd A ((i : Int) + (l : Int) * lda) = some a)
    (hB : ∀ l : Nat, l < K.toNat → ∃ b, rd B (bi l) = some b) :
    ∃ c2, (do
        let c ← betaCol M beta C ldc j
        forUpTo K.toNat (fun l c => do
          let b ← rd B (bi l)
          if b ≠ 0 then
            let temp : L := widen alpha * widen b
            axpyColW widen narrow M A lda temp c ldc j l
          else some c) c) = some c2 ∧
      ColUpd M.toNat ((j : Int) * ldc)
        (fun i => axpyValW widen narrow alpha
          (fun l => elemAt A ((i : Int) + (l : Int) * lda))
          (fun l => elemAt B (bi l)) (betaVal beta (elemAt C ((i : Int) + (j : Int) * ldc)))
          K.toNat) C c2 := by
  obtain ⟨c1, h1, hc1⟩ := betaCol_spec M beta C ldc j hin
  obtain ⟨c2, h2, hc2⟩ := forUpTo_inv
    (fun n c => ColUpd M.toNat ((j : Int) * ldc)
        (fun i => axpyValW widen narrow alpha
          (fun l => elemAt A ((i : Int) + (l : Int) * lda))
          (fun l => elemAt B (bi l)) (betaVal beta (elemAt C ((i : Int) + (j : Int) * ldc)))
          n) C c)
    (fun l c => do
          let b ← rd B (bi l)
          if b ≠ 0 then
            let temp : L := widen alpha * widen b
            axpyColW widen narrow M A lda temp c ldc j l
          else some c) K.toNat c1 hc1
    (fun l c hl hP => by
      obtain ⟨b, hb⟩ := hB l hl
      by_cases hb0 : b = 0
      · refine ⟨c, by simp [hb, hb0], colUpd_congr hP (fun i _ => ?_)⟩
        simp [axpyValW, elemAt_of_rd hb, hb0]
      · obtain ⟨c2, h2, hc2⟩ := axpyColW_spec widen narrow M A lda (widen alpha * widen b)
          c ldc j l (fun i hi => ⟨_, hP.1 i hi⟩) (fun i hi => hA i l hi hl)
        refine ⟨c2, by simp [hb, hb0, h2], colUpd_congr (colUpd_trans hP hc2) (fun i hi => ?_)⟩
        simp [axpyValW, elemAt_of_rd hb, hb0, elemAt_of_rd (hP.1 i hi)])
  refine ⟨c2, ?_, hc2⟩
  rw [h1]
  exact h2

theorem colNestW_spec (widen : S → L) (narrow : L → S) (M N K : Int) (alpha : S)
    (A : List S) (lda : Int) (B : List S) (bi : Nat → Nat → Int) (beta : S) (C : List S)
    (ldc : Int)
    (hM : (M.toNat : Int) ≤ ldc)
    (hC : ∀ i j : Nat, i < M.toNat → j < N.toNat →
      ∃ x, rd C ((i : Int) + (j : Int) * ldc) = some x)
    (hA : ∀ i l : Nat, i < M.toNat → l < K.toNat →
      ∃ a, rd A ((i : Int) + (l : Int) * lda) = some a)
    (hB : ∀ l j : Nat, l < K.toNat → j < N.toNat → ∃ b, rd B (bi l j) = some b) :
    ∃ c2, colNestW widen narrow M N K alpha A lda B bi beta C ldc = some c2 ∧
      WinUpd M.toNat N.toNat ldc
        (fun i j => axpyValW widen narrow alpha
          (fun l => elemAt A ((i : Int) + (l : Int) * lda))
          (fun l => elemAt B (bi l j))
          (betaVal beta (elemAt C ((i : Int) + (j : Int) * ldc))) K.toNat) C c2 :=
  forUpTo_win _ _ _ hM _ _ _ (fun j c hj hsame => by
    obtain ⟨c2, h, hc⟩ := colBodyW_spec widen narrow M K alpha beta A lda B
      (fun l => bi l j) c ldc j
      (fun i hi => by rw [hsame i hi]; exact hC i j hi hj) hA (fun l hl => hB l j hl hj)
    exact ⟨c2, h, colUpd_congr hc (fun i hi => by rw [elemAt_congr (hsame i hi)])⟩)

theorem dotW_spec (widen : S → L) (K : Int) (A : List S) (lda : Int) (B : List S)
    (bi : Nat → Nat → Int) (i j : Nat)
    (hA : ∀ l : Nat, l < K.toNat → ∃ a, rd A ((l : Int) + (i : Int) * lda) = some a)
    (hB : ∀ l : Nat, l < K.toNat → ∃ b, rd B (bi l j) = some b) :
    dotW widen K A lda B bi i j
      = some (dotValW widen (fun l => elemAt A ((l : Int) + (i : Int) * lda))
          (fun l => elemAt B (bi l j)) K.toNat) := by
  unfold dotW
  generalize K.toNat = n at hA hB
  induction n with
  | zero => rfl
  | succ n ih =>
    obtain ⟨a, ha⟩ := hA n (by omega)
    obtain ⟨b, hb⟩ := hB n (by omega)
    show (forUpTo n _ 0).bind _ = _
    rw [ih (fun l hl => hA l (by omega)) (fun l hl => hB l (by omega))]
    simp [dotValW, ha, hb, elemAt_of_rd ha, elemAt_of_rd hb]

theorem dotNestW_spec (widen : S → L) (narrow : L → S) (M N K : Int) (alpha : S)
    (A : List S) (lda : Int) (B : List S) (bi : Nat → Nat → Int) (beta : S) (C : List S)
    (ldc : Int)
    (hM : (M.toNat : Int) ≤ ldc)
    (hC : ∀ i j : Nat, i < M.toNat → j < N.toNat →
      ∃ x, rd C ((i : Int) + (j : Int) * ldc) = some x)
    (hA : ∀ i l : Nat, i < M.toNat → l < K.toNat →
      ∃ a, rd A ((l : Int) + (i : Int) * lda) = some a)
    (hB : ∀ l j : Nat, l < K.toNat → j < N.toNat → ∃ b, rd B (bi l j) = some b) :
    ∃ c2, dotNestW widen narrow M N K alpha A lda B bi beta C ldc = some c2 ∧
      WinUpd M.toNat N.toNat ldc
        (fun i j => storeValW widen narrow alpha beta
          (dotValW widen (fun l => elemAt A ((l : Int) + (i : Int) * lda))
            (fun l => elemAt B (bi l j)) K.toNat)
          (elemAt C ((i : Int) + (j : Int) * ldc))) C c2 :=
  forUpTo_win _ _ _ hM _ _ _ (fun j c hj hsame => by
    have hin : ∀ i : Nat, i < M.toNat → ∃ x, rd c ((i : Int) + (j : Int) * ldc) = some x :=
      fun i hi => by rw [hsame i hi]; exact hC i j hi hj
    obtain ⟨c2, h, hc⟩ := forUpTo_col M.toNat ((j : Int) * ldc)
      (fun i c => do
        let temp ← dotW widen K A lda B bi i j
        storeDotW widen narrow alpha beta temp c ldc i j)
      (fun i => storeValW widen narrow alpha beta
        (dotValW widen (fun l => elemAt A ((l : Int) + (i : Int) * lda))
          (fun l => elemAt B (bi l j)) K.toNat)
        (elemAt c ((i : Int) + (j : Int) * ldc))) c hin
      (fun i c3 hi hs => by
        obtain ⟨x, hx⟩ := hin i hi
        beta_reduce
        rw [dotW_spec widen K A lda B bi i j (fun l hl => hA i l hi hl)
          (fun l hl => hB l j hl hj)]
        by_cases h0 : beta = 0
        · simp [storeDotW, storeValW, h0]
        · simp [storeDotW, storeValW, h0, hs, hx, elemAt_of_rd hx])
    exact ⟨c2, h, colUpd_congr hc (fun i hi => by rw [elemAt_congr (hsame i hi)])⟩)

theorem computeW_spec (widen : S → L) (narrow : L → S) (TransA TransB M N K : Int)
    (alpha : S) (A : List S) (lda : Int) (B : List S) (ldb : Int) (beta : S) (C : List S)
    (ldc : Int)
    (hv : validate TransA TransB M N K lda ldb ldc = none)
    (hC : ldc * N ≤ (C.length : Int))
    (hA : lda * colsA TransA M K ≤ (A.length : Int))
    (hB : ldb * colsB TransB N K ≤ (B.length : Int)) :
    ∃ c2, computeW widen narrow TransA TransB M N K alpha A lda B ldb beta C ldc = some c2 ∧
      WinUpd M.toNat N.toNat ldc
        (fun i j => computeValW widen narrow TransA TransB K alpha A lda B ldb beta
          (elemAt C ((i : Int) + (j : Int) * ldc)) i j) C c2 := by
  obtain ⟨-, -, hM0, hN0, hK0, hlda, hldb, hldc⟩ := (validate_eq_none_iff _ _ _ _ _ _ _ _).1 hv
  have hM : (M.toNat : Int) ≤ ldc := by omega
  have hCp : ∀ i j : Nat, i < M.toNat → j < N.toNat →
      ∃ x, rd C ((i : Int) + (j : Int) * ldc) = some x :=
    fun i j hi hj => win_in_bounds C (show M ≤ ldc by omega) hC
      (show (i : Int) < M by omega) (show (j : Int) < N by omega)
  unfold computeW
  by_cases hTA : TransA = CblasNoTrans <;> by_cases hTB : TransB = CblasNoTrans
  · rw [if_pos hTA] at hlda
    rw [if_pos hTB] at hldb
    rw [colsA, if_pos hTA] at hA
    rw [colsB, if_pos hTB] at hB
    obtain ⟨c2, h, hw⟩ := colNestW_spec widen narrow M N K alpha A lda B
      (fun l j => (l : Int) + (j : Int) * ldb) beta C ldc hM hCp
      (fun i l hi hl => win_in_bounds A (show M ≤ lda by omega) hA
        (show (i : Int) < M by omega) (show (l : Int) < K by omega))
      (fun l j hl hj => win_in_bounds B (show K ≤ ldb by omega) hB
        (show (l : Int) < K by omega) (show (j : Int) < N by omega))
    exact ⟨c2, by rw [if_pos hTB, if_pos hTA, h],
      winUpd_congr hw (fun i j _ _ => by
        simp only [computeValW, opA, opB, if_pos hTA, if_pos hTB])⟩
  · rw [if_pos hTA] at hlda
    rw [if_neg hTB] at hldb
    rw [colsA, if_pos hTA] at hA
    rw [colsB, if_neg hTB] at hB
    obtain ⟨c2, h, hw⟩ := colNestW_spec widen narrow M N K alpha A lda B
      (fun l j => (j : Int) + (l : Int) * ldb) beta C ldc hM hCp
      (fun i l hi hl => win_in_bounds A (show M ≤ lda by omega) hA
        (show (i : Int) < M by omega) (show (l : Int) < K by omega))
      (fun l j hl hj => win_in_bounds B (show N ≤ ldb by omega) hB
        (show (j : Int) < N by omega) (show (l : Int) < K by omega))
    exact ⟨c2, by rw [if_neg hTB, if_pos hTA, h],
      winUpd_congr hw (fun i j _ _ => by
        simp only [computeValW, opA, opB, if_pos hTA, if_neg hTB])⟩
  · rw [if_neg hTA] at hlda
    rw [if_pos hTB] at hldb
    rw [colsA, if_neg hTA] at hA
    rw [colsB, if_pos hTB] at hB
    obtain ⟨c2, h, hw⟩ := dotNestW_spec widen narrow M N K alpha A lda B
      (fun l j => (l : Int) + (j : Int) * ldb) beta C ldc hM hCp
      (fun i l hi hl => win_in_bounds A (show K ≤ lda by omega) hA
        (show (l : Int) < K by omega) (show (i : Int) < M by omega))
      (fun l j hl hj => win_in_bounds B (show K ≤ ldb by omega) hB
        (show (l : Int) < K by omega) (show (j : Int) < N by omega))
    exact ⟨c2, by rw [if_pos hTB, if_neg hTA, h],
      winUpd_congr hw (fun i j _ _ => by
        simp only [computeValW, opA, opB, if_neg hTA, if_pos hTB])⟩
  · rw [if_neg hTA] at hlda
    rw [if_neg hTB] at hldb
    rw [colsA, if_neg hTA] at hA
    rw [colsB, if_neg hTB] at hB
    obtain ⟨c2, h, hw⟩ := dotNestW_spec widen narrow M N K alpha A lda B
      (fun l j => (j : Int) + (l : Int) * ldb) beta C ldc hM hCp
      (fun i l hi hl => win_in_bounds A (show K ≤ lda by omega) hA
        (show (l : Int) < K by omega) (show (i : Int) < M by omega))
      (fun l j hl hj => win_in_bounds B (show N ≤ ldb by omega) hB
        (show (j : Int) < N by omega) (show (l : Int) < K by omega))
    exact ⟨c2, by rw [if_neg hTB, if_neg hTA, h],
      winUpd_congr hw (fun i j _ _ => by
        simp only [computeValW, opA, opB, if_neg hTA, if_neg hTB])⟩

end TwoTypeLemmas

theorem computeW_id {α : Type} [Zero α] [One α] [Add α] [Mul α] [DecidableEq α]
    (TransA TransB M N K : Int) (alpha : α) (A : List α) (lda : Int) (B : List α)
    (ldb : Int) (beta : α) (C : List α) (ldc : Int) :
    computeW id id TransA TransB M N K alpha A lda B ldb beta C ldc
      = compute TransA TransB M N K alpha A lda B ldb beta C ldc := by
  unfold computeW compute
  split_ifs <;> rfl

section TwoTypeFolds

variable {S L : Type} [Zero S] [One S] [Add S] [Mul S] [DecidableEq S]
  [Zero L] [Add L] [Mul L]

theorem axpyValW_eq_foldl (widen : S → L) (narrow : L → S) (alpha : S) (a b : Nat → S)
    (x0 : S) (n : Nat) :
    axpyValW widen narrow alpha a b x0 n
      = (List.range n).foldl
          (fun (x : S) (l : Nat) =>
            if b l ≠ 0 then narrow (widen x + widen (a l) * (widen alpha * widen (b l)))
            else x) x0 := by
  induction n with
  | zero => rfl
  | succ n ih => rw [axpyValW, List.range_succ, List.foldl_append, ← ih]; rfl

theorem dotValW_eq_foldl (widen : S → L) (a b : Nat → S) (n : Nat) :
    dotValW widen a b n
      = (List.range n).foldl (fun (t : L) (l : Nat) => t + widen (a l) * widen (b l)) 0 := by
  induction n with
  | zero => rfl
  | succ n ih => rw [dotValW, List.range_succ, List.foldl_append, ← ih]; rfl

end TwoTypeFolds


/-! ## `beta == 0` without laws of arithmetic -/

section BetaZero

variable {α : Type} [Zero α] [One α] [Add α] [Mul α] [DecidableEq α]

theorem axpyVal_eq_foldl (alpha : α) (a b : Nat → α) (x0 : α) (n : Nat) :
    axpyVal alpha a b x0 n
      = (List.range n).foldl
          (fun (x : α) (l : Nat) => if b l ≠ 0 then x + a l * (alpha * b l) else x) x0 := by
  induction n with
  | zero => rfl
  | succ n ih => rw [axpyVal, List.range_succ, List.foldl_append, ← ih]; rfl

theorem gemm_beta_zero_lawless
    (TransA TransB M N K : Int) (alpha : α) (A : List α) (lda : Int) (B : List α)
    (ldb : Int) (beta : α) (C : List α) (ldc : Int) (C2 : List α)
    (hv : validate TransA TransB M N K lda ldb ldc = none)
    (ha : alpha ≠ 0) (hb : beta = 0) (h01 : (0 : α) ≠ 1)
    (hA : lda * colsA TransA M K ≤ (A.length : Int))
    (hB : ldb * colsB TransB N K ≤ (B.length : Int))
    (hC : ldc * N ≤ (C.length : Int))
    (hC2 : ldc * N ≤ (C2.length : Int)) :
    ∃ r r2, gemm TransA TransB M N K alpha A lda B ldb beta C ldc = some r ∧
      gemm TransA TransB M N K alpha A lda B ldb beta C2 ldc = some r2 ∧
      ∀ i j : Nat, (i : Int) < M → (j : Int) < N →
        rd r2.C ((i : Int) + (j : Int) * ldc) = rd r.C ((i : Int) + (j : Int) * ldc) ∧
        (TransA = CblasNoTrans →
          rd r.C ((i : Int) + (j : Int) * ldc)
            = some ((List.range K.toNat).foldl
                (fun (x : α) (l : Nat) =>
                  if opB TransB B ldb l j ≠ 0 then
                    x + opA TransA A lda i l * (alpha * opB TransB B ldb l j)
                  else x) 0)) ∧
        (TransA ≠ CblasNoTrans →
          rd r.C ((i : Int) + (j : Int) * ldc)
            = some (alpha * (List.range K.toNat).foldl
                (fun (temp : α) (l : Nat) =>
                  temp + opA TransA A lda i l * opB TransB B ldb l j) 0)) := by
  subst hb
  obtain ⟨c, h, hw⟩ := gemm_spec TransA TransB M N K alpha A lda B ldb 0 C ldc hv hC
    (fun _ _ => hA) (fun _ _ => hB)
  obtain ⟨c2, h2, hw2⟩ := gemm_spec TransA TransB M N K alpha A lda B ldb 0 C2 ldc hv hC2
    (fun _ _ => hA) (fun _ _ => hB)
  refine ⟨_, _, h, h2, fun i j hi hj => ?_⟩
  have hq : ¬ quickReturn M N K alpha (0 : α) = true := by
    rw [quickReturn_iff]
    rintro (h0 | h0 | ⟨-, h1⟩)
    · omega
    · omega
    · exact h01 h1
  have key : ∀ (D c3 : List α),
      WinUpd M.toNat N.toNat ldc (gemmVal TransA TransB M N K alpha A lda B ldb 0 D ldc)
        D c3 →
      rd c3 ((i : Int) + (j : Int) * ldc)
        = some (computeVal TransA TransB K alpha A lda B ldb 0 0 i j) := by
    intro D c3 hD
    rw [hD.1 i j (by omega) (by omega)]
    simp only [gemmVal, if_neg hq, if_neg ha]
    rw [computeVal_beta_zero TransA TransB K alpha A lda B ldb _ 0 i j]
  refine ⟨(key C2 c2 hw2).trans (key C c hw).symm, fun hTA => ?_, fun hTA => ?_⟩
  · rw [key C c hw]
    simp only [computeVal, if_pos hTA, betaVal, if_true, axpyVal_eq_foldl]
  · rw [key C c hw]
    simp only [computeVal, if_neg hTA, storeVal, if_true, dotVal_eq_foldl]

end BetaZero

/-- C15: on the full-compute path with `beta == 0`, in a domain where no law of arithmetic
is assumed (only `0 != 1`), two calls that differ only in the initial buffer `C` both
return with the same `M × N` window: in the column-scaling nests each entry is the fold
that starts from the assigned `0` and adds `A[i + l*lda] * (alpha * opB(B)[l,j])` for the
non-zero elements of `B`, in the dot-product nests it is `alpha * temp`; the old entry of
`C` is in neither.  Over a commutative ring each entry is
`alpha * Σ_{l < K} opA(A)[i,l] * opB(B)[l,j]`. -/
theorem gemm_beta_zero_indep :
    (∀ (α : Type) [Zero α] [One α] [Add α] [Mul α] [DecidableEq α]
      (TransA TransB M N K : Int) (alpha : α) (A : List α) (lda : Int) (B : List α)
      (ldb : Int) (beta : α) (C : List α) (ldc : Int) (C2 : List α),
      validate TransA TransB M N K lda ldb ldc = none →
      alpha ≠ 0 → beta = 0 → (0 : α) ≠ 1 →
      lda * colsA TransA M K ≤ (A.length : Int) →
      ldb * colsB TransB N K ≤ (B.length : Int) →
      ldc * N ≤ (C.length : Int) →
      ldc * N ≤ (C2.length : Int) →
      ∃ r r2, gemm TransA TransB M N K alpha A lda B ldb beta C ldc = some r ∧
        gemm TransA TransB M N K alpha A lda B ldb beta C2 ldc = some r2 ∧
        ∀ i j : Nat, (i : Int) < M → (j : Int) < N →
          rd r2.C ((i : Int) + (j : Int) * ldc) = rd r.C ((i : Int) + (j : Int) * ldc) ∧
          (TransA = CblasNoTrans →
            rd r.C ((i : Int) + (j : Int) * ldc)
              = some ((List.range K.toNat).foldl
                  (fun (x : α) (l : Nat) =>
                    if opB TransB B ldb l j ≠ 0 then
                      x + opA TransA A lda i l * (alpha * opB TransB B ldb l j)
                    else x) 0)) ∧
          (TransA ≠ CblasNoTrans →
            rd r.C ((i : Int) + (j : Int) * ldc)
              = some (alpha * (List.range K.toNat).foldl
                  (fun (temp : α) (l : Nat) =>
                    temp + opA TransA A lda i l * opB TransB B ldb l j) 0))) ∧
    (∀ (R : Type) [CommRing R] [DecidableEq R]
      (TransA TransB M N K : Int) (alpha : R) (A : List R) (lda : Int) (B : List R)
      (ldb : Int) (beta : R) (C : List R) (ldc : Int) (C2 : List R),
      validate TransA TransB M N K lda ldb ldc = none →
      beta = 0 →
      lda * colsA TransA M K ≤ (A.length : Int) →
      ldb * colsB TransB N K ≤ (B.length : Int) →
      ldc * N ≤ (C.length : Int) →
      ldc * N ≤ (C2.length : Int) →
      ∃ r r2, gemm TransA TransB M N K alpha A lda B ldb beta C ldc = some r ∧
        gemm TransA TransB M N K alpha A lda B ldb beta C2 ldc = some r2 ∧
        ∀ i j : Nat, (i : Int) < M → (j : Int) < N →
          rd r.C ((i : Int) + (j : Int) * ldc)
            = some (alpha * ∑ l ∈ Finset.range K.toNat,
                opA TransA A lda i l * opB TransB B ldb l j) ∧
          rd r2.C ((i : Int) + (j : Int) * ldc) = rd r.C ((i : Int) + (j : Int) * ldc)) :=
  ⟨@gemm_beta_zero_lawless, @gemm_beta_zero_ring⟩

theorem gemm_beta_zero_indep_witness :
    gemm 111 111 1 1 2 (NanInt.val 3) [NanInt.val 1, NanInt.val 2] 1
        [NanInt.val 4, NanInt.val 5] 2 0 [NanInt.nan] 1
      = some ⟨0, none, [NanInt.val 42]⟩ ∧
    gemm 112 111 1 1 2 (NanInt.val 3) [NanInt.val 1, NanInt.val 2] 2
        [NanInt.val 4, NanInt.val 5] 2 0 [NanInt.nan] 1
      = some ⟨0, none, [NanInt.val 42]⟩ ∧
    (NanInt.nan * (0 : NanInt) ≠ 0) ∧
    (∃ r r2, gemm 111 111 1 1 2 (NanInt.val 3) [NanInt.val 1, NanInt.val 2] 1
          [NanInt.val 4, NanInt.val 5] 2 0 [NanInt.nan] 1 = some r ∧
        gemm 111 111 1 1 2 (NanInt.val 3) [NanInt.val 1, NanInt.val 2] 1
          [NanInt.val 4, NanInt.val 5] 2 0 [NanInt.val 7, NanInt.nan] 1 = some r2 ∧
        ∀ i j : Nat, (i : Int) < 1 → (j : Int) < 1 →
          rd r2.C ((i : Int) + (j : Int) * 1) = rd r.C ((i : Int) + (j : Int) * 1) ∧
          ((111 : Int) = CblasNoTrans →
            rd r.C ((i : Int) + (j : Int) * 1)
              = some ((List.range (2 : Int).toNat).foldl
                  (fun (x : NanInt) (l : Nat) =>
                    if opB 111 [NanInt.val 4, NanInt.val 5] 2 l j ≠ 0 then
                      x + opA 111 [NanInt.val 1, NanInt.val 2] 1 i l
                        * (NanInt.val 3 * opB 111 [NanInt.val 4, NanInt.val 5] 2 l j)
                    else x) 0)) ∧
          ((111 : Int) ≠ CblasNoTrans →
            rd r.C ((i : Int) + (j : Int) * 1)
              = some (NanInt.val 3 * (List.range (2 : Int).toNat).foldl
                  (fun (temp : NanInt) (l : Nat) =>
                    temp + opA 111 [NanInt.val 1, NanInt.val 2] 1 i l
                      * opB 111 [NanInt.val 4, NanInt.val 5] 2 l j) 0))) :=
  ⟨by decide, by decide, by decide,
    gemm_beta_zero_indep.1 NanInt 111 111 1 1 2 (NanInt.val 3)
      [NanInt.val 1, NanInt.val 2] 1 [NanInt.val 4, NanInt.val 5] 2 0 [NanInt.nan] 1
      [NanInt.val 7, NanInt.nan] (by decide) (by decide) (by decide) (by decide) (by decide)
      (by decide) (by decide) (by decide)⟩

/-! ## When the two types make no difference -/

section TwoTypeTie

variable {S L : Type} [Zero S] [One S] [Add S] [Mul S] [DecidableEq S]
  [Zero L] [Add L] [Mul L]

theorem forUpTo_congr {σ : Type} (n : Nat) (b1 b2 : Nat → σ → Option σ) (s : σ)
    (h : ∀ k t, b1 k t = b2 k t) : forUpTo n b1 s = forUpTo n b2 s := by
  have hb : b1 = b2 := funext fun k => funext fun t => h k t
  rw [hb]

theorem axpyColW_hom (widen : S → L) (narrow : L → S)
    (hnw : ∀ x, narrow (widen x) = x)
    (hadd : ∀ u v, narrow (u + v) = narrow u + narrow v)
    (hmul : ∀ u v, narrow (u * v) = narrow u * narrow v)
    (M : Int) (A : List S) (lda : Int) (temp : L) (C : List S) (ldc : Int) (j l : Nat) :
    axpyColW widen narrow M A lda temp C ldc j l
      = axpyCol M A lda (narrow temp) C ldc j l := by
  unfold axpyColW axpyCol
  apply forUpTo_congr
  intro i c
  simp only [hadd, hmul, hnw]

theorem colNestW_hom (widen : S → L) (narrow : L → S)
    (hnw : ∀ x, narrow (widen x) = x)
    (hadd : ∀ u v, narrow (u + v) = narrow u + narrow v)
    (hmul : ∀ u v, narrow (u * v) = narrow u * narrow v)
    (M N K : Int) (alpha : S) (A : List S) (lda : Int) (B : List S)
    (bi : Nat → Nat → Int) (beta : S) (C : List S) (ldc : Int) :
    colNestW widen narrow M N K alpha A lda B bi beta C ldc
      = forUpTo N.toNat (fun j c => do
          let c ← betaCol M beta c ldc j
          forUpTo K.toNat (fun l c => do
            let b ← rd B (bi l j)
            if b ≠ 0 then
              let temp := alpha * b
              axpyCol M A lda temp c ldc j l
            else some c) c) C := by
  unfold colNestW
  simp only [axpyColW_hom widen narrow hnw hadd hmul, hmul, hnw]

theorem dotW_hom (widen : S → L) (narrow : L → S)
    (hnw : ∀ x, narrow (widen x) = x) (h0 : narrow 0 = 0)
    (hadd : ∀ u v, narrow (u + v) = narrow u + narrow v)
    (hmul : ∀ u v, narrow (u * v) = narrow u * narrow v)
    (K : Int) (A : List S) (lda : Int) (B : List S) (bi : Nat → Nat → Int) (i j : Nat) :
    (dotW widen K A lda B bi i j).map narrow
      = forUpTo K.toNat (fun l temp => do
          let a ← rd A ((l : Int) + (i : Int) * lda)
          let b ← rd B (bi l j)
          some (temp + a * b)) 0 := by
  unfold dotW
  generalize K.toNat = n
  induction n with
  | zero => simp [forUpTo, h0]
  | succ n ih =>
    simp only [forUpTo]
    rw [← ih]
    cases forUpTo n (fun l temp => do
        let a ← rd A ((l : Int) + (i : Int) * lda)
        let b ← rd B (bi l j)
        some (temp + widen a * widen b)) (0 : L) with
    | none => rfl
    | some t =>
      cases rd A ((n : Int) + (i : Int) * lda) with
      | none => rfl
      | some a =>
        cases rd B (bi n j) with
        | none => rfl
        | some b => simp [hadd, hmul, hnw]

theorem storeDotW_hom (widen : S → L) (narrow : L → S)
    (hnw : ∀ x, narrow (widen x) = x)
    (hadd : ∀ u v, narrow (u + v) = narrow u + narrow v)
    (hmul : ∀ u v, narrow (u * v) = narrow u * narrow v)
    (alpha beta : S) (temp : L) (C : List S) (ldc : Int) (i j : Nat) :
    storeDotW widen narrow alpha beta temp C ldc i j
      = storeDot alpha beta (narrow temp) C ldc i j := by
  unfold storeDotW storeDot
  simp only [hadd, hmul, hnw]

theorem dotNestW_hom (widen : S → L) (narrow : L → S)
    (hnw : ∀ x, narrow (widen x) = x) (h0 : narrow 0 = 0)
    (hadd : ∀ u v, narrow (u + v) = narrow u + narrow v)
    (hmul : ∀ u v, narrow (u * v) = narrow u * narrow v)
    (M N K : Int) (alpha : S) (A : List S) (lda : Int) (B : List S)
    (bi : Nat → Nat → Int) (beta : S) (C : List S) (ldc : Int) :
    dotNestW widen narrow M N K alpha A lda B bi beta C ldc
      = forUpTo N.toNat (fun j c =>
          forUpTo M.toNat (fun i c => do
            let temp ← forUpTo K.toNat (fun l temp => do
              let a ← rd A ((l : Int) + (i : Int) * lda)
              let b ← rd B (bi l j)
              some (temp + a * b)) 0
            storeDot alpha beta temp c ldc i j) c) C := by
  unfold dotNestW
  apply forUpTo_congr
  intro j c
  apply forUpTo_congr
  intro i c3
  rw [← dotW_hom widen narrow hnw h0 hadd hmul K A lda B bi i j]
  cases dotW widen K A lda B bi i j with
  | none => rfl
  | some t => exact storeDotW_hom widen narrow hnw hadd hmul alpha beta t c3 ldc i j

theorem computeW_hom (widen : S → L) (narrow : L → S)
    (hnw : ∀ x, narrow (widen x) = x) (h0 : narrow 0 = 0)
    (hadd : ∀ u v, narrow (u + v) = narrow u + narrow v)
    (hmul : ∀ u v, narrow (u * v) = narrow u * narrow v)
    (TransA TransB M N K : Int) (alpha : S) (A : List S) (lda : Int) (B : List S)
    (ldb : Int) (beta : S) (C : List S) (ldc : Int) :
    computeW widen narrow TransA TransB M N K alpha A lda B ldb beta C ldc
      = compute TransA TransB M N K alpha A lda B ldb beta C ldc := by
  unfold computeW compute
  split_ifs
  · rw [colNestW_hom widen narrow hnw hadd hmul]
    rfl
  · rw [dotNestW_hom widen narrow hnw h0 hadd hmul]
    rfl
  · rw [colNestW_hom widen narrow hnw hadd hmul]
    rfl
  · rw [dotNestW_hom widen narrow hnw h0 hadd hmul]
    rfl

end TwoTypeTie

theorem computeW_wrap (n : Nat) [NeZero n] (TransA TransB M N K : Int) (alpha : ZMod n)
    (A : List (ZMod n)) (lda : Int) (B : List (ZMod n)) (ldb : Int) (beta : ZMod n)
    (C : List (ZMod n)) (ldc : Int) :
    computeW (fun x : ZMod n => ((x.val : Nat) : Int)) (fun z : Int => (z : ZMod n))
        TransA TransB M N K alpha A lda B ldb beta C ldc
      = compute TransA TransB M N K alpha A lda B ldb beta C ldc :=
  computeW_hom _ _ (fun x => by simp) (by simp) (fun u v => by push_cast; rfl)
    (fun u v => by push_cast; rfl) _ _ _ _ _ _ _ _ _ _ _ _ _

/-- C17 (as stated, refuted): take `float` as the storage type and `double` as the
accumulator type, on integer values; `A = [16777216, 1, 1]`, `B = [1, 1, 1]`, `alpha = 1`,
`beta = 0`, `M = N = 1`, `K = 3`, all of them `float` values.  The column-scaling nests leave
`16777216` in `C`: the partial sum `16777217` of the second round is rounded to `16777216`
by the store into `C`, and so is the one of the third round.  The complete sum
`16777218`, narrowed once, is `16777218`. -/
theorem gemm_column_sum_rounded_each_round :
    roundF32 16777216 = 16777216 ∧ roundF32 1 = 1 ∧ roundF32 0 = 0 ∧
    computeW id roundF32 111 111 1 1 3 (1 : Int) [16777216, 1, 1] 1 [1, 1, 1] 3 0 [0] 1
      = some [16777216] ∧
    computeW id roundF32 111 112 1 1 3 (1 : Int) [16777216, 1, 1] 1 [1, 1, 1] 1 0 [0] 1
      = some [16777216] ∧
    roundF32 (axpySumW id (1 : Int) (fun l => opA 111 [16777216, 1, 1] 1 0 l)
      (fun l => opB 111 [1, 1, 1] 3 l 0) (id (betaVal 0 (0 : Int))) 3) = 16777218 ∧
    roundF32 (axpySumW id (1 : Int) (fun l => opA 111 [16777216, 1, 1] 1 0 l)
      (fun l => opB 112 [1, 1, 1] 1 l 0) (id (betaVal 0 (0 : Int))) 3) = 16777218 := by
  decide

/-- C17 (amended): for any storage type, accumulator type and conversions, a call that
passes the parameter test on buffers that are large enough makes the loop nest return,
and in the window: in the dot-product nests (`TransA != CblasNoTrans`) the whole sum over
`l` is a left fold in the accumulator type and is narrowed once, by the store of
`alpha*temp` or `alpha*temp + beta*C[i+j*ldc]`; in the column-scaling nests
(`TransA == CblasNoTrans`) only `temp = alpha * B[..]` is an accumulator value, and each
round `l` with a non-zero element of `B` narrows the partial sum that it stores into
`C[i+j*ldc]`.  When the narrowing undoes the widening and preserves `0`, `+` and `*`, as an
exact or a wrap-around conversion does, the nests with two types are the nests of the
source over the storage type. -/
theorem gemm_accumulator_use {S L : Type} [Zero S] [One S] [Add S] [Mul S] [DecidableEq S]
    [Zero L] [Add L] [Mul L] (widen : S → L) (narrow : L → S)
    (TransA TransB M N K : Int) (alpha : S) (A : List S) (lda : Int) (B : List S)
    (ldb : Int) (beta : S) (C : List S) (ldc : Int)
    (hv : validate TransA TransB M N K lda ldb ldc = none)
    (hA : lda * colsA TransA M K ≤ (A.length : Int))
    (hB : ldb * colsB TransB N K ≤ (B.length : Int))
    (hC : ldc * N ≤ (C.length : Int)) :
    (∃ c2, computeW widen narrow TransA TransB M N K alpha A lda B ldb beta C ldc = some c2 ∧
      ∀ i j : Nat, (i : Int) < M → (j : Int) < N →
        (TransA ≠ CblasNoTrans →
          rd c2 ((i : Int) + (j : Int) * ldc)
            = some (
              if beta = 0 then
                narrow (widen alpha * (List.range K.toNat).foldl
                  (fun (temp : L) (l : Nat) =>
                    temp + widen (opA TransA A lda i l) * widen (opB TransB B ldb l j)) 0)
              else
                narrow (widen alpha * (List.range K.toNat).foldl
                  (fun (temp : L) (l : Nat) =>
                    temp + widen (opA TransA A lda i l) * widen (opB TransB B ldb l j)) 0
                  + widen beta * widen (elemAt C ((i : Int) + (j : Int) * ldc))))) ∧
        (TransA = CblasNoTrans →
          rd c2 ((i : Int) + (j : Int) * ldc)
            = some ((List.range K.toNat).foldl
                (fun (x : S) (l : Nat) =>
                  if opB TransB B ldb l j ≠ 0 then
                    narrow (widen x + widen (opA TransA A lda i l)
                      * (widen alpha * widen (opB TransB B ldb l j)))
                  else x)
                (betaVal beta (elemAt C ((i : Int) + (j : Int) * ldc)))))) ∧
    ((∀ x, narrow (widen x) = x) → narrow 0 = 0 →
      (∀ u v, narrow (u + v) = narrow u + narrow v) →
      (∀ u v, narrow (u * v) = narrow u * narrow v) →
      computeW widen narrow TransA TransB M N K alpha A lda B ldb beta C ldc
        = compute TransA TransB M N K alpha A lda B ldb beta C ldc) := by
  refine ⟨?_, fun hnw h0 hadd hmul => computeW_hom widen narrow hnw h0 hadd hmul
    TransA TransB M N K alpha A lda B ldb beta C ldc⟩
  obtain ⟨c2, h, hw⟩ := computeW_spec widen narrow TransA TransB M N K alpha A lda B ldb
    beta C ldc hv hC hA hB
  refine ⟨c2, h, fun i j hi hj => ⟨fun hTA => ?_, fun hTA => ?_⟩⟩
  · rw [hw.1 i j (by omega) (by omega)]
    simp only [computeValW, if_neg hTA, storeValW, dotValW_eq_foldl]
  · rw [hw.1 i j (by omega) (by omega)]
    simp only [computeValW, if_pos hTA, axpyValW_eq_foldl]

theorem gemm_accumulator_use_witness :
    computeW id roundF32 112 111 1 1 3 (1 : Int) [16777216, 1, 1] 3 [1, 1, 1] 3 0 [0] 1
      = some [16777218] ∧
    ((∃ c2, computeW id roundF32 112 111 1 1 3 (1 : Int) [16777216, 1, 1] 3 [1, 1, 1] 3 0
          [0] 1 = some c2 ∧
      ∀ i j : Nat, (i : Int) < 1 → (j : Int) < 1 →
        ((112 : Int) ≠ CblasNoTrans →
          rd c2 ((i : Int) + (j : Int) * 1)
            = some (
              if (0 : Int) = 0 then
                roundF32 (id (1 : Int) * (List.range (3 : Int).toNat).foldl
                  (fun (temp : Int) (l : Nat) =>
                    temp + id (opA 112 [16777216, 1, 1] 3 i l)
                      * id (opB 111 [1, 1, 1] 3 l j)) 0)
              else
                roundF32 (id (1 : Int) * (List.range (3 : Int).toNat).foldl
                  (fun (temp : Int) (l : Nat) =>
                    temp + id (opA 112 [16777216, 1, 1] 3 i l)
                      * id (opB 111 [1, 1, 1] 3 l j)) 0
                  + id (0 : Int) * id (elemAt [0] ((i : Int) + (j : Int) * 1))))) ∧
        ((112 : Int) = CblasNoTrans →
          rd c2 ((i : Int) + (j : Int) * 1)
            = some ((List.range (3 : Int).toNat).foldl
                (fun (x : Int) (l : Nat) =>
                  if opB 111 ([1, 1, 1] : List Int) 3 l j ≠ 0 then
                    roundF32 (id x + id (opA 112 [16777216, 1, 1] 3 i l)
                      * (id (1 : Int) * id (opB 111 [1, 1, 1] 3 l j)))
                  else x)
                (betaVal 0 (elemAt [0] ((i : Int) + (j : Int) * 1)))))) ∧
    ((∀ x, roundF32 (id x) = x) → roundF32 0 = 0 →
      (∀ u v, roundF32 (u + v) = roundF32 u + roundF32 v) →
      (∀ u v, roundF32 (u * v) = roundF32 u * roundF32 v) →
      computeW id roundF32 112 111 1 1 3 (1 : Int) [16777216, 1, 1] 3 [1, 1, 1] 3 0 [0] 1
        = compute 112 111 1 1 3 (1 : Int) [16777216, 1, 1] 3 [1, 1, 1] 3 0 [0] 1)) :=
  ⟨by decide,
    gemm_accumulator_use id roundF32 112 111 1 1 3 (1 : Int) [16777216, 1, 1] 3 [1, 1, 1] 3
      0 [0] 1 (by decide) (by decide) (by decide) (by decide)⟩

end NMatrix
